import Mathlib

/-!
Anon-docs, the encrypted document store.

A shallow embedding of `src/js/encryption.js`, `src/js/storage.js`, `src/js/utils.js`,
`src/js/sharing.js` and the document and sharing operations of `src/js/app.js`,
with the properties of the written specification stated and settled over it.

Conventions of the embedding.

* A JavaScript string is the list of its UTF-16 code units (`JSString`), a
  `Uint8Array` is the list of its bytes (`Bytes`).
* The platform functions the source calls (`TextEncoder`, `TextDecoder`, `atob`,
  `btoa`, `String.fromCharCode`) are embedded by the algorithms of the standards
  that define them (WHATWG Encoding, HTML forgiving-base64).
* `crypto.subtle` (PBKDF2 and AES-GCM) is a parameter (`SubtleCrypto`); its
  documented contract appears as explicit hypotheses. The number of arguments
  the engine accepts in one call is a parameter too (`argumentLimit`).
* A JavaScript number with an integer value is an integer; a sum of such numbers
  is rounded to the nearest double (`numberAdd`).
* A `localStorage` item is the JSON text of a share record, of another JSON
  value, or a text that does not parse (`StoredValue`).
* `crypto.getRandomValues` reads from an explicit random tape (`Random`).
* Every `async` function is embedded by its result once awaited; a rejected
  promise or a thrown error is `Except.error`.
-/

namespace AnonDocs

/-! ## Strings and bytes -/

/-- JavaScript string, as its sequence of UTF-16 code units. -/
abbrev JSString := List Nat

/-- Contents of a `Uint8Array`. -/
abbrev Bytes := List Nat

/-- Lead (high) surrogate code unit. -/
def isLeadSurrogate (u : Nat) : Bool := 0xD800 ≤ u && u ≤ 0xDBFF

/-- Trail (low) surrogate code unit. -/
def isTrailSurrogate (u : Nat) : Bool := 0xDC00 ≤ u && u ≤ 0xDFFF

/-- Code point of a surrogate pair. -/
def surrogatePair (hi lo : Nat) : Nat := 0x10000 + (hi - 0xD800) * 0x400 + (lo - 0xDC00)

/-- Conversion of a JavaScript string to its scalar values (WebIDL `USVString`):
a surrogate pair is one code point, an unpaired surrogate becomes U+FFFD.
The first argument is the lead surrogate read and not yet paired. -/
def toScalarValuesAux : Option Nat → JSString → List Nat
  | none, [] => []
  | some _, [] => [0xFFFD]
  | none, u :: rest =>
    if isLeadSurrogate u then toScalarValuesAux (some u) rest
    else if isTrailSurrogate u then 0xFFFD :: toScalarValuesAux none rest
    else u :: toScalarValuesAux none rest
  | some hi, u :: rest =>
    if isTrailSurrogate u then surrogatePair hi u :: toScalarValuesAux none rest
    else if isLeadSurrogate u then 0xFFFD :: toScalarValuesAux (some u) rest
    else 0xFFFD :: u :: toScalarValuesAux none rest

/-- Scalar values of a JavaScript string. -/
def toScalarValues (s : JSString) : List Nat := toScalarValuesAux none s

/-- UTF-8 encoding of one scalar value. -/
def utf8EncodeCodePoint (c : Nat) : Bytes :=
  if c < 0x80 then [c]
  else if c < 0x800 then [0xC0 + c / 64, 0x80 + c % 64]
  else if c < 0x10000 then [0xE0 + c / 4096, 0x80 + c / 64 % 64, 0x80 + c % 64]
  else [0xF0 + c / 262144, 0x80 + c / 4096 % 64, 0x80 + c / 64 % 64, 0x80 + c % 64]

/-- UTF-8 encoding of a list of scalar values. -/
def utf8Encode : List Nat → Bytes
  | [] => []
  | c :: rest => utf8EncodeCodePoint c ++ utf8Encode rest

/-- Embedding of `new TextEncoder().encode(s)`. -/
def textEncode (s : JSString) : Bytes := utf8Encode (toScalarValues s)

/-- State of the WHATWG UTF-8 decoder. -/
structure Utf8Decoder where
  codePoint : Nat
  bytesSeen : Nat
  bytesNeeded : Nat
  lowerBoundary : Nat
  upperBoundary : Nat
  deriving DecidableEq, Repr

/-- Initial state of the UTF-8 decoder. -/
def Utf8Decoder.initial : Utf8Decoder :=
  { codePoint := 0, bytesSeen := 0, bytesNeeded := 0, lowerBoundary := 0x80, upperBoundary := 0xBF }

/-- UTF-8 decoder handler when no continuation byte is awaited (step 3 of the
handler); an error is emitted as U+FFFD. -/
def utf8HandleLead (byte : Nat) : Utf8Decoder × List Nat :=
  if byte ≤ 0x7F then (Utf8Decoder.initial, [byte])
  else if 0xC2 ≤ byte ∧ byte ≤ 0xDF then
    ({ Utf8Decoder.initial with bytesNeeded := 1, codePoint := byte % 32 }, [])
  else if 0xE0 ≤ byte ∧ byte ≤ 0xEF then
    ({ codePoint := byte % 16, bytesSeen := 0, bytesNeeded := 2,
       lowerBoundary := if byte = 0xE0 then 0xA0 else 0x80,
       upperBoundary := if byte = 0xED then 0x9F else 0xBF }, [])
  else if 0xF0 ≤ byte ∧ byte ≤ 0xF4 then
    ({ codePoint := byte % 8, bytesSeen := 0, bytesNeeded := 3,
       lowerBoundary := if byte = 0xF0 then 0x90 else 0x80,
       upperBoundary := if byte = 0xF4 then 0x8F else 0xBF }, [])
  else (Utf8Decoder.initial, [0xFFFD])

/-- UTF-8 decoder handler for one byte; a byte outside the awaited range is an
error and is read again from the initial state. -/
def utf8Handle (d : Utf8Decoder) (byte : Nat) : Utf8Decoder × List Nat :=
  if d.bytesNeeded = 0 then utf8HandleLead byte
  else if byte < d.lowerBoundary ∨ d.upperBoundary < byte then
    ((utf8HandleLead byte).1, 0xFFFD :: (utf8HandleLead byte).2)
  else if d.bytesSeen + 1 ≠ d.bytesNeeded then
    ({ codePoint := d.codePoint * 64 + byte % 64, bytesSeen := d.bytesSeen + 1,
       bytesNeeded := d.bytesNeeded, lowerBoundary := 0x80, upperBoundary := 0xBF }, [])
  else (Utf8Decoder.initial, [d.codePoint * 64 + byte % 64])

/-- Run of the UTF-8 decoder over a byte sequence, with replacement on error. -/
def utf8DecodeAux : Utf8Decoder → Bytes → List Nat
  | d, [] => if d.bytesNeeded ≠ 0 then [0xFFFD] else []
  | d, b :: rest => (utf8Handle d b).2 ++ utf8DecodeAux (utf8Handle d b).1 rest

/-- UTF-8 decode with replacement. -/
def utf8Decode (bs : Bytes) : List Nat := utf8DecodeAux Utf8Decoder.initial bs

/-- Byte order mark handling of `TextDecoder` with the default `ignoreBOM: false`:
a leading U+FEFF is dropped from the output. -/
def stripBOM : List Nat → List Nat
  | 0xFEFF :: rest => rest
  | cps => cps

/-- UTF-16 code units of one code point. -/
def codePointToUnits (c : Nat) : JSString :=
  if c < 0x10000 then [c]
  else [0xD800 + (c - 0x10000) / 0x400, 0xDC00 + (c - 0x10000) % 0x400]

/-- JavaScript string of a list of code points. -/
def fromCodePoints : List Nat → JSString
  | [] => []
  | c :: rest => codePointToUnits c ++ fromCodePoints rest

/-- Embedding of `new TextDecoder().decode(bytes)`. -/
def textDecode (bs : Bytes) : JSString := fromCodePoints (stripBOM (utf8Decode bs))

/-- Embedding of `String.prototype.isWellFormed`: every code unit is below 65536 and no
surrogate is unpaired. The first argument tells whether a lead surrogate awaits
its trail. -/
def isWellFormedAux : Bool → JSString → Bool
  | pending, [] => !pending
  | false, u :: rest =>
    if isLeadSurrogate u then isWellFormedAux true rest
    else if isTrailSurrogate u then false
    else decide (u < 0x10000) && isWellFormedAux false rest
  | true, u :: rest => isTrailSurrogate u && isWellFormedAux false rest

/-- Well-formed JavaScript string. -/
def isWellFormed (s : JSString) : Bool := isWellFormedAux false s

/-- JavaScript string of a Lean string literal. -/
def js (s : String) : JSString := fromCodePoints (s.data.map Char.toNat)

/-! ## Base64: `btoa` and `atob` -/

/-- Character of the base64 alphabet for a 6-bit value. -/
def base64Char (n : Nat) : Nat :=
  if n < 26 then 65 + n
  else if n < 52 then 97 + (n - 26)
  else if n < 62 then 48 + (n - 52)
  else if n = 62 then 43
  else 47

/-- Base64 encoding with padding of a byte sequence. -/
def base64Encode : Bytes → JSString
  | a :: b :: c :: rest =>
    base64Char (a / 4) :: base64Char (a % 4 * 16 + b / 16) ::
      base64Char (b % 16 * 4 + c / 64) :: base64Char (c % 64) :: base64Encode rest
  | [a, b] => [base64Char (a / 4), base64Char (a % 4 * 16 + b / 16), base64Char (b % 16 * 4), 61]
  | [a] => [base64Char (a / 4), base64Char (a % 4 * 16), 61, 61]
  | [] => []

/-- Embedding of `String.fromCharCode(...bytes)`: each argument is taken modulo 65536. -/
def fromCharCode (xs : List Nat) : JSString := xs.map (fun x => x % 65536)

/-- Embedding of `btoa(s)`: fails (InvalidCharacterError) when a code unit exceeds U+00FF. -/
def btoa (s : JSString) : Option JSString :=
  if s.all (fun u => decide (u ≤ 0xFF)) then some (base64Encode s) else none

/-- ASCII whitespace of the forgiving-base64 decode algorithm. -/
def isAsciiWhitespace (u : Nat) : Bool := u == 9 || u == 10 || u == 12 || u == 13 || u == 32

/-- Six-bit value of a base64 alphabet character. -/
def base64Value (u : Nat) : Option Nat :=
  if 65 ≤ u ∧ u ≤ 90 then some (u - 65)
  else if 97 ≤ u ∧ u ≤ 122 then some (u - 97 + 26)
  else if 48 ≤ u ∧ u ≤ 57 then some (u - 48 + 52)
  else if u = 43 then some 62
  else if u = 47 then some 63
  else none

/-- Six-bit values of a string over the base64 alphabet; `none` when a code
unit is outside the alphabet. -/
def base64Values : JSString → Option (List Nat)
  | [] => some []
  | u :: rest =>
    match base64Value u, base64Values rest with
    | some v, some vs => some (v :: vs)
    | _, _ => none

/-- Removal of the padding: when the length is a multiple of four, one or two
trailing `=` are removed. -/
def stripPadding (s : JSString) : JSString :=
  if s.length % 4 = 0 then
    if s.getLast? = some 61 then
      if s.dropLast.getLast? = some 61 then s.dropLast.dropLast else s.dropLast
    else s
  else s

/-- Bytes of a sequence of six-bit values: three bytes per four values, two
for three trailing values, one for two. -/
def decodeSextets : List Nat → Bytes
  | a :: b :: c :: d :: rest =>
    (a * 4 + b / 16) :: (b % 16 * 16 + c / 4) :: (c % 4 * 64 + d) :: decodeSextets rest
  | [a, b, c] => [a * 4 + b / 16, b % 16 * 16 + c / 4]
  | [a, b] => [a * 4 + b / 16]
  | _ => []

/-- Embedding of `atob(s)` (forgiving-base64 decode); `none` is the InvalidCharacterError. -/
def atob (s : JSString) : Option JSString :=
  let data := stripPadding (s.filter (fun u => !isAsciiWhitespace u))
  if data.length % 4 = 1 then none
  else
    match base64Values data with
    | some vs => some (decodeSextets vs)
    | none => none

/-! ## `EncryptionManager` (src/js/encryption.js) -/

/-- Parameters of a `crypto.subtle.deriveKey` call as `generateKey` makes it. -/
structure DeriveParams where
  name : String
  salt : Bytes
  iterations : Nat
  hash : String
  algorithm : String
  length : Nat
  deriving DecidableEq, Repr

/-- The platform under `EncryptionManager`: the `crypto.subtle` operations the
source calls, and the argument limit of the engine. `deriveKey` stands for
`importKey` followed by `deriveKey` on the password bytes; `encrypt` and
`decrypt` take the algorithm name, the IV, the key and the data; `none` is a
rejected promise. `argumentLimit` is the largest number of arguments the engine
accepts in one call: a spread call with more throws a RangeError. -/
structure SubtleCrypto (Key : Type) where
  deriveKey : Bytes → DeriveParams → Option Key
  encrypt : String → Bytes → Key → Bytes → Option Bytes
  decrypt : String → Bytes → Key → Bytes → Option Bytes
  argumentLimit : Nat

/-- Random source behind `crypto.getRandomValues`: the bytes it will produce,
and how many were consumed. -/
structure Random where
  tape : Nat → Nat
  pos : Nat

/-- Embedding of `crypto.getRandomValues(new Uint8Array(n))`: the next `n` bytes of the source. -/
def getRandomValues (r : Random) (n : Nat) : Bytes × Random :=
  ((List.range n).map (fun i => r.tape (r.pos + i) % 256), { r with pos := r.pos + n })

/-- Fields set by the constructor of `EncryptionManager`. -/
structure EncryptionManager where
  algorithm : String
  keyDerivation : String
  hash : String
  iterations : Nat
  deriving DecidableEq, Repr

/-- Embedding of `new EncryptionManager()`. -/
def encryptionManager : EncryptionManager :=
  { algorithm := "AES-GCM", keyDerivation := "PBKDF2", hash := "SHA-256", iterations := 100000 }

/-- Embedding of `EncryptionManager.generateKey(password, salt)`. -/
def EncryptionManager.generateKey {Key : Type} (sc : SubtleCrypto Key) (em : EncryptionManager)
    (password : JSString) (salt : Bytes) : Option Key :=
  sc.deriveKey (textEncode password)
    { name := em.keyDerivation, salt := salt, iterations := em.iterations, hash := em.hash,
      algorithm := em.algorithm, length := 256 }

/-- Embedding of `EncryptionManager.generateSalt()`. -/
def EncryptionManager.generateSalt (r : Random) : Bytes × Random := getRandomValues r 16

/-- Embedding of `EncryptionManager.generateIV()`. -/
def EncryptionManager.generateIV (r : Random) : Bytes × Random := getRandomValues r 12

/-- Message of the error thrown by `encrypt`. -/
def encryptError : String := "Failed to encrypt data"

/-- Message of the error thrown by `decrypt`. -/
def decryptError : String := "Failed to decrypt data - incorrect password"

/-- Embedding of the spread call `String.fromCharCode(...result)`: every element of the array
is one argument, and `none` is the RangeError of a call with more arguments
than `limit`. -/
def fromCharCodeSpread (limit : Nat) (result : Bytes) : Option JSString :=
  if result.length ≤ limit then some (fromCharCode result) else none

/-- Body of the `try` block of `encrypt`, given the salt and IV drawn;
`none` when a statement throws. -/
def EncryptionManager.encryptWith {Key : Type} (sc : SubtleCrypto Key) (em : EncryptionManager)
    (salt iv : Bytes) (data password : JSString) : Option JSString :=
  match EncryptionManager.generateKey sc em password salt with
  | none => none
  | some key =>
    match sc.encrypt em.algorithm iv key (textEncode data) with
    | none => none
    | some encryptedData =>
      match fromCharCodeSpread sc.argumentLimit (salt ++ iv ++ encryptedData) with
      | none => none
      | some text => btoa text

/-- Embedding of `EncryptionManager.encrypt(data, password)`: the envelope or the error,
and the random source after the call. -/
def EncryptionManager.encrypt {Key : Type} (sc : SubtleCrypto Key) (em : EncryptionManager) (r : Random)
    (data password : JSString) : Except String JSString × Random :=
  let salt := EncryptionManager.generateSalt r
  let iv := EncryptionManager.generateIV salt.2
  match EncryptionManager.encryptWith sc em salt.1 iv.1 data password with
  | some envelope => (.ok envelope, iv.2)
  | none => (.error encryptError, iv.2)

/-- Embedding of `Uint8Array.from(s, c => c.charCodeAt(0))`. -/
def uint8ArrayFrom (s : JSString) : Bytes := s.map (fun c => c % 256)

/-- Embedding of `Uint8Array.prototype.slice(start, end)` for `start ≤ end`. -/
def slice (data : Bytes) (start stop : Nat) : Bytes := (data.drop start).take (stop - start)

/-- Body of the `try` block of `decrypt`; `none` when a statement throws. -/
def EncryptionManager.decryptBody {Key : Type} (sc : SubtleCrypto Key) (em : EncryptionManager)
    (encryptedData password : JSString) : Option JSString :=
  match atob encryptedData with
  | none => none
  | some bin =>
    let data := uint8ArrayFrom bin
    let salt := slice data 0 16
    let iv := slice data 16 28
    let encryptedContent := data.drop 28
    match EncryptionManager.generateKey sc em password salt with
    | none => none
    | some key =>
      match sc.decrypt em.algorithm iv key encryptedContent with
      | none => none
      | some decryptedData => some (textDecode decryptedData)

/-- Embedding of `EncryptionManager.decrypt(encryptedData, password)`. -/
def EncryptionManager.decrypt {Key : Type} (sc : SubtleCrypto Key) (em : EncryptionManager)
    (encryptedData password : JSString) : Except String JSString :=
  match EncryptionManager.decryptBody sc em encryptedData password with
  | some text => .ok text
  | none => .error decryptError

/-- Embedding of `EncryptionManager.isEncrypted(data)`. -/
def EncryptionManager.isEncrypted (data : JSString) : Bool :=
  match atob data with
  | some decoded => decide (decoded.length ≥ 28)
  | none => false

/-- Parameters of the `deriveKey` call that `generateKey` of `new EncryptionManager()` makes
for a salt: PBKDF2 with SHA-256 and 100000 iterations, for a 256-bit AES-GCM
key. -/
def pbkdf2Params (salt : Bytes) : DeriveParams :=
  { name := "PBKDF2", salt := salt, iterations := 100000, hash := "SHA-256",
    algorithm := "AES-GCM", length := 256 }

/-- Contract of `crypto.subtle` for the calls that `new EncryptionManager()` makes: for
password bytes, a salt of 16 bytes, an IV of 12 bytes and a plaintext whose
envelope stays within the argument limit, PBKDF2 derives a key, AES-GCM under
that key and IV encrypts the plaintext into a byte sequence 16 bytes longer
(the plaintext length plus the 128-bit tag), and decryption under the same key
and IV returns the plaintext. -/
def SubtleCrypto.Sound {Key : Type} (sc : SubtleCrypto Key) : Prop :=
  ∀ (pw salt iv pt : Bytes), salt.length = 16 → iv.length = 12 →
    (∀ b ∈ salt, b < 256) → (∀ b ∈ iv, b < 256) → (∀ b ∈ pt, b < 256) →
    pt.length + 44 ≤ sc.argumentLimit →
    ∃ key ct, sc.deriveKey pw (pbkdf2Params salt) = some key ∧
      sc.encrypt "AES-GCM" iv key pt = some ct ∧
      (∀ b ∈ ct, b < 256) ∧ ct.length = pt.length + 16 ∧
      sc.decrypt "AES-GCM" iv key ct = some pt

/-- A ciphertext of AES-GCM with the default 128-bit tag is 16 bytes longer than the
plaintext. -/
def SubtleCrypto.AddsTag {Key : Type} (sc : SubtleCrypto Key) : Prop :=
  ∀ (iv pt ct : Bytes) (key : Key), sc.encrypt "AES-GCM" iv key pt = some ct →
    ct.length = pt.length + 16

/-- Idealised authentication of AES-GCM: what was sealed under one key is rejected
under every other key. -/
def SubtleCrypto.KeySeparating {Key : Type} (sc : SubtleCrypto Key) : Prop :=
  ∀ (iv pt ct : Bytes) (key1 key2 : Key), key1 ≠ key2 →
    sc.encrypt "AES-GCM" iv key1 pt = some ct → sc.decrypt "AES-GCM" iv key2 ct = none

/-- AES-GCM with its 128-bit tag rejects a ciphertext shorter than the tag. -/
def SubtleCrypto.RejectsShort {Key : Type} (sc : SubtleCrypto Key) : Prop :=
  ∀ (alg : String) (iv : Bytes) (key : Key) (ct : Bytes), ct.length < 16 → sc.decrypt alg iv key ct = none

/-- Keystream byte of the demonstration cipher. -/
def demoPad (key : Nat) (i : Nat) : Nat := (key + 7 * i) % 256

/-- Byte-wise masking with the keystream of the demonstration cipher, from
position `i` on. -/
def demoMask (key : Nat) : Nat → Bytes → Bytes
  | _, [] => []
  | i, b :: rest => (b % 256 + demoPad key i) % 256 :: demoMask key (i + 1) rest

/-- Inverse of `demoMask`. -/
def demoUnmask (key : Nat) : Nat → Bytes → Bytes
  | _, [] => []
  | i, b :: rest => (b % 256 + 256 - demoPad key i) % 256 :: demoUnmask key (i + 1) rest

/-- Sixteen-byte tag of the demonstration cipher. -/
def demoTag (key : Nat) (iv : Bytes) (pt : Bytes) : Bytes :=
  (List.range 16).map (fun i => (key + iv.sum + pt.sum + pt.length + i) % 256)

/-- Key of the demonstration cipher. -/
def demoKey (pw : Bytes) (p : DeriveParams) : Nat := pw.sum + 31 * pw.length + p.salt.sum

/-- Demonstration instance of `SubtleCrypto` (not a secure cipher): the key is a
checksum of password and salt, the ciphertext is the masked plaintext followed
by a sixteen-byte tag, and decryption checks the tag. It serves as a concrete
provider satisfying the contract. -/
def demoCrypto : SubtleCrypto Nat where
  deriveKey := fun pw p => some (demoKey pw p)
  encrypt := fun _ iv key pt =>
    if pt.all (fun b => decide (b < 256)) then some (demoMask key 0 pt ++ demoTag key iv pt) else none
  decrypt := fun _ iv key ct =>
    if ct.length < 16 then none
    else
      let pt := demoUnmask key 0 (ct.take (ct.length - 16))
      if ct.drop (ct.length - 16) = demoTag key iv pt then some pt else none
  argumentLimit := 65535

/-- The `n` low base-256 digits of `k`, lowest first. -/
def keyDigits : Nat → Nat → Bytes
  | 0, _ => []
  | n + 1, k => k % 256 :: keyDigits n (k / 256)

/-- Second demonstration instance of the platform (not a secure cipher), one that
also separates keys: a key is a number below 256^16, computed from the sum of
the password bytes and the sum of the salt, so that passwords with the same sum
of bytes (such as `a` and `a` followed by U+0000) derive the same key; the
ciphertext is the masked plaintext followed by the sixteen base-256 digits of
the key, and decryption rejects a ciphertext that does not end in the digits of
its key. -/
def tagCrypto : SubtleCrypto (Fin (256 ^ 16)) where
  deriveKey := fun pw p =>
    some ⟨(pw.sum + 31 * p.salt.sum) % 256 ^ 16, Nat.mod_lt _ (by decide)⟩
  encrypt := fun _ _ key pt =>
    if pt.all (fun b => decide (b < 256)) then
      some (demoMask key.val 0 pt ++ keyDigits 16 key.val)
    else none
  decrypt := fun _ _ key ct =>
    if ct.length < 16 then none
    else if ct.drop (ct.length - 16) = keyDigits 16 key.val then
      some (demoUnmask key.val 0 (ct.take (ct.length - 16)))
    else none
  argumentLimit := 65535

/-! ## `Utils.parseTags` (src/js/utils.js) -/

/-- Embedding of `String.prototype.split(sep)` for a one-character separator. -/
def splitOn (sep : Nat) : JSString → List JSString
  | [] => [[]]
  | c :: rest =>
    if c = sep then [] :: splitOn sep rest
    else
      match splitOn sep rest with
      | [] => [[c]]
      | piece :: pieces => (c :: piece) :: pieces

/-- White space and line terminators that `String.prototype.trim` removes. -/
def isJsWhitespace (u : Nat) : Bool :=
  u == 9 || u == 10 || u == 11 || u == 12 || u == 13 || u == 32 || u == 0xA0 || u == 0x1680 ||
  (0x2000 ≤ u && u ≤ 0x200A) || u == 0x2028 || u == 0x2029 || u == 0x202F || u == 0x205F ||
  u == 0x3000 || u == 0xFEFF

/-- Embedding of `String.prototype.trim`. -/
def trim (s : JSString) : JSString :=
  ((s.dropWhile isJsWhitespace).reverse.dropWhile isJsWhitespace).reverse

/-- Embedding of `Utils.parseTags(tagsString)`. -/
def parseTags (tagsString : JSString) : List JSString :=
  ((splitOn 44 tagsString).map trim).filter (fun tag => decide (tag.length > 0))

/-! ## `StorageManager` (src/js/storage.js) -/

/-- Document record of the `documents` object store. -/
structure Document where
  id : JSString
  title : JSString
  content : JSString
  createdAt : JSString
  updatedAt : JSString
  encrypted : Bool
  tags : List JSString
  deriving DecidableEq, Repr

/-- Tag record of the `tags` object store; `documentCount` is a JavaScript number
with an integer value (arithmetic on it is double arithmetic, see `numberAdd`). -/
structure Tag where
  name : JSString
  documentCount : Int
  deriving DecidableEq, Repr

/-- Setting record of the `settings` object store. -/
structure Setting where
  key : JSString
  value : JSString
  deriving DecidableEq, Repr

/-- Order of IndexedDB string keys: code unit by code unit. -/
def keyLt : JSString → JSString → Bool
  | [], [] => false
  | [], _ :: _ => true
  | _ :: _, [] => false
  | a :: as, b :: bs => if a < b then true else if b < a then false else keyLt as bs

/-- Insertion of a record at its place in key order. -/
def insertByKey {α : Type} (key : α → JSString) (r : α) : List α → List α
  | [] => [r]
  | x :: rest => if keyLt (key r) (key x) then r :: x :: rest else x :: insertByKey key r rest

/-- Embedding of `IDBObjectStore.put(record)` on a store with an in-line key: the record
replaces the one stored under its key, or is added. -/
def storePut {α : Type} (key : α → JSString) (r : α) (records : List α) : List α :=
  insertByKey key r (records.filter (fun x => decide (key x ≠ key r)))

/-- Embedding of `IDBObjectStore.get(key)`; `none` is `undefined`. -/
def storeGet {α : Type} (key : α → JSString) (k : JSString) (records : List α) : Option α :=
  records.find? (fun x => decide (key x = k))

/-- Embedding of `IDBObjectStore.delete(key)`. -/
def storeDelete {α : Type} (key : α → JSString) (k : JSString) (records : List α) : List α :=
  records.filter (fun x => decide (key x ≠ k))

/-- Outcome of one IndexedDB request: `onsuccess`, or `onerror` with `request.error`. -/
inductive RequestOutcome where
  | success
  | failure (error : String)
  deriving DecidableEq, Repr

/-- The IndexedDB database `AnonDocsDB`: its three object stores, each listed in
key order, and the environment of its requests: `outcomes n` is the outcome of
the `n`-th request issued, `issued` the number of requests issued so far. -/
structure Database where
  documents : List Document
  tags : List Tag
  settings : List Setting
  outcomes : Nat → RequestOutcome
  issued : Nat

/-- Outcome of the next request of the database. -/
def Database.next (db : Database) : RequestOutcome := db.outcomes db.issued

/-- Database after one more request was issued. -/
def Database.tick (db : Database) : Database := { db with issued := db.issued + 1 }

/-- State of the `StorageManager`: `db` is `null` until `init` completes. -/
structure StorageManager where
  db : Option Database

/-- Message of the error thrown by `getDB`. -/
def notInitialized : String := "Database not initialized"

/-- Embedding of `StorageManager.getDB()`. -/
def StorageManager.getDB (sm : StorageManager) : Except String Database :=
  match sm.db with
  | none => .error notInitialized
  | some db => .ok db

/-- Embedding of `StorageManager.saveDocument(document)`. -/
def StorageManager.saveDocument (sm : StorageManager) (document : Document) :
    Except String Document × StorageManager :=
  match sm.getDB with
  | .error e => (.error e, sm)
  | .ok db =>
    match db.next with
    | .success =>
      (.ok document,
        { db := some { db.tick with documents := storePut Document.id document db.documents } })
    | .failure e => (.error e, { db := some db.tick })

/-- Embedding of `StorageManager.getDocument(id)`; `none` is `undefined`. -/
def StorageManager.getDocument (sm : StorageManager) (id : JSString) :
    Except String (Option Document) × StorageManager :=
  match sm.getDB with
  | .error e => (.error e, sm)
  | .ok db =>
    match db.next with
    | .success => (.ok (storeGet Document.id id db.documents), { db := some db.tick })
    | .failure e => (.error e, { db := some db.tick })

/-- Embedding of `StorageManager.getAllDocuments()`. -/
def StorageManager.getAllDocuments (sm : StorageManager) : Except String (List Document) × StorageManager :=
  match sm.getDB with
  | .error e => (.error e, sm)
  | .ok db =>
    match db.next with
    | .success => (.ok db.documents, { db := some db.tick })
    | .failure _ => (.ok [], { db := some db.tick })

/-- Embedding of `StorageManager.deleteDocument(id)`. -/
def StorageManager.deleteDocument (sm : StorageManager) (id : JSString) : Except String Unit × StorageManager :=
  match sm.getDB with
  | .error e => (.error e, sm)
  | .ok db =>
    match db.next with
    | .success =>
      (.ok (), { db := some { db.tick with documents := storeDelete Document.id id db.documents } })
    | .failure e => (.error e, { db := some db.tick })

/-- Comparison behind `sort((a, b) => b.documentCount - a.documentCount)`:
`a` may stand before `b`. -/
def tagOrder (a b : Tag) : Prop := b.documentCount ≤ a.documentCount

instance : DecidableRel tagOrder := fun a b => inferInstanceAs (Decidable (b.documentCount ≤ a.documentCount))

/-- Embedding of `StorageManager.getAllTags()`: the tags by document count descending
(`Array.prototype.sort` is stable). -/
def StorageManager.getAllTags (sm : StorageManager) : Except String (List Tag) × StorageManager :=
  match sm.getDB with
  | .error e => (.error e, sm)
  | .ok db =>
    match db.next with
    | .success => (.ok (db.tags.insertionSort tagOrder), { db := some db.tick })
    | .failure _ => (.ok [], { db := some db.tick })

/-- Distance between neighbouring doubles at the natural number `a`: 1 below
2^53 and twice as much with every further binary digit. The first argument
bounds the number of digits looked at. -/
def doubleSpacing : Nat → Nat → Nat
  | 0, _ => 1
  | fuel + 1, a => if a < 2 ^ 53 then 1 else 2 * doubleSpacing fuel (a / 2)

/-- Double nearest to a natural number below 2^1024 (IEEE 754 round to nearest,
ties to the even significand); every natural number up to 2^53 is a double. -/
def roundNatToDouble (a : Nat) : Nat :=
  let q := doubleSpacing 1024 a
  let m := a / q
  let rest := a % q
  if 2 * rest < q then m * q
  else if q < 2 * rest then (m + 1) * q
  else if m % 2 = 0 then m * q else (m + 1) * q

/-- Embedding of the sum `x + y` of two JavaScript numbers with integer values: the exact
sum rounded to the nearest double. -/
def numberAdd (x y : Int) : Int :=
  if 0 ≤ x + y then (roundNatToDouble (x + y).toNat : Int)
  else -(roundNatToDouble (-(x + y)).toNat : Int)

/-- Tag record that `updateTagCount` writes, from the record read (`none` is
`undefined`); `tag.documentCount += increment ? 1 : -1` is an addition of
JavaScript numbers. -/
def bumpTag (tagName : JSString) (increment : Bool) : Option Tag → Tag
  | none => { name := tagName, documentCount := if increment then 1 else 0 }
  | some tag =>
    let count := numberAdd tag.documentCount (if increment then 1 else -1)
    { tag with documentCount := if count < 0 then 0 else count }

/-- Embedding of `StorageManager.updateTagCount(tagName, increment)`: a `get` request, then a
`put` request when the `get` succeeded. -/
def StorageManager.updateTagCount (sm : StorageManager) (tagName : JSString) (increment : Bool) :
    Except String Tag × StorageManager :=
  match sm.getDB with
  | .error e => (.error e, sm)
  | .ok db =>
    match db.next with
    | .failure _ =>
      (.ok { name := tagName, documentCount := if increment then 1 else 0 }, { db := some db.tick })
    | .success =>
      let tag := bumpTag tagName increment (storeGet Tag.name tagName db.tags)
      match db.tick.next with
      | .success => (.ok tag, { db := some { db.tick.tick with tags := storePut Tag.name tag db.tags } })
      | .failure _ => (.ok tag, { db := some db.tick.tick })

/-- Embedding of `String.prototype.includes(q)`: `q` occurs in `s` at some position. -/
def includes : JSString → JSString → Bool
  | [], q => q.isPrefixOf []
  | c :: s, q => q.isPrefixOf (c :: s) || includes s q

/-- Test of the cursor loop of `searchDocuments` on one document, for the
lower-cased query; `toLowerCase` is `String.prototype.toLowerCase`. -/
def searchMatches (toLowerCase : JSString → JSString) (query : JSString) (doc : Document) : Bool :=
  includes (toLowerCase doc.title) (toLowerCase query) ||
    includes (toLowerCase doc.content) (toLowerCase query)

/-- Embedding of `StorageManager.searchDocuments(query)`: the cursor walks the store in key
order and keeps the documents that pass the test. `toLowerCase` is the
platform function `String.prototype.toLowerCase`, taken as a parameter. -/
def StorageManager.searchDocuments (toLowerCase : JSString → JSString) (sm : StorageManager)
    (query : JSString) : Except String (List Document) × StorageManager :=
  match sm.getDB with
  | .error e => (.error e, sm)
  | .ok db =>
    match db.next with
    | .success => (.ok (db.documents.filter (searchMatches toLowerCase query)), { db := some db.tick })
    | .failure _ => (.ok [], { db := some db.tick })

/-- Entries of the index `tags` of the `documents` store (`multiEntry: true`):
for every document one entry per distinct element of its `tags` array, with
that element as key. Entries with the same key are listed in the order of the
store, that is by primary key. -/
def tagsIndex (documents : List Document) : List (JSString × Document) :=
  documents.flatMap (fun d => d.tags.dedup.map (fun t => (t, d)))

/-- Embedding of `StorageManager.getDocumentsByTag(tag)`: the values of the index entries whose
key is `tag` (`IDBKeyRange.only(tag)`). -/
def StorageManager.getDocumentsByTag (sm : StorageManager) (tag : JSString) :
    Except String (List Document) × StorageManager :=
  match sm.getDB with
  | .error e => (.error e, sm)
  | .ok db =>
    match db.next with
    | .success =>
      (.ok (((tagsIndex db.documents).filter (fun e => decide (e.1 = tag))).map Prod.snd),
        { db := some db.tick })
    | .failure _ => (.ok [], { db := some db.tick })

/-- Embedding of `StorageManager.saveSetting(key, value)`: a failed request is logged and the
promise resolves all the same. -/
def StorageManager.saveSetting (sm : StorageManager) (key value : JSString) :
    Except String Unit × StorageManager :=
  match sm.getDB with
  | .error e => (.error e, sm)
  | .ok db =>
    match db.next with
    | .success =>
      (.ok (), { db := some { db.tick with
        settings := storePut Setting.key { key := key, value := value } db.settings } })
    | .failure _ => (.ok (), { db := some db.tick })

/-- Embedding of `StorageManager.getSetting(key)`; `none` is `null`. -/
def StorageManager.getSetting (sm : StorageManager) (key : JSString) :
    Except String (Option JSString) × StorageManager :=
  match sm.getDB with
  | .error e => (.error e, sm)
  | .ok db =>
    match db.next with
    | .success => (.ok ((storeGet Setting.key key db.settings).map Setting.value), { db := some db.tick })
    | .failure _ => (.ok none, { db := some db.tick })

/-- Export bundle; a field is `none` when the property is absent from the object
handed to `importData`. -/
structure Bundle where
  documents : Option (List Document)
  tags : Option (List Tag)
  settings : Option (List Setting)
  deriving DecidableEq, Repr

/-- The bundle `{ documents: [], tags: [], settings: [] }`. -/
def emptyBundle : Bundle := { documents := some [], tags := some [], settings := some [] }

/-- The promise inside `exportData` that reads all settings: an error, thrown or
reported by the request, gives the empty list. -/
def StorageManager.exportSettings (sm : StorageManager) : List Setting × StorageManager :=
  match sm.getDB with
  | .error _ => ([], sm)
  | .ok db =>
    match db.next with
    | .success => (db.settings, { db := some db.tick })
    | .failure _ => ([], { db := some db.tick })

/-- Embedding of `StorageManager.exportData()`: an error thrown by one of the reads is caught
and the empty bundle is returned. -/
def StorageManager.exportData (sm : StorageManager) : Except String Bundle × StorageManager :=
  match sm.getAllDocuments with
  | (.error _, sm1) => (.ok emptyBundle, sm1)
  | (.ok documents, sm1) =>
    match sm1.getAllTags with
    | (.error _, sm2) => (.ok emptyBundle, sm2)
    | (.ok tags, sm2) =>
      (.ok { documents := some documents, tags := some tags,
             settings := some sm2.exportSettings.1 }, sm2.exportSettings.2)

/-- Whether the next `n` requests of the database all succeed. -/
def Database.nextSucceed (db : Database) (n : Nat) : Bool :=
  (List.range n).all (fun i => db.outcomes (db.issued + i) == .success)

/-- Database after `n` more requests were issued. -/
def Database.ticks (db : Database) (n : Nat) : Database := { db with issued := db.issued + n }

/-- Content of an object store after it was cleared and the records of the
bundle were `put` one after the other; an absent property puts nothing. -/
def importStore {α : Type} (key : α → JSString) : Option (List α) → List α
  | none => []
  | some records => records.foldl (fun store r => storePut key r store) []

/-- Number of `put` requests that `importData` issues for a property of the bundle. -/
def putCount {α : Type} : Option (List α) → Nat
  | none => 0
  | some records => records.length

/-- Embedding of `StorageManager.importData(data)`: one transaction issues three `clear`
requests and then one `put` request per record. When all of them succeed the
transaction completes. A request that fails aborts the transaction, which
leaves the three stores as they were; after a failed `clear` no `put` is issued.
The promise is rejected only by the error of `getDB`. -/
def StorageManager.importData (sm : StorageManager) (data : Bundle) :
    Except String Unit × StorageManager :=
  match sm.getDB with
  | .error e => (.error e, sm)
  | .ok db =>
    let puts := putCount data.documents + putCount data.tags + putCount data.settings
    if db.nextSucceed 3 then
      if (db.ticks 3).nextSucceed puts then
        (.ok (), { db := some { db.ticks (3 + puts) with
          documents := importStore Document.id data.documents,
          tags := importStore Tag.name data.tags,
          settings := importStore Setting.key data.settings } })
      else (.ok (), { db := some (db.ticks (3 + puts)) })
    else (.ok (), { db := some (db.ticks 3) })

/-- Embedding of `new StorageManager()`: the handle is `null`. -/
def StorageManager.create : StorageManager := { db := none }

/-- Embedding of `StorageManager.close()`. -/
def StorageManager.close (_sm : StorageManager) : StorageManager := { db := none }

/-! ## Save path of `AnonDocsApp` (src/js/app.js) -/

/-- Fields of the editor panel read by `saveDocument`, and the clock. -/
structure EditorFields where
  title : JSString
  content : JSString
  tags : JSString
  now : JSString

/-- State of the application that the save path reads and writes; `storage` is
the global `storageManager`. -/
structure AnonDocsApp where
  currentDocument : Option Document
  isEditing : Bool
  storage : StorageManager

/-- The loop of `updateTags`: a tag whose name was not among the names read
before the loop gets `updateTagCount(tag, true)`; a call that throws ends the
loop. -/
def updateTagsLoop (existingTagNames : List JSString) :
    StorageManager → List JSString → StorageManager
  | sm, [] => sm
  | sm, tag :: rest =>
    if existingTagNames.contains tag then updateTagsLoop existingTagNames sm rest
    else
      match sm.updateTagCount tag true with
      | (.ok _, sm') => updateTagsLoop existingTagNames sm' rest
      | (.error _, sm') => sm'

/-- Embedding of `AnonDocsApp.updateTags(tags)`: an error is caught and only logged. The
refresh of the tag list in the page (`updateTagsList`) only reads the store and
is left out. -/
def updateTags (sm : StorageManager) (tags : List JSString) : StorageManager :=
  match sm.getAllTags with
  | (.error _, sm') => sm'
  | (.ok allTags, sm') => updateTagsLoop (allTags.map Tag.name) sm' tags

/-- Embedding of `AnonDocsApp.loadDocuments()`, as far as the store is concerned: it reads
all documents. -/
def loadDocuments (sm : StorageManager) : StorageManager := sm.getAllDocuments.2

/-- Embedding of `AnonDocsApp.saveDocument()`. -/
def AnonDocsApp.saveDocument (app : AnonDocsApp) (fields : EditorFields) : AnonDocsApp :=
  match app.currentDocument with
  | none => app
  | some doc =>
    let doc' : Document :=
      { doc with title := fields.title, content := fields.content,
                 tags := parseTags fields.tags, updatedAt := fields.now }
    match app.storage.saveDocument doc' with
    | (.error _, sm) => { app with currentDocument := some doc', storage := sm }
    | (.ok _, sm) =>
      { app with currentDocument := some doc', storage := loadDocuments (updateTags sm doc'.tags) }

/-- Embedding of `AnonDocsApp.openDocumentEditor(doc)`. -/
def AnonDocsApp.openDocumentEditor (app : AnonDocsApp) (doc : Document) : AnonDocsApp :=
  { app with currentDocument := some doc, isEditing := true }

/-- The document `createDocument` makes, from the generated id and the clock. -/
def newDocument (id now : JSString) : Document :=
  { id := id, title := js "Untitled Document",
    content := js "<p>Start writing your document here...</p>",
    createdAt := now, updatedAt := now, encrypted := false, tags := [] }

/-- Embedding of `AnonDocsApp.createDocument()`, given the id `Utils.generateId()` returns. -/
def AnonDocsApp.createDocument (app : AnonDocsApp) (id now : JSString) : AnonDocsApp :=
  app.openDocumentEditor (newDocument id now)

/-- Number of stored documents whose tags contain `name`. -/
def documentsWithTag (documents : List Document) (name : JSString) : Nat :=
  (documents.filter (fun d => d.tags.contains name)).length

/-- Database with empty stores in which every request succeeds. -/
def emptyDatabase : Database :=
  { documents := [], tags := [], settings := [], outcomes := fun _ => .success, issued := 0 }

/-! ## `SharingManager` (src/js/sharing.js) -/

/-- Share metadata object. A date field holds the time value, in milliseconds,
of the ISO string that `toISOString()` wrote and `new Date(...)` reads back.
The objects that `SharingManager.generateShareKey` writes have all five
properties; the share data that `AnonDocsApp.generateSharedKey` writes has no
`shareKey` and no `requiresPassword` (`none` is an absent property). -/
structure ShareMetadata where
  documentId : JSString
  shareKey : Option JSString
  createdAt : Int
  expiresAt : Int
  requiresPassword : Option Bool
  deriving DecidableEq, Repr

/-- What the code reads of a truthy JSON value that is not a share metadata object
with `documentId`, `createdAt` and `expiresAt`: a number, `true`, a string, an
array, or an object without one of these, such as `{}`. A date property holds
the time value of `new Date(...)` of it and is `none` when that is an invalid
date, as it is for an absent property; `documentId`, `shareKey` and
`requiresPassword` are `none` when the property is absent. -/
structure LooseObject where
  documentId : Option JSString
  shareKey : Option JSString
  createdAt : Option Int
  expiresAt : Option Int
  requiresPassword : Option Bool
  deriving DecidableEq, Repr

/-- Value of a `localStorage` item: the JSON text of a share metadata object
(what `JSON.stringify` wrote and `JSON.parse` reads back), a text that
`JSON.parse` rejects, the JSON text of a falsy value (`null`, `0`, `false`,
`""`), or the JSON text of another value. -/
inductive StoredValue where
  | metadata (m : ShareMetadata)
  | other (text : JSString)
  | falsy
  | loose (v : LooseObject)
  deriving DecidableEq, Repr

/-- Value that `JSON.parse` returns for the text of an item. -/
inductive ParsedShare where
  | record (m : ShareMetadata)
  | falsy
  | loose (v : LooseObject)
  deriving DecidableEq, Repr

/-- Embedding of `JSON.parse` on the text of an item; `none` is the SyntaxError. -/
def StoredValue.parse : StoredValue → Option ParsedShare
  | .metadata m => some (.record m)
  | .other _ => none
  | .falsy => some .falsy
  | .loose v => some (.loose v)

/-- The `localStorage` of the page: its items, and whether a `setItem` now would
exceed the quota. -/
structure LocalStorage where
  items : List (JSString × StoredValue)
  quotaExceeded : Bool
  deriving DecidableEq, Repr

/-- Embedding of `localStorage.getItem(key)`; `none` is `null`. -/
def LocalStorage.getItem (ls : LocalStorage) (key : JSString) : Option StoredValue :=
  (ls.items.find? (fun item => decide (item.1 = key))).map Prod.snd

/-- Replacement of the value of the item stored under `key`, or addition of
the item after the others. -/
def setItemIn (key : JSString) (value : StoredValue) :
    List (JSString × StoredValue) → List (JSString × StoredValue)
  | [] => [(key, value)]
  | item :: rest =>
    if item.1 = key then (key, value) :: rest else item :: setItemIn key value rest

/-- Embedding of `localStorage.setItem(key, value)`; `none` is the QuotaExceededError. -/
def LocalStorage.setItem (ls : LocalStorage) (key : JSString) (value : StoredValue) :
    Option LocalStorage :=
  if ls.quotaExceeded then none else some { ls with items := setItemIn key value ls.items }

/-- Embedding of `localStorage.removeItem(key)`. -/
def LocalStorage.removeItem (ls : LocalStorage) (key : JSString) : LocalStorage :=
  { ls with items := ls.items.filter (fun item => decide (item.1 ≠ key)) }

/-- Field `sharePrefix` set by the constructor of `SharingManager`. -/
def sharePrefix : JSString := js "anon_share_"

/-- The string `chars` of `generateUniqueKey`. -/
def uniqueKeyChars : JSString :=
  js "ABCDEFGHIJKLMNOPQRSTUVWXYZabcdefghijklmnopqrstuvwxyz0123456789"

/-- Embedding of `Math.floor(Math.random() * n)`: an index below `n`, read from the random source. -/
def randomIndex (r : Random) (n : Nat) : Nat × Random :=
  (r.tape r.pos % n, { r with pos := r.pos + 1 })

/-- Embedding of `SharingManager.generateUniqueKey(length)`. -/
def SharingManager.generateUniqueKey (r : Random) : Nat → JSString × Random
  | 0 => ([], r)
  | length + 1 =>
    let index := randomIndex r uniqueKeyChars.length
    let rest := SharingManager.generateUniqueKey index.2 length
    (uniqueKeyChars.getD index.1 0 :: rest.1, rest.2)

/-- Number of milliseconds in `30 * 24 * 60 * 60 * 1000`. -/
def thirtyDays : Int := 30 * 24 * 60 * 60 * 1000

/-- Truthiness of the `password` argument (`!!password`): `null` and the empty
string are falsy. -/
def truthy : Option JSString → Bool
  | none => false
  | some s => !s.isEmpty

/-- Embedding of `SharingManager.generateShareKey(documentId, password)`. `created` is the
reading of the clock at `new Date()`, `issued` the reading at the `Date.now()`
that follows. The result is the share key or the error, with the storage and
the random source after the call. -/
def SharingManager.generateShareKey (ls : LocalStorage) (r : Random) (created issued : Int)
    (documentId : JSString) (password : Option JSString) :
    Except String JSString × LocalStorage × Random :=
  let key := SharingManager.generateUniqueKey r 16
  let shareMetadata : ShareMetadata :=
    { documentId := documentId, shareKey := some key.1, createdAt := created,
      expiresAt := issued + thirtyDays, requiresPassword := some (truthy password) }
  match ls.setItem (sharePrefix ++ key.1) (.metadata shareMetadata) with
  | some ls' => (.ok key.1, ls', key.2)
  | none => (.error "Failed to generate share key", ls, key.2)

/-- Embedding of `SharingManager.getShareMetadata(shareKey)`: the parsed value of the item;
`none` is the `null` returned for an absent item, an empty text or a text that
does not parse. -/
def SharingManager.getShareMetadata (ls : LocalStorage) (shareKey : JSString) :
    Option ParsedShare :=
  match ls.getItem (sharePrefix ++ shareKey) with
  | some value => value.parse
  | none => none

/-- Embedding of `SharingManager.removeShareKey(shareKey)`. -/
def SharingManager.removeShareKey (ls : LocalStorage) (shareKey : JSString) : LocalStorage :=
  ls.removeItem (sharePrefix ++ shareKey)

/-- Result of `validateShareKey`: `{ valid: false, reason }` or `{ valid: true, metadata }`. -/
inductive ShareValidation where
  | invalid (reason : String)
  | valid (metadata : ParsedShare)
  deriving DecidableEq, Repr

/-- Reason of `validateShareKey` when no metadata is stored. -/
def reasonNotFound : String := "Share key not found"

/-- Reason of `validateShareKey` when the metadata has expired. -/
def reasonExpired : String := "Share key has expired"

/-- Embedding of `SharingManager.validateShareKey(shareKey)`; `now` is the reading of the clock
at `new Date()`. -/
def SharingManager.validateShareKey (ls : LocalStorage) (now : Int) (shareKey : JSString) :
    ShareValidation × LocalStorage :=
  match SharingManager.getShareMetadata ls shareKey with
  | none => (.invalid reasonNotFound, ls)
  | some .falsy => (.invalid reasonNotFound, ls)
  | some (.record metadata) =>
    if metadata.expiresAt < now then
      (.invalid reasonExpired, SharingManager.removeShareKey ls shareKey)
    else (.valid (.record metadata), ls)
  | some (.loose v) =>
    match v.expiresAt with
    | some expiresAt =>
      if expiresAt < now then (.invalid reasonExpired, SharingManager.removeShareKey ls shareKey)
      else (.valid (.loose v), ls)
    | none => (.valid (.loose v), ls)

/-- Status that `viewSharedDocuments` shows for a share (src/js/app.js):
`new Date(share.expiresAt) > new Date() ? 'Active' : 'Expired'`. -/
def shareStatus (share : ShareMetadata) (now : Int) : String :=
  if share.expiresAt > now then "Active" else "Expired"

/-- Embedding of `SharingManager.revokeShareKey(shareKey)`: the value returned and the storage
after the call. -/
def SharingManager.revokeShareKey (ls : LocalStorage) (shareKey : JSString) : Bool × LocalStorage :=
  (true, SharingManager.removeShareKey ls shareKey)

/-- Object that `listUserShares` pushes for an item:
`{ shareKey: key.replace(this.sharePrefix, ''), ...metadata }`. A property is
`none` when the parsed value does not have it; a date property holds the time
value of `new Date(...)` of it, `none` for an invalid date. -/
structure ShareEntry where
  shareKey : JSString
  documentId : Option JSString
  createdAt : Option Int
  expiresAt : Option Int
  requiresPassword : Option Bool
  deriving DecidableEq, Repr

/-- The object `{ shareKey: suffix, ...metadata }`: a `shareKey` of the parsed value
replaces the one taken from the key, and a falsy value spreads to nothing. -/
def shareEntry (suffix : JSString) : ParsedShare → ShareEntry
  | .record m =>
    { shareKey := m.shareKey.getD suffix, documentId := some m.documentId,
      createdAt := some m.createdAt, expiresAt := some m.expiresAt,
      requiresPassword := m.requiresPassword }
  | .falsy =>
    { shareKey := suffix, documentId := none, createdAt := none, expiresAt := none,
      requiresPassword := none }
  | .loose v =>
    { shareKey := v.shareKey.getD suffix, documentId := v.documentId, createdAt := v.createdAt,
      expiresAt := v.expiresAt, requiresPassword := v.requiresPassword }

/-- Body of the loop of `listUserShares` on one key: for a key that starts with
the prefix and whose item parses, the object pushed (`JSON.parse(null)` is
`null`). -/
def listedShare (ls : LocalStorage) (key : JSString) : Option ShareEntry :=
  if sharePrefix.isPrefixOf key then
    match ls.getItem key with
    | some value => value.parse.map (shareEntry (key.drop sharePrefix.length))
    | none => some (shareEntry (key.drop sharePrefix.length) .falsy)
  else none

/-- Comparison behind `sort((a, b) => new Date(b.createdAt) - new Date(a.createdAt))`:
`a` may stand before `b`, the difference being negative, zero, or NaN, which
`sort` takes for zero. -/
def shareOrder (a b : ShareEntry) : Prop :=
  match a.createdAt, b.createdAt with
  | some x, some y => y ≤ x
  | _, _ => True

instance : DecidableRel shareOrder := fun a b => by
  unfold shareOrder
  split <;> infer_instance

/-- Embedding of `SharingManager.listUserShares()`: the keys are visited in the order of
`localStorage.key(i)`, then the entries are sorted (`Array.prototype.sort` is
stable). When an entry has no valid `createdAt` the comparison function is not
consistent and the order is left to the implementation; the embedding then
gives the order of an insertion sort. -/
def SharingManager.listUserShares (ls : LocalStorage) : List ShareEntry :=
  ((ls.items.map Prod.fst).filterMap (listedShare ls)).insertionSort shareOrder

/-- Embedding of `SharingManager.createShareableUrl(shareKey, baseUrl)`. -/
def SharingManager.createShareableUrl (shareKey baseUrl : JSString) : JSString :=
  baseUrl ++ js "#key=" ++ shareKey

/-- Embedding of `SharingManager.createEncryptedShareUrl(documentId, shareId, baseUrl)`. -/
def SharingManager.createEncryptedShareUrl (documentId shareId baseUrl : JSString) : JSString :=
  baseUrl ++ js "#encrypted=" ++ documentId ++ js "&share=" ++ shareId

/-! ## `Utils.generateId` and `Utils.validatePassword` (src/js/utils.js) -/

/-- Embedding of `String(n)` for an integer `n`, as `'doc_' + Date.now()` computes it. -/
def numberToString (n : Int) : JSString :=
  match n with
  | .ofNat m => (Nat.toDigits 10 m).map Char.toNat
  | .negSucc m => 45 :: (Nat.toDigits 10 (m + 1)).map Char.toNat

/-- Embedding of `Utils.generateId()`. `now` is the reading of the clock at `Date.now()`;
`randomPart` is the string `Math.random().toString(36).substr(2, 9)`, taken
from the random source. -/
def Utils.generateId (now : Int) (randomPart : JSString) : JSString :=
  js "doc_" ++ numberToString now ++ js "_" ++ randomPart

/-- Embedding of `Utils.validatePassword(password)`. -/
def Utils.validatePassword (password : JSString) : Bool := decide (password.length ≥ 8)

/-! ## Sharing, encryption and links in `AnonDocsApp` (src/js/app.js) -/

/-- What the application shows: a notification (`Utils.showNotification`), the
`prompt` dialog of `promptForPassword`, or the password modal of
`promptForSharedDocumentPassword`. -/
inductive UiAction where
  | notification (message : String) (kind : String)
  | passwordPrompt (docId : JSString)
  | sharedPasswordModal (docId : JSString)
  deriving DecidableEq, Repr

/-- The page: the application, its `localStorage`, and what the operations of
this section have shown so far, oldest first. -/
structure Page where
  app : AnonDocsApp
  localStorage : LocalStorage
  actions : List UiAction

/-- Embedding of `Utils.showNotification(message, type)`. -/
def Page.notify (page : Page) (message kind : String) : Page :=
  { page with actions := page.actions ++ [.notification message kind] }

/-- What the operations read from outside the page: the `crypto.subtle`
provider, the encryption manager, the reading of the clock at `new Date()`, and
the answer to the `prompt` dialog (`none` is `null`). -/
structure Surroundings (Key : Type) where
  subtle : SubtleCrypto Key
  manager : EncryptionManager
  now : Int
  promptAnswer : Option JSString

/-- Embedding of `AnonDocsApp.closeEditor()`; `confirmed` is the answer to `confirm(...)`. -/
def AnonDocsApp.closeEditor (app : AnonDocsApp) (confirmed : Bool) : AnonDocsApp :=
  if app.isEditing && app.currentDocument.isSome then
    if confirmed then { app with isEditing := false, currentDocument := none } else app
  else { app with isEditing := false, currentDocument := none }

/-- Embedding of `AnonDocsApp.decryptAndOpenDocument(doc, password)`. -/
def Page.decryptAndOpenDocument {Key : Type} (env : Surroundings Key) (page : Page)
    (doc : Document) (password : JSString) : Page :=
  match EncryptionManager.decrypt env.subtle env.manager doc.content password with
  | .ok decryptedContent =>
    let opened : Document := { doc with content := decryptedContent, encrypted := false }
    { page with app := page.app.openDocumentEditor opened }
  | .error _ => page.notify "Incorrect password" "error"

/-- Embedding of `AnonDocsApp.promptForPassword(doc)`. -/
def Page.promptForPassword {Key : Type} (env : Surroundings Key) (page : Page)
    (doc : Document) : Page :=
  let shown : Page := { page with actions := page.actions ++ [.passwordPrompt doc.id] }
  match env.promptAnswer with
  | some password =>
    if truthy (some password) then shown.decryptAndOpenDocument env doc password else shown
  | none => shown

/-- Embedding of `AnonDocsApp.openDocument(docId)`. -/
def Page.openDocument {Key : Type} (env : Surroundings Key) (page : Page)
    (docId : JSString) : Page :=
  match page.app.storage.getDocument docId with
  | (.error _, sm) =>
    ({ page with app := { page.app with storage := sm } }).notify "Failed to open document" "error"
  | (.ok none, sm) =>
    ({ page with app := { page.app with storage := sm } }).notify "Document not found" "error"
  | (.ok (some doc), sm) =>
    let read : Page := { page with app := { page.app with storage := sm } }
    if doc.encrypted then read.promptForPassword env doc
    else { read with app := read.app.openDocumentEditor doc }

/-- Embedding of `AnonDocsApp.saveDocument()` on the page: what it does to the application
and the store; its notification is not recorded in `actions`. -/
def Page.saveDocument (page : Page) (fields : EditorFields) : Page :=
  { page with app := page.app.saveDocument fields }

/-- Embedding of `AnonDocsApp.encryptDocument()`. `password` and `confirmPassword` are the
values of the two fields of the modal, `stamp` the string
`new Date().toISOString()`, `r` the state of the random source, `confirmed` the
answer to the `confirm` of `closeEditor`. The last statement, `trackDocumentEvent('encrypted',
this.currentDocument)`, reads `title` of `null` when the editor was closed, and
the `catch` block then notifies a failure. -/
def Page.encryptDocument {Key : Type} (env : Surroundings Key) (page : Page)
    (password confirmPassword stamp : JSString) (r : Random) (confirmed : Bool) : Page :=
  match page.app.currentDocument with
  | none => page
  | some doc =>
    if password.isEmpty || confirmPassword.isEmpty then
      page.notify "Please enter both passwords" "error"
    else if password ≠ confirmPassword then page.notify "Passwords do not match" "error"
    else if !Utils.validatePassword password then
      page.notify "Password must be at least 8 characters" "error"
    else
      match (EncryptionManager.encrypt env.subtle env.manager r doc.content password).1 with
      | .error _ => page.notify "Failed to encrypt document" "error"
      | .ok encryptedContent =>
        let doc' : Document :=
          { doc with content := encryptedContent, encrypted := true, updatedAt := stamp }
        match page.app.storage.saveDocument doc' with
        | (.error _, sm) =>
          let failed : AnonDocsApp := { page.app with currentDocument := some doc', storage := sm }
          ({ page with app := failed }).notify "Failed to encrypt document" "error"
        | (.ok _, sm) =>
          let saved : AnonDocsApp :=
            { page.app with currentDocument := some doc', storage := loadDocuments sm }
          let closed : AnonDocsApp := saved.closeEditor confirmed
          let done : Page :=
            ({ page with app := closed }).notify "Document encrypted successfully" "success"
          if closed.currentDocument.isSome then done
          else done.notify "Failed to encrypt document" "error"

/-- Embedding of `AnonDocsApp.generateSharedKey()`. `idNow` is the reading of the clock inside
`Utils.generateId()`, `created` and `issued` the readings at `new Date()` and at
the `Date.now()` that follows. The result is the key written to the field
`shared-key`, if any. -/
def Page.generateSharedKey (page : Page) (idNow created issued : Int) (randomPart : JSString) :
    Option JSString × Page :=
  let shareKey := js "anon-" ++ (Utils.generateId idNow randomPart).take 16
  match page.app.currentDocument with
  | none => (none, page.notify "Failed to generate shared key" "error")
  | some doc =>
    let shareData : ShareMetadata :=
      { documentId := doc.id, shareKey := none, createdAt := created,
        expiresAt := issued + thirtyDays, requiresPassword := none }
    match page.localStorage.setItem (js "share_" ++ shareKey) (.metadata shareData) with
    | none => (none, page.notify "Failed to generate shared key" "error")
    | some ls =>
      (some shareKey,
        ({ page with localStorage := ls }).notify "Shared key generated successfully!" "success")

/-- Embedding of `AnonDocsApp.generateEncryptedShareLink()`. `method` is the value of the checked
`share-method` input, `password` the value of the field `share-password`,
`baseUrl` is `window.location.origin + window.location.pathname`. The result is
the link written to the field `encrypted-share-link`, or the key of
`generateSharedKey`, if any. -/
def Page.generateEncryptedShareLink {Key : Type} (env : Surroundings Key) (page : Page)
    (method password baseUrl : JSString) (idNow created issued : Int) (randomPart : JSString) :
    Option JSString × Page :=
  if method = js "key" then page.generateSharedKey idNow created issued randomPart
  else if password.isEmpty then
    (none, page.notify "Please enter the document password" "error")
  else
    match page.app.currentDocument with
    | none => (none, page.notify "Invalid password" "error")
    | some doc =>
      match EncryptionManager.decrypt env.subtle env.manager doc.content password with
      | .error _ => (none, page.notify "Invalid password" "error")
      | .ok _ =>
        (some (baseUrl ++ js "#encrypted=" ++ doc.id ++ js "&share=" ++
            (Utils.generateId idNow randomPart).take 12),
          page.notify "Share link generated successfully!" "success")

/-- Value of an ASCII hex digit. -/
def hexValue (b : Nat) : Option Nat :=
  if 0x30 ≤ b ∧ b ≤ 0x39 then some (b - 0x30)
  else if 0x41 ≤ b ∧ b ≤ 0x46 then some (b - 0x41 + 10)
  else if 0x61 ≤ b ∧ b ≤ 0x66 then some (b - 0x61 + 10)
  else none

/-- Percent-decoding of a byte sequence (URL Standard): `%` followed by two hex
digits is the byte they denote, every other byte stands for itself. -/
def percentDecode : Bytes → Bytes
  | c :: a :: b :: rest =>
    if c = 0x25 then
      match hexValue a, hexValue b with
      | some x, some y => (x * 16 + y) :: percentDecode rest
      | _, _ => c :: percentDecode (a :: b :: rest)
    else c :: percentDecode (a :: b :: rest)
  | [c, a] => [c, a]
  | [c] => [c]
  | [] => []

/-- Split of a byte sequence at the first occurrence of `sep`; without an
occurrence the second part is empty. -/
def splitFirst (sep : Nat) : Bytes → Bytes × Bytes
  | [] => ([], [])
  | c :: rest =>
    if c = sep then ([], rest) else (c :: (splitFirst sep rest).1, (splitFirst sep rest).2)

/-- Name or value of a parameter from its bytes: `+` becomes a space, then
percent-decoding, then UTF-8 decoding without BOM handling. -/
def decodeComponent (bs : Bytes) : JSString :=
  fromCodePoints (utf8Decode (percentDecode (bs.map (fun b => if b = 0x2B then 0x20 else b))))

/-- Name and value of one `&`-separated piece. -/
def parsePiece (piece : Bytes) : JSString × JSString :=
  (decodeComponent (splitFirst 0x3D piece).1, decodeComponent (splitFirst 0x3D piece).2)

/-- The `application/x-www-form-urlencoded` parser (URL Standard) on a byte
sequence: the non-empty pieces between `&`, each split at its first `=`. -/
def parseUrlencoded (input : Bytes) : List (JSString × JSString) :=
  ((splitOn 0x26 input).filter (fun piece => !piece.isEmpty)).map parsePiece

/-- Embedding of `new URLSearchParams(init)` for a string: a leading `?` is dropped and the
UTF-8 encoding of the rest is parsed. -/
def urlSearchParams (init : JSString) : List (JSString × JSString) :=
  parseUrlencoded (textEncode (match init with
    | 0x3F :: rest => rest
    | _ => init))

/-- Embedding of `URLSearchParams.prototype.has(name)`. -/
def paramsHas (params : List (JSString × JSString)) (name : JSString) : Bool :=
  params.any (fun p => decide (p.1 = name))

/-- Embedding of `URLSearchParams.prototype.get(name)`, for a name that the parameters have:
the value of the first parameter of that name. -/
def paramsGet (params : List (JSString × JSString)) (name : JSString) : JSString :=
  match params.find? (fun p => decide (p.1 = name)) with
  | some p => p.2
  | none => []

/-- Embedding of `AnonDocsApp.promptForSharedDocumentPassword(doc)`: the modal is shown. -/
def Page.promptForSharedDocumentPassword (page : Page) (doc : Document) : Page :=
  { page with actions := page.actions ++ [.sharedPasswordModal doc.id] }

/-- Embedding of `AnonDocsApp.openSharedEncryptedDocument(docId)`. -/
def Page.openSharedEncryptedDocument (page : Page) (docId : JSString) : Page :=
  match page.app.storage.getDocument docId with
  | (.error _, sm) =>
    ({ page with app := { page.app with storage := sm } }).notify
      "Failed to load shared document" "error"
  | (.ok none, sm) =>
    ({ page with app := { page.app with storage := sm } }).notify
      "Document not found or not encrypted" "error"
  | (.ok (some doc), sm) =>
    let read : Page := { page with app := { page.app with storage := sm } }
    if doc.encrypted then read.promptForSharedDocumentPassword doc
    else read.notify "Document not found or not encrypted" "error"

/-- The part of `openDocumentByShareKey` from `storageManager.getDocument(shareData.documentId)`
on. -/
def Page.openSharedTarget (page : Page) (documentId : JSString) : Page :=
  match page.app.storage.getDocument documentId with
  | (.error _, sm) =>
    ({ page with app := { page.app with storage := sm } }).notify
      "Failed to open shared document" "error"
  | (.ok none, sm) =>
    ({ page with app := { page.app with storage := sm } }).notify "Document not found" "error"
  | (.ok (some doc), sm) =>
    let read : Page := { page with app := { page.app with storage := sm } }
    if doc.encrypted then read.promptForSharedDocumentPassword doc
    else
      ({ read with app := read.app.openDocumentEditor doc }).notify
        "Document opened successfully!" "success"

/-- Embedding of `AnonDocsApp.openDocumentByShareKey(shareKey)`; `now` is the reading of the
clock at `new Date()`. A falsy parsed value makes the `try` block throw (a
property of `null` is read, or `getDocument(undefined)` is rejected), and so
does a value without `documentId`. -/
def Page.openDocumentByShareKey (page : Page) (now : Int) (shareKey : JSString) : Page :=
  match page.localStorage.getItem (js "share_" ++ shareKey) with
  | none => page.notify "Invalid or expired share key" "error"
  | some (.other text) =>
    if text.isEmpty then page.notify "Invalid or expired share key" "error"
    else page.notify "Failed to open shared document" "error"
  | some .falsy => page.notify "Failed to open shared document" "error"
  | some (.loose v) =>
    if (match v.expiresAt with
        | some expiresAt => decide (expiresAt < now)
        | none => false) then
      let removed : Page :=
        { page with localStorage := page.localStorage.removeItem (js "share_" ++ shareKey) }
      { removed with actions := page.actions ++ [.notification "Share key has expired" "error"] }
    else
      match v.documentId with
      | none => page.notify "Failed to open shared document" "error"
      | some documentId => page.openSharedTarget documentId
  | some (.metadata shareData) =>
    if shareData.expiresAt < now then
      let removed : Page :=
        { page with localStorage := page.localStorage.removeItem (js "share_" ++ shareKey) }
      { removed with actions := page.actions ++ [.notification "Share key has expired" "error"] }
    else page.openSharedTarget shareData.documentId

/-- Embedding of `AnonDocsApp.handleUrlParameters()`; `hash` is `window.location.hash`. -/
def Page.handleUrlParameters {Key : Type} (env : Surroundings Key) (page : Page)
    (hash : JSString) : Page :=
  let urlParams := urlSearchParams (hash.drop 1)
  let afterEncrypted :=
    if paramsHas urlParams (js "encrypted") && paramsHas urlParams (js "share") then
      page.openSharedEncryptedDocument (paramsGet urlParams (js "encrypted"))
    else page
  let afterKey :=
    if paramsHas urlParams (js "key") then
      afterEncrypted.openDocumentByShareKey env.now (paramsGet urlParams (js "key"))
    else afterEncrypted
  if paramsHas urlParams (js "view") then
    afterKey.openDocument env (paramsGet urlParams (js "view"))
  else afterKey

/-- Fragment of a URL as `window.location.hash` gives it: from the first `#` on,
or the empty string. -/
def hashOf : JSString → JSString
  | [] => []
  | c :: rest => if c = 0x23 then c :: rest else hashOf rest

/-! ## Notions used to state the properties -/

/-- Manager whose `init` has completed, over the database `db`. -/
def StorageManager.opened (db : Database) : StorageManager := { db := some db }

/-- Run of a sequence of `updateTagCount(name, increment)` calls. -/
def updateTagCounts : StorageManager → List (JSString × Bool) → StorageManager
  | sm, [] => sm
  | sm, call :: calls => updateTagCounts (sm.updateTagCount call.1 call.2).2 calls

/-- Every stored tag count is non-negative. -/
def TagsNonneg (sm : StorageManager) : Prop :=
  ∀ db, sm.db = some db → ∀ t ∈ db.tags, 0 ≤ t.documentCount

/-- The `documentCount` stored under a tag name, if a record is stored. -/
def StorageManager.tagCount (sm : StorageManager) (name : JSString) : Option Int :=
  match sm.db with
  | none => none
  | some db => (storeGet Tag.name name db.tags).map Tag.documentCount

/-- Database holding one tag `work` with count 0, every request succeeding. -/
def workDatabase (count : Int) : Database :=
  { emptyDatabase with tags := [{ name := js "work", documentCount := count }] }

/-- Document used in the examples. -/
def sampleDocument : Document :=
  { newDocument (js "d1") (js "2024-01-01T00:00:00.000Z") with
    content := js "<p>hi</p>", tags := [js "work"] }

/-- Editor fields of the example: the tags field reads `work`. -/
def workFields : EditorFields :=
  { title := js "T", content := js "<p>hi</p>", tags := js "work", now := js "2024" }

/-- Application over an empty database, then two documents created and saved,
each with the tag `work`. -/
def twoSaves : AnonDocsApp :=
  ((((AnonDocsApp.mk none false (StorageManager.opened emptyDatabase)).createDocument
    (js "d1") (js "t1")).saveDocument workFields).createDocument (js "d2") (js "t2")).saveDocument
    workFields

/-- Characters of the base64 encoding before the padding. -/
def base64Body : Bytes → JSString
  | a :: b :: c :: rest =>
    base64Char (a / 4) :: base64Char (a % 4 * 16 + b / 16) ::
      base64Char (b % 16 * 4 + c / 64) :: base64Char (c % 64) :: base64Body rest
  | [a, b] => [base64Char (a / 4), base64Char (a % 4 * 16 + b / 16), base64Char (b % 16 * 4)]
  | [a] => [base64Char (a / 4), base64Char (a % 4 * 16)]
  | [] => []

/-- Padding of the base64 encoding. -/
def base64Pad : Bytes → JSString
  | _ :: _ :: _ :: rest => base64Pad rest
  | [_, _] => [61]
  | [_] => [61, 61]
  | [] => []

/-- Unicode scalar value: a code point that is not a surrogate. -/
def isScalarValue (c : Nat) : Bool := decide (c < 0x110000) && !(decide (0xD800 ≤ c) && decide (c ≤ 0xDFFF))

/-- The provider returns byte sequences from `encrypt`. -/
def SubtleCrypto.ReturnsBytes {Key : Type} (sc : SubtleCrypto Key) : Prop :=
  ∀ (alg : String) (iv : Bytes) (key : Key) (pt ct : Bytes),
    sc.encrypt alg iv key pt = some ct → ∀ b ∈ ct, b < 256

/-- Salt that `encrypt` draws from the random source `r`. -/
def saltOf (r : Random) : Bytes := (List.range 16).map (fun i => r.tape (r.pos + i) % 256)

/-- IV that `encrypt` draws from the random source `r`, after the salt. -/
def ivOf (r : Random) : Bytes := (List.range 12).map (fun i => r.tape (r.pos + 16 + i) % 256)

/-- Random source of the examples: its `i`-th byte is `3 * i + 1`. -/
def sampleRandom : Random := { tape := fun i => 3 * i + 1, pos := 0 }

/-- Plaintext of the examples. -/
def samplePlaintext : JSString := js "<p>hi</p>"

/-- Password of the examples. -/
def samplePassword : JSString := js "secret123"

/-- Envelope that `encrypt` returns for the sample plaintext and password, with
the demonstration provider and the sample random source. -/
def sampleEnvelope : JSString :=
  js "AQQHCg0QExYZHB8iJSgrLjE0Nzo9QENGSUxPUuci9ygwCgRMIZqbnJ2en6ChoqOkpaanqKk="

instance : IsTotal Tag tagOrder := ⟨fun a b => by unfold tagOrder; omega⟩

instance : IsTrans Tag tagOrder := ⟨fun a b c h1 h2 => by unfold tagOrder at *; omega⟩

/-- Entries of a list of records that no later entry with the same key follows. -/
def lastEntries {α : Type} (key : α → JSString) : List α → List α
  | [] => []
  | x :: rest =>
    if rest.any (fun y => decide (key y = key x)) then lastEntries key rest
    else x :: lastEntries key rest

/-- Every key of each object store is held by one record only. -/
def Database.WellKeyed (db : Database) : Prop :=
  (db.documents.map Document.id).Nodup ∧ (db.tags.map Tag.name).Nodup ∧
    (db.settings.map Setting.key).Nodup

/-- Every request issued from now on succeeds. -/
def Database.Reliable (db : Database) : Prop :=
  ∀ i, db.issued ≤ i → db.outcomes i = .success

/-- Database of the examples: one document, one tag, one setting, every request
succeeding. -/
def sampleDatabase : Database :=
  { emptyDatabase with
    documents := [sampleDocument],
    tags := [{ name := js "work", documentCount := 1 }],
    settings := [{ key := js "appSettings", value := js "dark" }] }

/-- Bundle of the examples: the document `d1` twice, with different titles, and no
`settings` property. -/
def sampleBundle : Bundle :=
  { documents := some [sampleDocument, { sampleDocument with title := js "second" }],
    tags := some [],
    settings := none }

/-- Database of the examples in which every request fails with `UnknownError`. -/
def failingDatabase : Database :=
  { sampleDatabase with outcomes := fun _ => .failure "UnknownError" }

/-- Share metadata of the examples: created at time 0, expiring 30 days later. -/
def sampleShare : ShareMetadata :=
  { documentId := js "d1", shareKey := some (js "k"), createdAt := 0, expiresAt := thirtyDays,
    requiresPassword := some false }

/-- Storage of the examples, holding the sample share under its key. -/
def sampleStorage : LocalStorage :=
  { items := [(sharePrefix ++ js "k", .metadata sampleShare)], quotaExceeded := false }

/-- Storage without items. -/
def emptyStorage : LocalStorage := { items := [], quotaExceeded := false }

/-- Number of milliseconds in 31 days. -/
def thirtyOneDays : Int := 31 * 24 * 60 * 60 * 1000

/-- Share metadata that `generateShareKey` writes, from the random source, the two
readings of the clock and the arguments. -/
def issuedShare (r : Random) (created issued : Int) (documentId : JSString)
    (password : Option JSString) : ShareMetadata :=
  { documentId := documentId, shareKey := some (SharingManager.generateUniqueKey r 16).1,
    createdAt := created, expiresAt := issued + thirtyDays,
    requiresPassword := some (truthy password) }

/-- Random source whose every reading is `i`. -/
def constantRandom (i : Nat) : Random := { tape := fun _ => i, pos := 0 }

/-- Random source whose `i`-th reading is `i`. -/
def countingRandom : Random := { tape := fun i => i, pos := 0 }

/-- The entry that `listUserShares` lists for an item, read from the item itself. -/
def storedEntry (item : JSString × StoredValue) : Option ShareEntry :=
  if sharePrefix.isPrefixOf item.1 then
    item.2.parse.map (shareEntry (item.1.drop sharePrefix.length))
  else none

/-- Order of the entries by `createdAt`, an entry without a valid date counting as
created at time 0. On entries with valid dates it is `shareOrder`. -/
def dateOrder (a b : ShareEntry) : Prop := b.createdAt.getD 0 ≤ a.createdAt.getD 0

instance : DecidableRel dateOrder :=
  fun a b => inferInstanceAs (Decidable (b.createdAt.getD 0 ≤ a.createdAt.getD 0))

/-- Storage of the examples in which the item `anon_share_x` holds the text `null`
and the item `anon_share_y` the text of the empty object. -/
def strayStorage : LocalStorage :=
  { items :=
      [(sharePrefix ++ js "x", .falsy),
       (sharePrefix ++ js "y",
        .loose { documentId := none, shareKey := none, createdAt := none, expiresAt := none,
                 requiresPassword := none })],
    quotaExceeded := false }

/-- In a `localStorage` every key has one item. -/
def LocalStorage.WellKeyed (ls : LocalStorage) : Prop := (ls.items.map Prod.fst).Nodup

/-- Storage of the examples with two shares and an item that does not parse. -/
def twoShares : LocalStorage :=
  { items :=
      [(sharePrefix ++ js "old", .metadata { sampleShare with shareKey := some (js "old") }),
       (sharePrefix ++ js "bad", .other (js "\x7b")),
       (js "theme", .other (js "dark")),
       (sharePrefix ++ js "new",
        .metadata { sampleShare with shareKey := some (js "new"), createdAt := 5 })],
    quotaExceeded := false }

/-- Embedding of `Array.prototype.join(',')` on strings. -/
def joinComma : List JSString → JSString
  | [] => []
  | [piece] => piece
  | piece :: next :: rest => piece ++ 44 :: joinComma (next :: rest)

instance : IsTotal ShareEntry dateOrder := ⟨fun a b => by unfold dateOrder; omega⟩

instance : IsTrans ShareEntry dateOrder := ⟨fun a b c h1 h2 => by unfold dateOrder at *; omega⟩

/-- Documents of the store of a manager; none while the handle is unset. -/
def StorageManager.documents (sm : StorageManager) : List Document :=
  match sm.db with
  | some db => db.documents
  | none => []

/-- Page of the examples: nothing is open, the stores and the storage are empty. -/
def samplePage : Page :=
  { app := { currentDocument := none, isEditing := false,
             storage := StorageManager.opened emptyDatabase },
    localStorage := emptyStorage, actions := [] }

/-- Surroundings of the examples: the demonstration provider, the clock at 2000,
no answer to the prompt. -/
def demoSurroundings : Surroundings Nat :=
  { subtle := demoCrypto, manager := encryptionManager, now := 2000, promptAnswer := none }

/-- Page on which the document `d1` was created and saved with the content
`<p>hi</p>`. -/
def savedPage : Page :=
  ({ samplePage with app := samplePage.app.createDocument (js "d1") (js "t1") }).saveDocument
    workFields

/-- The saved page after `encryptDocument` with the password `password1` in both
fields and the `confirm` of `closeEditor` answered with Cancel. -/
def encryptedPage : Page :=
  savedPage.encryptDocument demoSurroundings (js "password1") (js "password1") (js "t2")
    sampleRandom false

/-- What the `documents` store of a page holds: id, `encrypted` and content of
each document. -/
def Page.stored (page : Page) : List (JSString × Bool × JSString) :=
  page.app.storage.documents.map (fun d => (d.id, d.encrypted, d.content))

/-- Page of the examples on which the sample document is open in the editor. -/
def editingPage : Page :=
  { samplePage with app := samplePage.app.openDocumentEditor sampleDocument }

/-- Base URL of the examples. -/
def sampleBaseUrl : JSString := js "https://example.org/app/"

/-- Storage after `generateShareKey('d1')` on the empty storage, with the sample
random source and the clock at 1000. -/
def issuedStorage : LocalStorage :=
  (SharingManager.generateShareKey emptyStorage sampleRandom 1000 1000 (js "d1") none).2.1

/-- Page of the examples whose database holds the document `d1` and whose
storage holds the share issued for it. -/
def sharedPage : Page :=
  { app := { currentDocument := none, isEditing := false,
             storage := StorageManager.opened sampleDatabase },
    localStorage := issuedStorage, actions := [] }

/-- Page of the examples whose store holds the sample document encrypted under
the sample password. -/
def lockedDocument : Document :=
  { sampleDocument with content := sampleEnvelope, encrypted := true }

/-- Page of the examples over a store that holds the locked document. -/
def lockedPage : Page :=
  { app := { currentDocument := none, isEditing := false,
             storage := StorageManager.opened { emptyDatabase with documents := [lockedDocument] } },
    localStorage := emptyStorage, actions := [] }

/-- Parameters of the fragment `encrypted=<docId>`. -/
def encryptedParams (docId : JSString) : List (JSString × JSString) :=
  parseUrlencoded (textEncode (js "encrypted=" ++ docId))

/-- Lower-casing of the ASCII letters `A`-`Z`: what `String.prototype.toLowerCase` does on
the strings of the examples. -/
def asciiToLowerCase (s : JSString) : JSString :=
  s.map (fun u => if 65 ≤ u ∧ u ≤ 90 then u + 32 else u)

/-- Second document of the examples: nothing in it contains `hi` in any case. -/
def secondDocument : Document :=
  { newDocument (js "d2") (js "2024-01-02T00:00:00.000Z") with
    title := js "Shopping List", content := js "<p>milk</p>", tags := [js "home"] }

/-- Third document of the examples: its title contains `HI` in upper case. -/
def thirdDocument : Document :=
  { newDocument (js "d3") (js "2024-01-03T00:00:00.000Z") with
    title := js "HIGH tide", content := js "<p>sea</p>", tags := [] }

/-- Database of the examples holding three documents, every request succeeding. -/
def libraryDatabase : Database :=
  { emptyDatabase with documents := [sampleDocument, secondDocument, thirdDocument] }

/-- Database of the examples holding three tags, listed in key order with the
counts 1, 3 and 2, every request succeeding. -/
def tagsDatabase : Database :=
  { emptyDatabase with
    tags := [{ name := js "home", documentCount := 1 }, { name := js "idea", documentCount := 3 },
             { name := js "work", documentCount := 2 }] }

/-! # Properties -/

/-! ## The object stores -/

theorem mem_insertByKey {α : Type} (key : α → JSString) (r x : α) (l : List α) :
    x ∈ insertByKey key r l ↔ x = r ∨ x ∈ l := by
  induction l with
  | nil => simp [insertByKey]
  | cons y rest ih =>
    unfold insertByKey
    split
    · simp
    · simp only [List.mem_cons, ih]
      tauto

theorem mem_storePut {α : Type} (key : α → JSString) (r x : α) (l : List α) :
    x ∈ storePut key r l ↔ x = r ∨ (x ∈ l ∧ key x ≠ key r) := by
  simp [storePut, mem_insertByKey]

theorem find_insertByKey_self {α : Type} (key : α → JSString) (r : α) (l : List α)
    (h : ∀ x ∈ l, key x ≠ key r) :
    (insertByKey key r l).find? (fun x => decide (key x = key r)) = some r := by
  induction l with
  | nil => simp [insertByKey]
  | cons y rest ih =>
    have hy : key y ≠ key r := h y (by simp)
    have hr : ∀ x ∈ rest, key x ≠ key r := fun x hx => h x (by simp [hx])
    unfold insertByKey
    split
    · simp
    · simp [List.find?_cons, hy, ih hr]

theorem find_insertByKey_other {α : Type} (key : α → JSString) (r : α) (k : JSString) (l : List α)
    (h : key r ≠ k) :
    (insertByKey key r l).find? (fun x => decide (key x = k)) =
      l.find? (fun x => decide (key x = k)) := by
  induction l with
  | nil => simp [insertByKey, h]
  | cons y rest ih =>
    unfold insertByKey
    split
    · simp [List.find?_cons, h]
    · simp [List.find?_cons, ih]

theorem find_filter_other {α : Type} (key : α → JSString) (k k' : JSString) (l : List α)
    (h : k' ≠ k) :
    (l.filter (fun x => decide (key x ≠ k'))).find? (fun x => decide (key x = k)) =
      l.find? (fun x => decide (key x = k)) := by
  induction l with
  | nil => rfl
  | cons y rest ih =>
    by_cases hy : key y = k'
    · have hk : key y ≠ k := by rw [hy]; exact h
      have h1 : decide (key y ≠ k') = false := by simp [hy]
      have h2 : decide (key y = k) = false := by simp [hk]
      rw [List.filter_cons_of_neg (by simp [hy]), List.find?_cons_of_neg _ (by simp [hk])]
      exact ih
    · rw [List.filter_cons_of_pos (by simp [hy])]
      by_cases hk : key y = k
      · rw [List.find?_cons_of_pos _ (by simp [hk]), List.find?_cons_of_pos _ (by simp [hk])]
      · rw [List.find?_cons_of_neg _ (by simp [hk]), List.find?_cons_of_neg _ (by simp [hk])]
        exact ih

theorem storeGet_storePut_self {α : Type} (key : α → JSString) (r : α) (l : List α) :
    storeGet key (key r) (storePut key r l) = some r := by
  unfold storeGet storePut
  apply find_insertByKey_self
  intro x hx
  simpa using (List.mem_filter.mp hx).2

theorem storeGet_storePut_other {α : Type} (key : α → JSString) (r : α) (k : JSString)
    (l : List α) (h : key r ≠ k) :
    storeGet key k (storePut key r l) = storeGet key k l := by
  unfold storeGet storePut
  rw [find_insertByKey_other key r k _ h, find_filter_other key k (key r) l h]

theorem filter_insertByKey_self {α : Type} (key : α → JSString) (r : α) (l : List α)
    (h : ∀ x ∈ l, key x ≠ key r) :
    (insertByKey key r l).filter (fun x => decide (key x = key r)) = [r] := by
  induction l with
  | nil => simp [insertByKey]
  | cons y rest ih =>
    have hy : key y ≠ key r := h y (by simp)
    have hr : ∀ x ∈ rest, key x ≠ key r := fun x hx => h x (by simp [hx])
    unfold insertByKey
    split
    · simp [List.filter_cons, hy]
      intro a ha
      exact hr a ha
    · simp [List.filter_cons, hy, ih hr]

theorem storeGet_key {α : Type} (key : α → JSString) (k : JSString) (l : List α) (r : α)
    (h : storeGet key k l = some r) : key r = k := by
  have := List.find?_some h
  simpa using this

/-! ## Tag counts -/

theorem bumpTag_nonneg (name : JSString) (inc : Bool) (o : Option Tag) :
    0 ≤ (bumpTag name inc o).documentCount := by
  cases o with
  | none => cases inc <;> simp [bumpTag]
  | some t =>
    simp only [bumpTag]
    split <;> omega

theorem bumpTag_name (name : JSString) (inc : Bool) (o : Option Tag)
    (h : ∀ t, o = some t → t.name = name) : (bumpTag name inc o).name = name := by
  cases o with
  | none => rfl
  | some t => simpa [bumpTag] using h t rfl

theorem updateTagCount_nonneg (sm : StorageManager) (name : JSString) (inc : Bool)
    (h : TagsNonneg sm) : TagsNonneg (sm.updateTagCount name inc).2 := by
  intro db' hdb' t ht
  unfold StorageManager.updateTagCount StorageManager.getDB at hdb'
  cases hsm : sm.db with
  | none =>
    simp only [hsm] at hdb'
    cases hdb'
  | some db =>
    simp only [hsm] at hdb'
    cases h1 : db.next with
    | failure e =>
      simp only [h1] at hdb'
      have : db' = db.tick := by simpa using hdb'.symm
      subst this
      exact h db hsm t ht
    | success =>
      simp only [h1] at hdb'
      cases h2 : db.tick.next with
      | failure e =>
        simp only [h2] at hdb'
        have : db' = db.tick.tick := by simpa using hdb'.symm
        subst this
        exact h db hsm t ht
      | success =>
        simp only [h2] at hdb'
        have : db' = { db.tick.tick with tags := storePut Tag.name (bumpTag name inc (storeGet Tag.name name db.tags)) db.tags } := by
          simpa using hdb'.symm
        subst this
        rcases (mem_storePut Tag.name _ t db.tags).mp ht with ht | ht
        · rw [ht]; exact bumpTag_nonneg _ _ _
        · exact h db hsm t ht.1

theorem updateTagCounts_nonneg (calls : List (JSString × Bool)) :
    ∀ sm : StorageManager, TagsNonneg sm → TagsNonneg (updateTagCounts sm calls) := by
  induction calls with
  | nil => intro sm h; exact h
  | cons c rest ih =>
    intro sm h
    exact ih _ (updateTagCount_nonneg sm c.1 c.2 h)

theorem tagCount_updateTagCount (db : Database) (name : JSString) (inc : Bool)
    (h1 : db.next = .success) (h2 : db.tick.next = .success) :
    ((StorageManager.opened db).updateTagCount name inc).2.tagCount name =
      some (bumpTag name inc (storeGet Tag.name name db.tags)).documentCount := by
  have hn : (bumpTag name inc (storeGet Tag.name name db.tags)).name = name :=
    bumpTag_name name inc _ (fun t ht => storeGet_key Tag.name name db.tags t ht)
  simp only [StorageManager.updateTagCount, StorageManager.getDB, StorageManager.opened, h1, h2,
    StorageManager.tagCount]
  have := storeGet_storePut_self Tag.name (bumpTag name inc (storeGet Tag.name name db.tags)) db.tags
  rw [hn] at this
  rw [this]
  rfl

theorem roundNatToDouble_exact (a : Nat) (h : a ≤ 2 ^ 53) : roundNatToDouble a = a := by
  by_cases h' : a < 2 ^ 53
  · have hq : doubleSpacing 1024 a = 1 := by
      rw [show (1024 : Nat) = 1023 + 1 from rfl, doubleSpacing, if_pos h']
    simp [roundNatToDouble, hq, Nat.mod_one]
  · have ha : a = 2 ^ 53 := by omega
    subst ha
    decide

theorem numberAdd_exact (x y : Int) (h1 : -(2 ^ 53) ≤ x + y) (h2 : x + y ≤ 2 ^ 53) :
    numberAdd x y = x + y := by
  unfold numberAdd
  split
  · rw [roundNatToDouble_exact _ (by omega)]
    omega
  · rw [roundNatToDouble_exact _ (by omega)]
    omega

/-- C8 (as stated, fails): at the count 2^53 an increment leaves the count at
2^53, not at 2^53 + 1: the sum is not a double and rounds back. -/
theorem updateTagCount_increment_rounds :
    (StorageManager.opened (workDatabase 9007199254740992)).tagCount (js "work") =
      some 9007199254740992 ∧
    ((StorageManager.opened (workDatabase 9007199254740992)).updateTagCount (js "work")
      true).2.tagCount (js "work") = some 9007199254740992 ∧
    (9007199254740992 : Int) = 2 ^ 53 ∧ (9007199254740992 : Int) ≠ 9007199254740992 + 1 := by
  refine ⟨by decide, by decide, by decide, by decide⟩

/-- C8 (amended): along every sequence of `updateTagCount` calls non-negative tag
counts stay non-negative; when both requests of a call succeed, a decrement at
count 0 leaves 0, a decrement at `n` with `0 < n ≤ 2^53` gives `n - 1`, an
increment at `n` with `0 ≤ n < 2^53` gives `n + 1`, and an increment of a name
with no record stores the count 1. -/
theorem updateTagCount_clamps_at_zero :
    (∀ (sm : StorageManager) (calls : List (JSString × Bool)),
      TagsNonneg sm → TagsNonneg (updateTagCounts sm calls)) ∧
    (∀ (db : Database) (name : JSString),
      db.next = .success → db.tick.next = .success →
      ((StorageManager.opened db).tagCount name = some 0 →
        ((StorageManager.opened db).updateTagCount name false).2.tagCount name = some 0) ∧
      (∀ n : Int, 0 < n → n ≤ 2 ^ 53 → (StorageManager.opened db).tagCount name = some n →
        ((StorageManager.opened db).updateTagCount name false).2.tagCount name = some (n - 1)) ∧
      (∀ n : Int, 0 ≤ n → n < 2 ^ 53 → (StorageManager.opened db).tagCount name = some n →
        ((StorageManager.opened db).updateTagCount name true).2.tagCount name = some (n + 1)) ∧
      ((StorageManager.opened db).tagCount name = none →
        ((StorageManager.opened db).updateTagCount name true).2.tagCount name = some 1)) := by
  refine ⟨fun sm calls h => updateTagCounts_nonneg calls sm h, ?_⟩
  intro db name h1 h2
  have key := fun inc => tagCount_updateTagCount db name inc h1 h2
  simp only [StorageManager.tagCount, StorageManager.opened] at *
  refine ⟨?_, ?_, ?_, ?_⟩
  · intro h
    rw [key]
    cases hg : storeGet Tag.name name db.tags with
    | none => simp [hg] at h
    | some t =>
      simp [hg] at h
      have e : numberAdd t.documentCount (-1) = -1 := by
        rw [numberAdd_exact _ _ (by omega) (by omega)]; omega
      simp [bumpTag, e]
  · intro n hn hb h
    rw [key]
    cases hg : storeGet Tag.name name db.tags with
    | none => simp [hg] at h
    | some t =>
      simp [hg] at h
      have e : numberAdd t.documentCount (-1) = n - 1 := by
        rw [numberAdd_exact _ _ (by omega) (by omega)]; omega
      simp only [bumpTag, Bool.false_eq_true, if_false, e]
      rw [if_neg (by omega)]
  · intro n hn hb h
    rw [key]
    cases hg : storeGet Tag.name name db.tags with
    | none => simp [hg] at h
    | some t =>
      simp [hg] at h
      have e : numberAdd t.documentCount 1 = n + 1 := by
        rw [numberAdd_exact _ _ (by omega) (by omega)]; omega
      simp only [bumpTag, if_true, e]
      rw [if_neg (by omega)]
  · intro h
    rw [key]
    cases hg : storeGet Tag.name name db.tags with
    | none => simp [bumpTag]
    | some t => simp [hg] at h

/-- Witness of C8: on the store whose tag `work` has the count 3, a decrement gives 2 and
an increment gives 4; on the store with the count 0 a decrement leaves 0. -/
theorem updateTagCount_clamps_at_zero_witness :
    ((StorageManager.opened (workDatabase 3)).updateTagCount (js "work") false).2.tagCount
      (js "work") = some 2 ∧
    ((StorageManager.opened (workDatabase 3)).updateTagCount (js "work") true).2.tagCount
      (js "work") = some 4 ∧
    ((StorageManager.opened (workDatabase 0)).updateTagCount (js "work") false).2.tagCount
      (js "work") = some 0 :=
  ⟨(updateTagCount_clamps_at_zero.2 (workDatabase 3) (js "work") rfl rfl).2.1 3 (by decide)
      (by decide) (by decide),
    (updateTagCount_clamps_at_zero.2 (workDatabase 3) (js "work") rfl rfl).2.2.1 3 (by decide)
      (by decide) (by decide),
    (updateTagCount_clamps_at_zero.2 (workDatabase 0) (js "work") rfl rfl).1 (by decide)⟩

/-! ## Documents: `saveDocument`, `getDocument`, `deleteDocument` -/

theorem saveDocument_ok (sm : StorageManager) (d r : Document)
    (h : (sm.saveDocument d).1 = .ok r) :
    ∃ db, sm.db = some db ∧ db.next = .success ∧ r = d ∧
      (sm.saveDocument d).2 =
        { db := some { db.tick with documents := storePut Document.id d db.documents } } := by
  unfold StorageManager.saveDocument StorageManager.getDB at h ⊢
  cases hsm : sm.db with
  | none => simp [hsm] at h
  | some db =>
    simp only [hsm] at h ⊢
    cases h1 : db.next with
    | failure e => simp [h1] at h
    | success =>
      simp only [h1] at h
      refine ⟨db, rfl, h1, ?_, rfl⟩
      simpa using h.symm

/-- C9: after `saveDocument(d)` succeeds, and when the read requests that follow
succeed, `getDocument(d.id)` returns `d`, `getAllDocuments` holds exactly one
document with the id of `d`, namely `d`, and `getDocument(j)` returns for every
other id `j` what it returned before the save. -/
theorem saveDocument_then_getDocument (sm : StorageManager) (d r : Document)
    (hsave : (sm.saveDocument d).1 = .ok r)
    (hread : ∀ db', (sm.saveDocument d).2.db = some db' → db'.next = .success) :
    r = d ∧
    ((sm.saveDocument d).2.getDocument d.id).1 = .ok (some d) ∧
    (∃ docs, (sm.saveDocument d).2.getAllDocuments.1 = .ok docs ∧
      docs.filter (fun x => decide (x.id = d.id)) = [d]) ∧
    (∀ j, j ≠ d.id → ((sm.saveDocument d).2.getDocument j).1 = (sm.getDocument j).1) := by
  obtain ⟨db, hdb, hnext, hr, hsm'⟩ := saveDocument_ok sm d r hsave
  have hread' := hread _ (by rw [hsm'])
  rw [hsm']
  refine ⟨hr, ?_, ?_, ?_⟩
  · simp only [StorageManager.getDocument, StorageManager.getDB, hread']
    rw [storeGet_storePut_self Document.id d db.documents]
  · refine ⟨storePut Document.id d db.documents, ?_, ?_⟩
    · simp only [StorageManager.getAllDocuments, StorageManager.getDB, hread']
    · unfold storePut
      apply filter_insertByKey_self
      intro x hx
      simpa using (List.mem_filter.mp hx).2
  · intro j hj
    simp only [StorageManager.getDocument, StorageManager.getDB, hread', hdb, hnext]
    rw [storeGet_storePut_other Document.id d j db.documents (fun h => hj h.symm)]

theorem saveDocument_then_getDocument_witness :
    ((StorageManager.opened emptyDatabase).saveDocument sampleDocument).1 = .ok sampleDocument ∧
    (((StorageManager.opened emptyDatabase).saveDocument sampleDocument).2.getDocument
      sampleDocument.id).1 = .ok (some sampleDocument) :=
  ⟨rfl, (saveDocument_then_getDocument (StorageManager.opened emptyDatabase) sampleDocument
    sampleDocument rfl (fun db' h => by
      have : db' = { emptyDatabase.tick with
          documents := storePut Document.id sampleDocument emptyDatabase.documents } := by
        simpa [StorageManager.saveDocument, StorageManager.getDB, StorageManager.opened,
          Database.next, emptyDatabase] using h.symm
      subst this; rfl)).2.1⟩

/-- C10: when its request succeeds `deleteDocument(id)` succeeds, the documents
left are exactly the stored ones with another id (all of them, in the same
order, when `id` is not stored), tags and settings are untouched, and a second
`deleteDocument(id)`, whatever the outcome of its request, leaves the stores as
the first one left them. -/
theorem deleteDocument_idempotent (sm : StorageManager) (db : Database) (id : JSString)
    (hdb : sm.db = some db) (hreq : db.next = .success) :
    (sm.deleteDocument id).1 = .ok () ∧
    (∃ db1, (sm.deleteDocument id).2.db = some db1 ∧
      (∀ d, d ∈ db1.documents ↔ d ∈ db.documents ∧ d.id ≠ id) ∧
      ((∀ d ∈ db.documents, d.id ≠ id) → db1.documents = db.documents) ∧
      db1.tags = db.tags ∧ db1.settings = db.settings ∧
      (∃ db2, ((sm.deleteDocument id).2.deleteDocument id).2.db = some db2 ∧
        db2.documents = db1.documents ∧ db2.tags = db1.tags ∧ db2.settings = db1.settings)) := by
  have h1 : sm.deleteDocument id =
      (.ok (), { db := some { db.tick with documents := storeDelete Document.id id db.documents } }) := by
    simp only [StorageManager.deleteDocument, StorageManager.getDB, hdb, hreq]
  rw [h1]
  refine ⟨rfl, _, rfl, ?_, ?_, rfl, rfl, ?_⟩
  · intro d
    simp [storeDelete]
  · intro h
    simp only [storeDelete]
    apply List.filter_eq_self.mpr
    intro d hd
    simpa using h d hd
  · simp only [StorageManager.deleteDocument, StorageManager.getDB]
    split
    · refine ⟨_, rfl, ?_, rfl, rfl⟩
      simp [storeDelete]
    · exact ⟨_, rfl, rfl, rfl, rfl⟩

/-- Witness of C10: from the store holding `d1`, `d2` and `d3`, deleting `d2` leaves `d1`
and `d3`, deleting it again leaves the same, and deleting the absent `d9`
leaves all three. -/
theorem deleteDocument_idempotent_witness :
    ((StorageManager.opened libraryDatabase).deleteDocument (js "d2")).2.documents =
      [sampleDocument, thirdDocument] ∧
    (((StorageManager.opened libraryDatabase).deleteDocument (js "d2")).2.deleteDocument
      (js "d2")).2.documents = [sampleDocument, thirdDocument] ∧
    ((StorageManager.opened libraryDatabase).deleteDocument (js "d9")).2.documents =
      [sampleDocument, secondDocument, thirdDocument] ∧
    ((StorageManager.opened libraryDatabase).deleteDocument (js "d2")).1 = .ok () ∧
    (∃ db1, ((StorageManager.opened libraryDatabase).deleteDocument (js "d2")).2.db = some db1 ∧
      (∀ d, d ∈ db1.documents ↔ d ∈ libraryDatabase.documents ∧ d.id ≠ js "d2") ∧
      ((∀ d ∈ libraryDatabase.documents, d.id ≠ js "d2") →
        db1.documents = libraryDatabase.documents) ∧
      db1.tags = libraryDatabase.tags ∧ db1.settings = libraryDatabase.settings ∧
      (∃ db2, (((StorageManager.opened libraryDatabase).deleteDocument (js "d2")).2.deleteDocument
          (js "d2")).2.db = some db2 ∧
        db2.documents = db1.documents ∧ db2.tags = db1.tags ∧ db2.settings = db1.settings)) :=
  ⟨by decide, by decide, by decide,
    deleteDocument_idempotent (StorageManager.opened libraryDatabase) libraryDatabase (js "d2")
      rfl rfl⟩

/-! ## Tag counts along `AnonDocsApp.saveDocument` -/

/-- C7 (fails on the code): after two documents with the tag `work` were saved
through `AnonDocsApp.saveDocument`, two stored documents contain the tag and the
stored `documentCount` is 1. -/
theorem saveDocument_tag_count_drifts :
    twoSaves.storage.db.map (fun db => (documentsWithTag db.documents (js "work"), db.tags)) =
      some (2, [{ name := js "work", documentCount := 1 }]) := by
  decide

/-! ## Base64 round trip -/

theorem base64Encode_eq (bs : Bytes) : base64Encode bs = base64Body bs ++ base64Pad bs := by
  induction bs using base64Encode.induct with
  | case1 a b c rest ih => simp [base64Encode, base64Body, base64Pad, ih]
  | case2 a b => simp [base64Encode, base64Body, base64Pad]
  | case3 a => simp [base64Encode, base64Body, base64Pad]
  | case4 => simp [base64Encode, base64Body, base64Pad]

theorem base64Char_ne_pad (n : Nat) : base64Char n ≠ 61 := by
  unfold base64Char
  split_ifs <;> omega

theorem base64Char_not_whitespace (n : Nat) : isAsciiWhitespace (base64Char n) = false := by
  unfold base64Char isAsciiWhitespace
  split_ifs <;> simp only [Bool.or_eq_false_iff, beq_eq_false_iff_ne, ne_eq] <;> omega

theorem base64Value_base64Char (n : Nat) (h : n < 64) : base64Value (base64Char n) = some n := by
  unfold base64Char base64Value
  split_ifs <;> first | omega | (simp only [Option.some.injEq]; omega)

end AnonDocs

namespace AnonDocs

theorem base64Body_mem (bs : Bytes) : ∀ u ∈ base64Body bs, ∃ n, u = base64Char n := by
  induction bs using base64Body.induct with
  | case1 a b c rest ih =>
    intro u hu
    simp only [base64Body, List.mem_cons] at hu
    rcases hu with h | h | h | h | h
    · exact ⟨_, h⟩
    · exact ⟨_, h⟩
    · exact ⟨_, h⟩
    · exact ⟨_, h⟩
    · exact ih u h
  | case2 a b =>
    intro u hu
    simp only [base64Body, List.mem_cons, List.mem_singleton, List.not_mem_nil, or_false] at hu
    rcases hu with h | h | h
    · exact ⟨_, h⟩
    · exact ⟨_, h⟩
    · exact ⟨_, h⟩
  | case3 a =>
    intro u hu
    simp only [base64Body, List.mem_cons, List.mem_singleton, List.not_mem_nil, or_false] at hu
    rcases hu with h | h
    · exact ⟨_, h⟩
    · exact ⟨_, h⟩
  | case4 => intro u hu; simp [base64Body] at hu

theorem base64Pad_cases (bs : Bytes) :
    (base64Pad bs = [] ∧ (base64Body bs).length % 4 = 0) ∨
    (base64Pad bs = [61] ∧ (base64Body bs).length % 4 = 3) ∨
    (base64Pad bs = [61, 61] ∧ (base64Body bs).length % 4 = 2) := by
  induction bs using base64Body.induct with
  | case1 a b c rest ih =>
    simp only [base64Pad, base64Body, List.length_cons]
    rcases ih with h | h | h
    · left; exact ⟨h.1, by omega⟩
    · right; left; exact ⟨h.1, by omega⟩
    · right; right; exact ⟨h.1, by omega⟩
  | case2 a b => right; left; simp [base64Pad, base64Body]
  | case3 a => right; right; simp [base64Pad, base64Body]
  | case4 => left; simp [base64Pad, base64Body]

theorem getLast_ne_pad (body : JSString) (h : ∀ u ∈ body, u ≠ 61) : body.getLast? ≠ some 61 := by
  intro hl
  exact h 61 (List.mem_of_getLast?_eq_some hl) rfl

theorem stripPadding_base64Encode (bs : Bytes) :
    stripPadding (base64Encode bs) = base64Body bs := by
  have hne : ∀ u ∈ base64Body bs, u ≠ 61 := by
    intro u hu
    obtain ⟨n, rfl⟩ := base64Body_mem bs u hu
    exact base64Char_ne_pad n
  have hlast := getLast_ne_pad _ hne
  rw [base64Encode_eq]
  unfold stripPadding
  rcases base64Pad_cases bs with ⟨hp, hl⟩ | ⟨hp, hl⟩ | ⟨hp, hl⟩
  · rw [hp, List.append_nil, if_pos hl, if_neg hlast]
  · rw [hp]
    have h4 : (base64Body bs ++ [61]).length % 4 = 0 := by
      rw [List.length_append, List.length_singleton]; omega
    rw [if_pos h4, List.getLast?_concat, if_pos rfl, List.dropLast_concat, if_neg hlast]
  · rw [hp]
    have e : base64Body bs ++ [61, 61] = (base64Body bs ++ [61]) ++ [61] := by simp
    have h4 : ((base64Body bs ++ [61]) ++ [61]).length % 4 = 0 := by
      simp only [List.length_append, List.length_singleton]; omega
    rw [e, if_pos h4, List.getLast?_concat, if_pos rfl, List.dropLast_concat,
      List.getLast?_concat, if_pos rfl, List.dropLast_concat]

theorem base64Encode_no_whitespace (bs : Bytes) :
    (base64Encode bs).filter (fun u => !isAsciiWhitespace u) = base64Encode bs := by
  apply List.filter_eq_self.mpr
  intro u hu
  rw [base64Encode_eq, List.mem_append] at hu
  rcases hu with hu | hu
  · obtain ⟨n, rfl⟩ := base64Body_mem bs u hu
    simp [base64Char_not_whitespace]
  · rcases base64Pad_cases bs with ⟨hp, _⟩ | ⟨hp, _⟩ | ⟨hp, _⟩
    · rw [hp] at hu; simp at hu
    · rw [hp] at hu; simp at hu; subst hu; decide
    · rw [hp] at hu; simp at hu; subst hu; decide

theorem decode_base64Body (bs : Bytes) (h : ∀ b ∈ bs, b < 256) :
    ∃ vs, base64Values (base64Body bs) = some vs ∧ decodeSextets vs = bs := by
  induction bs using base64Body.induct with
  | case1 a b c rest ih =>
    have ha : a < 256 := h a (by simp)
    have hb : b < 256 := h b (by simp)
    have hc : c < 256 := h c (by simp)
    obtain ⟨vs, hvs, hdec⟩ := ih (fun x hx => h x (by simp [hx]))
    refine ⟨a / 4 :: (a % 4 * 16 + b / 16) :: (b % 16 * 4 + c / 64) :: c % 64 :: vs, ?_, ?_⟩
    · simp only [base64Body, base64Values, hvs]
      rw [base64Value_base64Char _ (by omega), base64Value_base64Char _ (by omega),
        base64Value_base64Char _ (by omega), base64Value_base64Char _ (by omega)]
    · simp only [decodeSextets, hdec]
      congr 1
      · omega
      · congr 1
        · omega
        · congr 1
          omega
  | case2 a b =>
    have ha : a < 256 := h a (by simp)
    have hb : b < 256 := h b (by simp)
    refine ⟨[a / 4, a % 4 * 16 + b / 16, b % 16 * 4], ?_, ?_⟩
    · simp only [base64Body, base64Values]
      rw [base64Value_base64Char _ (by omega), base64Value_base64Char _ (by omega),
        base64Value_base64Char _ (by omega)]
    · simp only [decodeSextets]
      congr 1
      · omega
      · congr 1
        omega
  | case3 a =>
    have ha : a < 256 := h a (by simp)
    refine ⟨[a / 4, a % 4 * 16], ?_, ?_⟩
    · simp only [base64Body, base64Values]
      rw [base64Value_base64Char _ (by omega), base64Value_base64Char _ (by omega)]
    · simp only [decodeSextets]
      congr 1
      omega
  | case4 => exact ⟨[], rfl, rfl⟩

/-- Base64 round trip: `atob` inverts the base64 encoding of a byte sequence. -/
theorem atob_base64Encode (bs : Bytes) (h : ∀ b ∈ bs, b < 256) :
    atob (base64Encode bs) = some bs := by
  obtain ⟨vs, hvs, hdec⟩ := decode_base64Body bs h
  have hlen : ¬ (base64Body bs).length % 4 = 1 := by
    rcases base64Pad_cases bs with ⟨_, hl⟩ | ⟨_, hl⟩ | ⟨_, hl⟩ <;> omega
  simp only [atob, base64Encode_no_whitespace, stripPadding_base64Encode, if_neg hlen, hvs, hdec]

/-! ## UTF-8 round trip -/

theorem utf8Handle_lead (d : Utf8Decoder) (byte : Nat) (h : d.bytesNeeded = 0) :
    utf8Handle d byte = utf8HandleLead byte := by
  unfold utf8Handle
  rw [if_pos h]

theorem utf8Handle_last (d : Utf8Decoder) (byte : Nat) (h1 : d.bytesNeeded ≠ 0)
    (h2 : d.lowerBoundary ≤ byte ∧ byte ≤ d.upperBoundary) (h3 : d.bytesSeen + 1 = d.bytesNeeded) :
    utf8Handle d byte = (Utf8Decoder.initial, [d.codePoint * 64 + byte % 64]) := by
  unfold utf8Handle
  rw [if_neg h1, if_neg (by omega), if_neg (by simpa using h3)]

theorem utf8Handle_more (d : Utf8Decoder) (byte : Nat) (h1 : d.bytesNeeded ≠ 0)
    (h2 : d.lowerBoundary ≤ byte ∧ byte ≤ d.upperBoundary) (h3 : d.bytesSeen + 1 ≠ d.bytesNeeded) :
    utf8Handle d byte =
      ({ codePoint := d.codePoint * 64 + byte % 64, bytesSeen := d.bytesSeen + 1,
         bytesNeeded := d.bytesNeeded, lowerBoundary := 0x80, upperBoundary := 0xBF }, []) := by
  unfold utf8Handle
  rw [if_neg h1, if_neg (by omega), if_pos h3]

theorem utf8HandleLead_one (c : Nat) (h : c < 0x80) :
    utf8HandleLead c = (Utf8Decoder.initial, [c]) := by
  unfold utf8HandleLead
  rw [if_pos (by omega)]

theorem utf8HandleLead_two (c : Nat) (h1 : 0x80 ≤ c) (h2 : c < 0x800) :
    utf8HandleLead (0xC0 + c / 64) =
      ({ codePoint := c / 64, bytesSeen := 0, bytesNeeded := 1, lowerBoundary := 0x80,
         upperBoundary := 0xBF }, []) := by
  unfold utf8HandleLead
  rw [if_neg (by omega), if_pos (by omega)]
  have : (0xC0 + c / 64) % 32 = c / 64 := by omega
  simp only [Utf8Decoder.initial, this]

theorem utf8HandleLead_three (c : Nat) (h1 : 0x800 ≤ c) (h2 : c < 0x10000) :
    utf8HandleLead (0xE0 + c / 4096) =
      ({ codePoint := c / 4096, bytesSeen := 0, bytesNeeded := 2,
         lowerBoundary := if c / 4096 = 0 then 0xA0 else 0x80,
         upperBoundary := if c / 4096 = 13 then 0x9F else 0xBF }, []) := by
  unfold utf8HandleLead
  rw [if_neg (by omega), if_neg (by omega), if_pos (by omega)]
  have e1 : (0xE0 + c / 4096) % 16 = c / 4096 := by omega
  have e2 : (0xE0 + c / 4096 = 0xE0) = (c / 4096 = 0) := by
    apply propext; constructor <;> intro h <;> omega
  have e3 : (0xE0 + c / 4096 = 0xED) = (c / 4096 = 13) := by
    apply propext; constructor <;> intro h <;> omega
  simp only [e1, e2, e3]

theorem utf8HandleLead_four (c : Nat) (h1 : 0x10000 ≤ c) (h2 : c < 0x110000) :
    utf8HandleLead (0xF0 + c / 262144) =
      ({ codePoint := c / 262144, bytesSeen := 0, bytesNeeded := 3,
         lowerBoundary := if c / 262144 = 0 then 0x90 else 0x80,
         upperBoundary := if c / 262144 = 4 then 0x8F else 0xBF }, []) := by
  unfold utf8HandleLead
  rw [if_neg (by omega), if_neg (by omega), if_neg (by omega), if_pos (by omega)]
  have e1 : (0xF0 + c / 262144) % 8 = c / 262144 := by omega
  have e2 : (0xF0 + c / 262144 = 0xF0) = (c / 262144 = 0) := by
    apply propext; constructor <;> intro h <;> omega
  have e3 : (0xF0 + c / 262144 = 0xF4) = (c / 262144 = 4) := by
    apply propext; constructor <;> intro h <;> omega
  simp only [e1, e2, e3]

theorem utf8DecodeAux_encode (c : Nat) (rest : Bytes) (hc : isScalarValue c = true) :
    utf8DecodeAux Utf8Decoder.initial (utf8EncodeCodePoint c ++ rest) =
      c :: utf8DecodeAux Utf8Decoder.initial rest := by
  simp only [isScalarValue, Bool.and_eq_true, decide_eq_true_eq, Bool.not_eq_true',
    Bool.and_eq_false_iff, decide_eq_false_iff_not] at hc
  obtain ⟨hmax, hsur⟩ := hc
  unfold utf8EncodeCodePoint
  by_cases h1 : c < 0x80
  · rw [if_pos h1]
    simp only [List.cons_append, List.nil_append, utf8DecodeAux]
    rw [utf8Handle_lead _ _ rfl, utf8HandleLead_one c h1]
    rfl
  · rw [if_neg h1]
    by_cases h2 : c < 0x800
    · rw [if_pos h2]
      simp only [List.cons_append, List.nil_append, utf8DecodeAux]
      rw [utf8Handle_lead _ _ rfl, utf8HandleLead_two c (by omega) h2]
      simp only [List.nil_append]
      rw [utf8Handle_last _ _ (by simp) (by simp; omega) (by simp)]
      simp only [List.cons_append, List.nil_append]
      congr 1
      omega
    · rw [if_neg h2]
      by_cases h3 : c < 0x10000
      · rw [if_pos h3]
        simp only [List.cons_append, List.nil_append, utf8DecodeAux]
        rw [utf8Handle_lead _ _ rfl, utf8HandleLead_three c (by omega) h3]
        simp only [List.nil_append]
        rw [utf8Handle_more _ _ (by simp) (by simp only; split_ifs <;> omega) (by simp)]
        simp only [List.nil_append]
        rw [utf8Handle_last _ _ (by simp) (by simp; omega) (by simp)]
        simp only [List.cons_append, List.nil_append]
        congr 1
        omega
      · rw [if_neg h3]
        simp only [List.cons_append, List.nil_append, utf8DecodeAux]
        rw [utf8Handle_lead _ _ rfl, utf8HandleLead_four c (by omega) hmax]
        simp only [List.nil_append]
        rw [utf8Handle_more _ _ (by simp) (by simp only; split_ifs <;> omega) (by simp)]
        simp only [List.nil_append]
        rw [utf8Handle_more _ _ (by simp) (by simp; omega) (by simp)]
        simp only [List.nil_append]
        rw [utf8Handle_last _ _ (by simp) (by simp; omega) (by simp)]
        simp only [List.cons_append, List.nil_append]
        congr 1
        omega

theorem utf8Decode_utf8Encode (cps : List Nat) (h : ∀ c ∈ cps, isScalarValue c = true) :
    utf8Decode (utf8Encode cps) = cps := by
  unfold utf8Decode
  induction cps with
  | nil => rfl
  | cons c rest ih =>
    simp only [utf8Encode]
    rw [utf8DecodeAux_encode c _ (h c (by simp)), ih (fun x hx => h x (by simp [hx]))]

theorem utf8EncodeCodePoint_bytes (c : Nat) (hc : isScalarValue c = true) :
    ∀ b ∈ utf8EncodeCodePoint c, b < 256 := by
  simp only [isScalarValue, Bool.and_eq_true, decide_eq_true_eq] at hc
  obtain ⟨hmax, -⟩ := hc
  intro b hb
  unfold utf8EncodeCodePoint at hb
  split_ifs at hb <;> simp only [List.mem_cons, List.mem_singleton, List.not_mem_nil, or_false] at hb <;>
    rcases hb with h | h | h | h <;> omega

theorem utf8Encode_bytes (cps : List Nat) (h : ∀ c ∈ cps, isScalarValue c = true) :
    ∀ b ∈ utf8Encode cps, b < 256 := by
  induction cps with
  | nil => intro b hb; simp [utf8Encode] at hb
  | cons c rest ih =>
    intro b hb
    simp only [utf8Encode, List.mem_append] at hb
    rcases hb with hb | hb
    · exact utf8EncodeCodePoint_bytes c (h c (by simp)) b hb
    · exact ih (fun x hx => h x (by simp [hx])) b hb

/-! ## UTF-16 round trip -/

theorem codePointToUnits_pair (hi lo : Nat) (h1 : isLeadSurrogate hi = true)
    (h2 : isTrailSurrogate lo = true) : codePointToUnits (surrogatePair hi lo) = [hi, lo] := by
  simp only [isLeadSurrogate, isTrailSurrogate, Bool.and_eq_true, decide_eq_true_eq] at h1 h2
  unfold codePointToUnits surrogatePair
  rw [if_neg (by omega)]
  have e1 : 0xD800 + (0x10000 + (hi - 0xD800) * 0x400 + (lo - 0xDC00) - 0x10000) / 0x400 = hi := by
    omega
  have e2 : 0xDC00 + (0x10000 + (hi - 0xD800) * 0x400 + (lo - 0xDC00) - 0x10000) % 0x400 = lo := by
    omega
  rw [e1, e2]

theorem isScalarValue_pair (hi lo : Nat) (h1 : isLeadSurrogate hi = true)
    (h2 : isTrailSurrogate lo = true) : isScalarValue (surrogatePair hi lo) = true := by
  simp only [isLeadSurrogate, isTrailSurrogate, Bool.and_eq_true, decide_eq_true_eq] at h1 h2
  simp only [isScalarValue, surrogatePair, Bool.and_eq_true, decide_eq_true_eq, Bool.not_eq_true',
    Bool.and_eq_false_iff, decide_eq_false_iff_not]
  omega

theorem isScalarValue_unit (u : Nat) (h1 : isLeadSurrogate u = false)
    (h2 : isTrailSurrogate u = false) (h3 : u < 0x10000) : isScalarValue u = true := by
  simp only [isLeadSurrogate, isTrailSurrogate, Bool.and_eq_false_iff, decide_eq_false_iff_not] at h1 h2
  simp only [isScalarValue, Bool.and_eq_true, decide_eq_true_eq, Bool.not_eq_true',
    Bool.and_eq_false_iff, decide_eq_false_iff_not]
  omega

theorem toScalarValues_wellFormed (s : JSString) :
    (isWellFormedAux false s = true →
      (∀ c ∈ toScalarValuesAux none s, isScalarValue c = true) ∧
      fromCodePoints (toScalarValuesAux none s) = s) ∧
    (∀ hi, isLeadSurrogate hi = true → isWellFormedAux true s = true →
      (∀ c ∈ toScalarValuesAux (some hi) s, isScalarValue c = true) ∧
      fromCodePoints (toScalarValuesAux (some hi) s) = hi :: s) := by
  induction s with
  | nil =>
    constructor
    · intro _
      exact ⟨by simp [toScalarValuesAux], rfl⟩
    · intro hi _ h
      simp [isWellFormedAux] at h
  | cons u rest ih =>
    obtain ⟨ih0, ih1⟩ := ih
    constructor
    · intro h
      simp only [isWellFormedAux] at h
      simp only [toScalarValuesAux]
      by_cases hl : isLeadSurrogate u = true
      · rw [if_pos hl] at h ⊢
        exact ih1 u hl h
      · rw [if_neg hl] at h ⊢
        by_cases ht : isTrailSurrogate u = true
        · rw [if_pos ht] at h
          cases h
        · rw [if_neg ht] at h ⊢
          simp only [Bool.and_eq_true, decide_eq_true_eq] at h
          obtain ⟨ihs, ihf⟩ := ih0 h.2
          constructor
          · intro c hc
            rcases List.mem_cons.mp hc with hc | hc
            · rw [hc]; exact isScalarValue_unit u (by simpa using hl) (by simpa using ht) h.1
            · exact ihs c hc
          · simp only [fromCodePoints, codePointToUnits, if_pos h.1, ihf, List.singleton_append]
    · intro hi hhi h
      simp only [isWellFormedAux, Bool.and_eq_true] at h
      simp only [toScalarValuesAux]
      rw [if_pos h.1]
      obtain ⟨ihs, ihf⟩ := ih0 h.2
      constructor
      · intro c hc
        rcases List.mem_cons.mp hc with hc | hc
        · rw [hc]; exact isScalarValue_pair hi u hhi h.1
        · exact ihs c hc
      · simp only [fromCodePoints, codePointToUnits_pair hi u hhi h.1, ihf, List.cons_append,
          List.nil_append]

theorem stripBOM_of_head (cps : List Nat) (h : cps.head? ≠ some 0xFEFF) : stripBOM cps = cps := by
  unfold stripBOM
  split
  · simp at h
  · rfl

theorem fromCodePoints_head (cps : List Nat) (h : cps.head? = some 0xFEFF) :
    (fromCodePoints cps).head? = some 0xFEFF := by
  cases cps with
  | nil => simp at h
  | cons c rest =>
    simp only [List.head?_cons, Option.some.injEq] at h
    subst h
    rfl

/-- Text round trip: `TextDecoder` inverts `TextEncoder` on a well-formed string
that does not begin with U+FEFF. -/
theorem textDecode_textEncode (s : JSString) (hw : isWellFormed s = true)
    (hb : s.head? ≠ some 0xFEFF) : textDecode (textEncode s) = s := by
  obtain ⟨hs, hf⟩ := (toScalarValues_wellFormed s).1 hw
  unfold textDecode textEncode toScalarValues
  rw [utf8Decode_utf8Encode _ hs, stripBOM_of_head, hf]
  intro h
  have := fromCodePoints_head _ h
  rw [hf] at this
  exact hb this

theorem textEncode_bytes (s : JSString) (hw : isWellFormed s = true) :
    ∀ b ∈ textEncode s, b < 256 :=
  utf8Encode_bytes _ ((toScalarValues_wellFormed s).1 hw).1

/-! ## The envelope -/

theorem saltOf_length (r : Random) : (saltOf r).length = 16 := by simp [saltOf]

theorem ivOf_length (r : Random) : (ivOf r).length = 12 := by simp [ivOf]

theorem saltOf_bytes (r : Random) : ∀ b ∈ saltOf r, b < 256 := by
  intro b hb
  simp only [saltOf, List.mem_map] at hb
  obtain ⟨i, -, rfl⟩ := hb
  exact Nat.mod_lt _ (by decide)

theorem ivOf_bytes (r : Random) : ∀ b ∈ ivOf r, b < 256 := by
  intro b hb
  simp only [ivOf, List.mem_map] at hb
  obtain ⟨i, -, rfl⟩ := hb
  exact Nat.mod_lt _ (by decide)

theorem encrypt_eq {Key : Type} (sc : SubtleCrypto Key) (em : EncryptionManager) (r : Random)
    (data W : JSString) :
    EncryptionManager.encrypt sc em r data W =
      match EncryptionManager.encryptWith sc em (saltOf r) (ivOf r) data W with
      | some envelope => (.ok envelope, { r with pos := r.pos + 28 })
      | none => (.error encryptError, { r with pos := r.pos + 28 }) := rfl

theorem fromCharCode_bytes (bs : Bytes) (h : ∀ b ∈ bs, b < 256) : fromCharCode bs = bs := by
  unfold fromCharCode
  conv_rhs => rw [← List.map_id bs]
  apply List.map_congr_left
  intro b hb
  have := h b hb
  simp only [id]
  omega

theorem uint8ArrayFrom_bytes (bs : Bytes) (h : ∀ b ∈ bs, b < 256) : uint8ArrayFrom bs = bs := by
  unfold uint8ArrayFrom
  conv_rhs => rw [← List.map_id bs]
  apply List.map_congr_left
  intro b hb
  have := h b hb
  simp only [id]
  omega

theorem btoa_bytes (bs : Bytes) (h : ∀ b ∈ bs, b < 256) : btoa bs = some (base64Encode bs) := by
  unfold btoa
  rw [if_pos]
  simp only [List.all_eq_true, decide_eq_true_eq]
  intro b hb
  have := h b hb
  omega

theorem envelope_bytes (salt iv ct : Bytes) (h1 : ∀ b ∈ salt, b < 256) (h2 : ∀ b ∈ iv, b < 256)
    (h3 : ∀ b ∈ ct, b < 256) : ∀ b ∈ salt ++ iv ++ ct, b < 256 := by
  intro b hb
  simp only [List.mem_append] at hb
  rcases hb with (hb | hb) | hb
  · exact h1 b hb
  · exact h2 b hb
  · exact h3 b hb

theorem slice_salt (salt iv ct : Bytes) (h1 : salt.length = 16) :
    slice (salt ++ iv ++ ct) 0 16 = salt := by
  unfold slice
  rw [List.drop_zero, List.append_assoc, List.take_append_of_le_length (by omega),
    List.take_of_length_le (by omega)]

theorem slice_iv (salt iv ct : Bytes) (h1 : salt.length = 16) (h2 : iv.length = 12) :
    slice (salt ++ iv ++ ct) 16 28 = iv := by
  unfold slice
  rw [List.append_assoc, List.drop_append_of_le_length (by omega),
    List.drop_of_length_le (by omega), List.nil_append,
    List.take_append_of_le_length (by omega), List.take_of_length_le (by omega)]

theorem drop_envelope (salt iv ct : Bytes) (h1 : salt.length = 16) (h2 : iv.length = 12) :
    (salt ++ iv ++ ct).drop 28 = ct := by
  have : (salt ++ iv).length = 28 := by rw [List.length_append]; omega
  rw [← this, List.drop_left]

/-- What `decrypt` does on the base64 encoding of `salt ++ iv ++ ct`: it derives
the key from the password and the salt and decrypts `ct` under the IV. -/
theorem decryptBody_envelope {Key : Type} (sc : SubtleCrypto Key) (em : EncryptionManager)
    (salt iv ct : Bytes) (W : JSString) (h1 : salt.length = 16) (h2 : iv.length = 12)
    (hb : ∀ b ∈ salt ++ iv ++ ct, b < 256) :
    EncryptionManager.decryptBody sc em (base64Encode (salt ++ iv ++ ct)) W =
      match EncryptionManager.generateKey sc em W salt with
      | none => none
      | some key =>
        match sc.decrypt em.algorithm iv key ct with
        | none => none
        | some decryptedData => some (textDecode decryptedData) := by
  unfold EncryptionManager.decryptBody
  rw [atob_base64Encode _ hb]
  simp only [uint8ArrayFrom_bytes _ hb, slice_salt salt iv ct h1, slice_iv salt iv ct h1 h2,
    drop_envelope salt iv ct h1 h2]

/-- What `encrypt` returns when it succeeds. -/
theorem encrypt_ok {Key : Type} (sc : SubtleCrypto Key) (em : EncryptionManager) (r : Random)
    (data W env : JSString) (h : (EncryptionManager.encrypt sc em r data W).1 = .ok env) :
    ∃ key ct, EncryptionManager.generateKey sc em W (saltOf r) = some key ∧
      sc.encrypt em.algorithm (ivOf r) key (textEncode data) = some ct ∧
      (saltOf r ++ ivOf r ++ ct).length ≤ sc.argumentLimit ∧
      btoa (fromCharCode (saltOf r ++ ivOf r ++ ct)) = some env := by
  rw [encrypt_eq] at h
  cases hw : EncryptionManager.encryptWith sc em (saltOf r) (ivOf r) data W with
  | none => rw [hw] at h; cases h
  | some e =>
    rw [hw] at h
    have hee : e = env := by injection h
    subst hee
    unfold EncryptionManager.encryptWith at hw
    cases hk : EncryptionManager.generateKey sc em W (saltOf r) with
    | none => rw [hk] at hw; cases hw
    | some key =>
      rw [hk] at hw
      dsimp only at hw
      cases he : sc.encrypt em.algorithm (ivOf r) key (textEncode data) with
      | none => rw [he] at hw; cases hw
      | some ct =>
        rw [he] at hw
        dsimp only at hw
        unfold fromCharCodeSpread at hw
        by_cases hfit : (saltOf r ++ ivOf r ++ ct).length ≤ sc.argumentLimit
        · rw [if_pos hfit] at hw
          exact ⟨key, ct, rfl, he, hfit, hw⟩
        · rw [if_neg hfit] at hw
          cases hw

theorem generateKey_eq {Key : Type} (sc : SubtleCrypto Key) (W : JSString) (salt : Bytes) :
    EncryptionManager.generateKey sc encryptionManager W salt =
      sc.deriveKey (textEncode W) (pbkdf2Params salt) := rfl

theorem scalar_toScalarValuesAux :
    ∀ (s : JSString) (o : Option Nat), (∀ u ∈ s, u < 65536) →
      (∀ hi, o = some hi → isLeadSurrogate hi = true) →
      ∀ c ∈ toScalarValuesAux o s, isScalarValue c = true := by
  intro s
  induction s with
  | nil =>
    intro o _ _ c hc
    cases o with
    | none => simp [toScalarValuesAux] at hc
    | some hi =>
      simp only [toScalarValuesAux, List.mem_singleton] at hc
      rw [hc]; decide
  | cons x rest ih =>
    intro o hu ho c hc
    have hx : x < 65536 := hu x (List.mem_cons_self _ _)
    have hrest : ∀ u ∈ rest, u < 65536 := fun u h => hu u (List.mem_cons_of_mem _ h)
    have hnone : ∀ hi, (none : Option Nat) = some hi → isLeadSurrogate hi = true := by
      intro hi h; cases h
    cases o with
    | none =>
      simp only [toScalarValuesAux] at hc
      by_cases h1 : isLeadSurrogate x = true
      · rw [if_pos h1] at hc
        exact ih (some x) hrest (fun hi h => by cases h; exact h1) c hc
      · rw [if_neg h1] at hc
        by_cases h2 : isTrailSurrogate x = true
        · rw [if_pos h2] at hc
          rcases List.mem_cons.mp hc with h | h
          · rw [h]; decide
          · exact ih none hrest hnone c h
        · rw [if_neg h2] at hc
          rcases List.mem_cons.mp hc with h | h
          · rw [h]
            exact isScalarValue_unit x (by simpa using h1) (by simpa using h2) hx
          · exact ih none hrest hnone c h
    | some hi =>
      have hhi : isLeadSurrogate hi = true := ho hi rfl
      simp only [toScalarValuesAux] at hc
      by_cases h2 : isTrailSurrogate x = true
      · rw [if_pos h2] at hc
        rcases List.mem_cons.mp hc with h | h
        · rw [h]; exact isScalarValue_pair hi x hhi h2
        · exact ih none hrest hnone c h
      · rw [if_neg h2] at hc
        by_cases h1 : isLeadSurrogate x = true
        · rw [if_pos h1] at hc
          rcases List.mem_cons.mp hc with h | h
          · rw [h]; decide
          · exact ih (some x) hrest (fun hi' h' => by cases h'; exact h1) c h
        · rw [if_neg h1] at hc
          rcases List.mem_cons.mp hc with h | h
          · rw [h]; decide
          · rcases List.mem_cons.mp h with h | h
            · rw [h]
              exact isScalarValue_unit x (by simpa using h1) (by simpa using h2) hx
            · exact ih none hrest hnone c h

/-- The UTF-8 encoding of a string of code units is a sequence of bytes. -/
theorem textEncode_units_bytes (s : JSString) (h : ∀ u ∈ s, u < 65536) :
    ∀ b ∈ textEncode s, b < 256 :=
  utf8Encode_bytes _ (scalar_toScalarValuesAux s none h (fun _ h => by cases h))

/-- With a sound provider `encrypt` of a plaintext that fits the argument limit
succeeds, and `decrypt` under a password that derives the same key returns the
decoding of the encoded plaintext. -/
theorem encrypt_then_decrypt {Key : Type} (sc : SubtleCrypto Key)
    (r : Random) (P W1 W2 : JSString) (hs : sc.Sound)
    (hW : EncryptionManager.generateKey sc encryptionManager W2 (saltOf r) =
      EncryptionManager.generateKey sc encryptionManager W1 (saltOf r))
    (hP : ∀ b ∈ textEncode P, b < 256)
    (hlen : (textEncode P).length + 44 ≤ sc.argumentLimit) :
    ∃ env, (EncryptionManager.encrypt sc encryptionManager r P W1).1 = .ok env ∧
      EncryptionManager.decrypt sc encryptionManager env W2 = .ok (textDecode (textEncode P)) := by
  obtain ⟨key, ct, hkey, henc, hct, hl, hdec⟩ := hs (textEncode W1) (saltOf r) (ivOf r)
    (textEncode P) (saltOf_length r) (ivOf_length r) (saltOf_bytes r) (ivOf_bytes r) hP hlen
  rw [← generateKey_eq] at hkey
  have henc' : sc.encrypt encryptionManager.algorithm (ivOf r) key (textEncode P) = some ct :=
    henc
  have hdec' : sc.decrypt encryptionManager.algorithm (ivOf r) key ct = some (textEncode P) :=
    hdec
  have hb := envelope_bytes _ _ _ (saltOf_bytes r) (ivOf_bytes r) hct
  have hfit : (saltOf r ++ ivOf r ++ ct).length ≤ sc.argumentLimit := by
    simp only [List.length_append, saltOf_length, ivOf_length, hl]
    omega
  refine ⟨base64Encode (saltOf r ++ ivOf r ++ ct), ?_, ?_⟩
  · rw [encrypt_eq]
    unfold EncryptionManager.encryptWith
    rw [hkey]
    dsimp only
    rw [henc']
    dsimp only
    unfold fromCharCodeSpread
    rw [if_pos hfit]
    dsimp only
    rw [fromCharCode_bytes _ hb, btoa_bytes _ hb]
  · unfold EncryptionManager.decrypt
    rw [decryptBody_envelope sc encryptionManager _ _ _ W2 (saltOf_length r) (ivOf_length r) hb,
      hW, hkey]
    dsimp only
    rw [hdec']

/-- Whatever the provider does, `encrypt` throws when the ciphertext is 16 bytes
longer than the encoded plaintext and the envelope, 28 bytes longer still, has
more bytes than the argument limit. -/
theorem encrypt_too_long {Key : Type} (sc : SubtleCrypto Key) (r : Random) (P W : JSString)
    (hs : sc.AddsTag) (hlen : sc.argumentLimit < (textEncode P).length + 44) :
    (EncryptionManager.encrypt sc encryptionManager r P W).1 = .error encryptError := by
  rw [encrypt_eq]
  unfold EncryptionManager.encryptWith
  cases EncryptionManager.generateKey sc encryptionManager W (saltOf r) with
  | none => rfl
  | some key =>
    dsimp only
    cases henc : sc.encrypt encryptionManager.algorithm (ivOf r) key (textEncode P) with
    | none => rfl
    | some ct =>
      dsimp only
      have hl : ct.length = (textEncode P).length + 16 := hs (ivOf r) (textEncode P) ct key henc
      have hfit : ¬ (saltOf r ++ ivOf r ++ ct).length ≤ sc.argumentLimit := by
        simp only [List.length_append, saltOf_length, ivOf_length, hl]
        omega
      unfold fromCharCodeSpread
      rw [if_neg hfit]

theorem textEncode_replicate (n : Nat) :
    textEncode (List.replicate n 0x61) = List.replicate n 0x61 := by
  induction n with
  | zero => rfl
  | succ n ih =>
    have h := ih
    unfold textEncode toScalarValues at h ⊢
    rw [List.replicate_succ]
    simp only [toScalarValuesAux, isLeadSurrogate, isTrailSurrogate, utf8Encode,
      utf8EncodeCodePoint]
    simp [h]

/-! ## The demonstration provider meets the contract -/

theorem demoMask_length (key : Nat) (pt : Bytes) : ∀ i, (demoMask key i pt).length = pt.length := by
  induction pt with
  | nil => intro i; rfl
  | cons b rest ih => intro i; simp [demoMask, ih]

theorem demoMask_bytes (key : Nat) (pt : Bytes) : ∀ i, ∀ b ∈ demoMask key i pt, b < 256 := by
  induction pt with
  | nil => intro i b hb; simp [demoMask] at hb
  | cons x rest ih =>
    intro i b hb
    simp only [demoMask, List.mem_cons] at hb
    rcases hb with hb | hb
    · rw [hb]; exact Nat.mod_lt _ (by decide)
    · exact ih _ b hb

theorem demoUnmask_demoMask (key : Nat) (pt : Bytes) (h : ∀ b ∈ pt, b < 256) :
    ∀ i, demoUnmask key i (demoMask key i pt) = pt := by
  induction pt with
  | nil => intro i; rfl
  | cons x rest ih =>
    intro i
    have hx : x < 256 := h x (by simp)
    have hp : demoPad key i < 256 := Nat.mod_lt _ (by decide)
    simp only [demoMask, demoUnmask, ih (fun b hb => h b (by simp [hb]))]
    congr 1
    omega

theorem demoTag_length (key : Nat) (iv pt : Bytes) : (demoTag key iv pt).length = 16 := by
  simp [demoTag]

theorem demoTag_bytes (key : Nat) (iv pt : Bytes) : ∀ b ∈ demoTag key iv pt, b < 256 := by
  intro b hb
  simp only [demoTag, List.mem_map] at hb
  obtain ⟨i, -, rfl⟩ := hb
  exact Nat.mod_lt _ (by decide)

theorem demoCrypto_encrypt (alg : String) (iv : Bytes) (key : Nat) (pt : Bytes)
    (h : ∀ b ∈ pt, b < 256) :
    demoCrypto.encrypt alg iv key pt = some (demoMask key 0 pt ++ demoTag key iv pt) := by
  simp only [demoCrypto]
  rw [if_pos]
  simp only [List.all_eq_true, decide_eq_true_eq]
  exact h

theorem demoCrypto_sound : demoCrypto.Sound := by
  intro pw salt iv pt _ _ _ _ hpt _
  refine ⟨demoKey pw (pbkdf2Params salt),
    demoMask (demoKey pw (pbkdf2Params salt)) 0 pt ++ demoTag (demoKey pw (pbkdf2Params salt)) iv pt,
    rfl, demoCrypto_encrypt "AES-GCM" iv _ pt hpt, ?_, ?_, ?_⟩
  · intro b hb
    rcases List.mem_append.mp hb with hb | hb
    · exact demoMask_bytes _ _ _ b hb
    · exact demoTag_bytes _ _ _ b hb
  · rw [List.length_append, demoMask_length, demoTag_length]
  · have hlen : (demoMask (demoKey pw (pbkdf2Params salt)) 0 pt ++
        demoTag (demoKey pw (pbkdf2Params salt)) iv pt).length - 16 =
        (demoMask (demoKey pw (pbkdf2Params salt)) 0 pt).length := by
      rw [List.length_append, demoTag_length]; omega
    simp only [demoCrypto]
    rw [if_neg (by rw [List.length_append, demoTag_length]; omega), hlen, List.take_left,
      List.drop_left, demoUnmask_demoMask _ _ hpt, if_pos rfl]

theorem demoCrypto_rejectsShort : demoCrypto.RejectsShort := by
  intro alg iv key ct h
  simp only [demoCrypto]
  rw [if_pos h]

theorem demoCrypto_returnsBytes : demoCrypto.ReturnsBytes := by
  intro alg iv key pt ct h b hb
  simp only [demoCrypto] at h
  split at h
  · have : ct = demoMask key 0 pt ++ demoTag key iv pt := by simpa using h.symm
    rw [this] at hb
    rcases List.mem_append.mp hb with hb | hb
    · exact demoMask_bytes _ _ _ b hb
    · exact demoTag_bytes _ _ _ b hb
  · cases h

theorem demoCrypto_addsTag : demoCrypto.AddsTag := by
  intro iv pt ct key h
  simp only [demoCrypto] at h
  split at h
  · have : ct = demoMask key 0 pt ++ demoTag key iv pt := by simpa using h.symm
    rw [this, List.length_append, demoMask_length, demoTag_length]
  · cases h

theorem keyDigits_length (n k : Nat) : (keyDigits n k).length = n := by
  induction n generalizing k with
  | zero => rfl
  | succ n ih => simp [keyDigits, ih]

theorem keyDigits_bytes (n : Nat) : ∀ k, ∀ b ∈ keyDigits n k, b < 256 := by
  induction n with
  | zero => intro k b hb; simp [keyDigits] at hb
  | succ n ih =>
    intro k b hb
    simp only [keyDigits, List.mem_cons] at hb
    rcases hb with hb | hb
    · rw [hb]; exact Nat.mod_lt _ (by decide)
    · exact ih _ b hb

theorem keyDigits_mod (n : Nat) :
    ∀ k k', keyDigits n k = keyDigits n k' → k % 256 ^ n = k' % 256 ^ n := by
  induction n with
  | zero => intro k k' _; simp [Nat.mod_one]
  | succ n ih =>
    intro k k' h
    simp only [keyDigits, List.cons.injEq] at h
    rw [pow_succ', Nat.mod_mul, Nat.mod_mul, h.1, ih _ _ h.2]

theorem keyDigits_inj (k k' : Fin (256 ^ 16)) (h : keyDigits 16 k.val = keyDigits 16 k'.val) :
    k = k' := by
  have := keyDigits_mod 16 _ _ h
  rw [Nat.mod_eq_of_lt k.isLt, Nat.mod_eq_of_lt k'.isLt] at this
  exact Fin.ext this

theorem tagCrypto_encrypt (alg : String) (iv : Bytes) (key : Fin (256 ^ 16)) (pt : Bytes)
    (h : ∀ b ∈ pt, b < 256) :
    tagCrypto.encrypt alg iv key pt = some (demoMask key.val 0 pt ++ keyDigits 16 key.val) := by
  simp only [tagCrypto]
  rw [if_pos]
  simp only [List.all_eq_true, decide_eq_true_eq]
  exact h

theorem tagCrypto_sound : tagCrypto.Sound := by
  intro pw salt iv pt _ _ _ _ hpt _
  refine ⟨⟨(pw.sum + 31 * salt.sum) % 256 ^ 16, Nat.mod_lt _ (by decide)⟩, _, rfl,
    tagCrypto_encrypt "AES-GCM" iv _ pt hpt, ?_, ?_, ?_⟩
  · intro b hb
    rcases List.mem_append.mp hb with hb | hb
    · exact demoMask_bytes _ _ _ b hb
    · exact keyDigits_bytes _ _ b hb
  · rw [List.length_append, demoMask_length, keyDigits_length]
  · simp only [tagCrypto]
    rw [if_neg (by rw [List.length_append, keyDigits_length]; omega)]
    have hlen : ∀ k : Nat, (demoMask k 0 pt ++ keyDigits 16 k).length - 16 =
        (demoMask k 0 pt).length := by
      intro k; rw [List.length_append, keyDigits_length]; omega
    rw [hlen, List.take_left, List.drop_left, if_pos rfl, demoUnmask_demoMask _ _ hpt]

theorem tagCrypto_keySeparating : tagCrypto.KeySeparating := by
  intro iv pt ct key1 key2 hne henc
  simp only [tagCrypto] at henc ⊢
  split at henc
  · have hct : ct = demoMask key1.val 0 pt ++ keyDigits 16 key1.val := by
      simpa using henc.symm
    subst hct
    have hlen : (demoMask key1.val 0 pt ++ keyDigits 16 key1.val).length - 16 =
        (demoMask key1.val 0 pt).length := by
      rw [List.length_append, keyDigits_length]; omega
    rw [if_neg (by rw [List.length_append, keyDigits_length]; omega), hlen, List.drop_left,
      if_neg]
    intro h
    exact hne (keyDigits_inj key1 key2 h)
  · cases henc

/-! ## `EncryptionManager`: round trip, failures, layout -/

/-- C1 (as stated, fails): with every sound provider that accepts 48 arguments,
every random source and every password, the round trip of the string made of
the unpaired surrogate U+D800 returns U+FFFD, and the round trip of U+FEFF
followed by `a` returns `a`; with every provider whose ciphertexts carry the
16-byte tag, `encrypt` of a plaintext of as many letters `a` as the engine
accepts arguments throws, the envelope being 44 bytes longer; such providers
exist. -/
theorem encrypt_decrypt_alters_plaintext :
    demoCrypto.Sound ∧ demoCrypto.AddsTag ∧
    (∀ (Key : Type) (sc : SubtleCrypto Key) (r : Random) (W : JSString), sc.Sound →
      48 ≤ sc.argumentLimit →
      ∃ env, (EncryptionManager.encrypt sc encryptionManager r [0xD800] W).1 = .ok env ∧
        EncryptionManager.decrypt sc encryptionManager env W = .ok [0xFFFD]) ∧
    (∀ (Key : Type) (sc : SubtleCrypto Key) (r : Random) (W : JSString), sc.Sound →
      48 ≤ sc.argumentLimit →
      ∃ env, (EncryptionManager.encrypt sc encryptionManager r [0xFEFF, 0x61] W).1 = .ok env ∧
        EncryptionManager.decrypt sc encryptionManager env W = .ok [0x61]) ∧
    (∀ (Key : Type) (sc : SubtleCrypto Key) (r : Random) (W : JSString), sc.AddsTag →
      (EncryptionManager.encrypt sc encryptionManager r (List.replicate sc.argumentLimit 0x61)
        W).1 = .error encryptError) := by
  refine ⟨demoCrypto_sound, demoCrypto_addsTag, ?_, ?_, ?_⟩
  · intro Key sc r W hs hl
    have e : textEncode [0xD800] = [0xEF, 0xBF, 0xBD] := by decide
    exact encrypt_then_decrypt sc r [0xD800] W W hs rfl (by decide)
      (by rw [e]; simp only [List.length_cons, List.length_nil]; omega)
  · intro Key sc r W hs hl
    have e : textEncode [0xFEFF, 0x61] = [0xEF, 0xBB, 0xBF, 0x61] := by decide
    exact encrypt_then_decrypt sc r [0xFEFF, 0x61] W W hs rfl (by decide)
      (by rw [e]; simp only [List.length_cons, List.length_nil]; omega)
  · intro Key sc r W hs
    apply encrypt_too_long sc r _ W hs
    rw [textEncode_replicate, List.length_replicate]
    omega

/-- C1 (amended): with a sound provider, for every well-formed plaintext that does
not begin with U+FEFF and whose envelope (the UTF-8 encoding and 44 more bytes)
has no more bytes than the engine accepts arguments in one call, every
password and every state of the random source, `encrypt` succeeds and
`decrypt` of its envelope under the same password returns the plaintext. -/
theorem encrypt_decrypt_roundtrip {Key : Type} (sc : SubtleCrypto Key)
    (r : Random) (P W : JSString) (hs : sc.Sound) (hw : isWellFormed P = true)
    (hb : P.head? ≠ some 0xFEFF) (hlen : (textEncode P).length + 44 ≤ sc.argumentLimit) :
    ∃ env, (EncryptionManager.encrypt sc encryptionManager r P W).1 = .ok env ∧
      EncryptionManager.decrypt sc encryptionManager env W = .ok P := by
  obtain ⟨env, h1, h2⟩ := encrypt_then_decrypt sc r P W W hs rfl (textEncode_bytes P hw) hlen
  rw [textDecode_textEncode P hw hb] at h2
  exact ⟨env, h1, h2⟩

/-- Witness of C1: the sample plaintext and password with the demonstration provider. -/
theorem encrypt_decrypt_roundtrip_witness :
    ∃ env, (EncryptionManager.encrypt demoCrypto encryptionManager sampleRandom samplePlaintext
        samplePassword).1 = .ok env ∧
      EncryptionManager.decrypt demoCrypto encryptionManager env samplePassword =
        .ok samplePlaintext :=
  encrypt_decrypt_roundtrip demoCrypto sampleRandom samplePlaintext
    samplePassword demoCrypto_sound (by decide) (by decide) (by decide)

theorem sample_encrypt :
    (EncryptionManager.encrypt demoCrypto encryptionManager sampleRandom samplePlaintext
      samplePassword).1 = .ok sampleEnvelope := by
  set_option maxRecDepth 100000 in rfl

/-- C2 (as stated, fails): `decrypt` of `AAAA`, which decodes to three bytes, fails
with the error `Failed to decrypt data - incorrect password`, the very error
with which `decrypt` of a full envelope fails under a wrong password; there
is no error of its own for a short envelope. -/
theorem decrypt_short_reports_wrong_password :
    atob (js "AAAA") = some [0, 0, 0] ∧
    EncryptionManager.decrypt demoCrypto encryptionManager (js "AAAA") samplePassword =
      .error "Failed to decrypt data - incorrect password" ∧
    (EncryptionManager.encrypt demoCrypto encryptionManager sampleRandom samplePlaintext
      samplePassword).1 = .ok sampleEnvelope ∧
    EncryptionManager.isEncrypted sampleEnvelope = true ∧
    EncryptionManager.decrypt demoCrypto encryptionManager sampleEnvelope (js "secret124") =
      .error "Failed to decrypt data - incorrect password" := by
  refine ⟨by decide, rfl, ?_, ?_, ?_⟩
  · set_option maxRecDepth 100000 in rfl
  · set_option maxRecDepth 100000 in decide
  · set_option maxRecDepth 100000 in rfl

/-- C2 (amended): `decrypt` has no length check of its own; when the provider
rejects a ciphertext shorter than the 16-byte tag, `decrypt` of a string whose
base64 decoding has fewer than 44 bytes, so in particular fewer than 28, fails
under every password, and it fails with the one error `decrypt` throws, the
error of a wrong password. -/
theorem decrypt_short_envelope {Key : Type} (sc : SubtleCrypto Key) (em : EncryptionManager)
    (encryptedData password bin : JSString) (hr : sc.RejectsShort)
    (hd : atob encryptedData = some bin) (hl : bin.length < 44) :
    EncryptionManager.decrypt sc em encryptedData password =
      .error "Failed to decrypt data - incorrect password" := by
  have hdrop : ((uint8ArrayFrom bin).drop 28).length < 16 := by
    simp only [uint8ArrayFrom, List.length_drop, List.length_map]
    omega
  unfold EncryptionManager.decrypt EncryptionManager.decryptBody
  rw [hd]
  dsimp only
  cases EncryptionManager.generateKey sc em password (slice (uint8ArrayFrom bin) 0 16) with
  | none => rfl
  | some key =>
    dsimp only
    rw [hr em.algorithm _ key _ hdrop]
    rfl

/-- Witness of C2: the string `AAAA` decodes to three bytes. -/
theorem decrypt_short_envelope_witness :
    atob (js "AAAA") = some [0, 0, 0] ∧
    EncryptionManager.decrypt demoCrypto encryptionManager (js "AAAA") samplePassword =
      .error "Failed to decrypt data - incorrect password" :=
  ⟨by decide, decrypt_short_envelope demoCrypto encryptionManager (js "AAAA") samplePassword
    [0, 0, 0] demoCrypto_rejectsShort (by decide) (by decide)⟩

/-- C3: any two failures of `decrypt` raise the same error, the one with the
message `Failed to decrypt data - incorrect password`. -/
theorem decrypt_single_error {Key : Type} (sc : SubtleCrypto Key) (em : EncryptionManager)
    (e1 w1 e2 w2 : JSString) (err1 err2 : String)
    (h1 : EncryptionManager.decrypt sc em e1 w1 = .error err1)
    (h2 : EncryptionManager.decrypt sc em e2 w2 = .error err2) :
    err1 = err2 ∧ err1 = "Failed to decrypt data - incorrect password" := by
  unfold EncryptionManager.decrypt at h1 h2
  split at h1
  · cases h1
  · split at h2
    · cases h2
    · injection h1 with h1
      injection h2 with h2
      rw [← h1, ← h2]
      exact ⟨rfl, rfl⟩

theorem decrypt_single_error_witness :
    EncryptionManager.decrypt demoCrypto encryptionManager (js "!") samplePassword =
      .error decryptError ∧
    EncryptionManager.decrypt demoCrypto encryptionManager sampleEnvelope (js "secret124") =
      .error decryptError ∧
    decryptError = decryptError ∧ decryptError = "Failed to decrypt data - incorrect password" :=
  ⟨rfl, rfl,
    decrypt_single_error demoCrypto encryptionManager (js "!") samplePassword sampleEnvelope
      (js "secret124") decryptError decryptError rfl rfl⟩

/-- C4 (as stated, fails): the passwords U+D800 and U+D801 differ, yet with every
sound provider that accepts 53 arguments and every random source `decrypt`
under the second opens what `encrypt` sealed under the first and returns the
plaintext; sound providers exist. Different UTF-8 encodings do not force a
rejection either: with the second demonstration provider, which is sound and
separates keys, the passwords `a` and `a` followed by U+0000 derive the same
key and open each other's envelopes. -/
theorem decrypt_accepts_second_password :
    demoCrypto.Sound ∧ ([0xD800] : JSString) ≠ [0xD801] ∧
    (∀ (Key : Type) (sc : SubtleCrypto Key) (r : Random), sc.Sound → 53 ≤ sc.argumentLimit →
      ∃ env, (EncryptionManager.encrypt sc encryptionManager r samplePlaintext [0xD800]).1 =
          .ok env ∧
        EncryptionManager.decrypt sc encryptionManager env [0xD801] = .ok samplePlaintext) ∧
    tagCrypto.Sound ∧ tagCrypto.KeySeparating ∧
    textEncode [0x61] ≠ textEncode [0x61, 0] ∧
    (∀ r : Random,
      ∃ env, (EncryptionManager.encrypt tagCrypto encryptionManager r samplePlaintext [0x61]).1 =
          .ok env ∧
        EncryptionManager.decrypt tagCrypto encryptionManager env [0x61, 0] =
          .ok samplePlaintext) := by
  have e : textEncode samplePlaintext = [60, 112, 62, 104, 105, 60, 47, 112, 62] := by decide
  refine ⟨demoCrypto_sound, by decide, ?_, tagCrypto_sound, tagCrypto_keySeparating, by decide,
    ?_⟩
  · intro Key sc r hs hl
    exact encrypt_then_decrypt sc r samplePlaintext [0xD800] [0xD801] hs
      (by rw [generateKey_eq, generateKey_eq]; rfl) (by decide)
      (by rw [e]; simp only [List.length_cons, List.length_nil]; omega)
  · intro r
    exact encrypt_then_decrypt tagCrypto r samplePlaintext [0x61] [0x61, 0] tagCrypto_sound
      (by rw [generateKey_eq, generateKey_eq]; rfl) (by decide) (by decide)

/-- C4 (amended): with a sound provider whose AES-GCM rejects under one key what
was sealed under another, for every plaintext that fits the argument limit and
passwords `W1`, `W2` from which `generateKey` derives different keys under the
salt drawn (their UTF-8 encodings then differ), `encrypt(P, W1)` succeeds and
`decrypt` of its envelope under `W2` fails with the one error `decrypt` throws
and returns no plaintext. -/
theorem decrypt_wrong_key_fails {Key : Type} (sc : SubtleCrypto Key)
    (r : Random) (P W1 W2 : JSString) (hs : sc.Sound) (hsep : sc.KeySeparating)
    (hP : ∀ u ∈ P, u < 65536) (hlen : (textEncode P).length + 44 ≤ sc.argumentLimit)
    (hkeys : EncryptionManager.generateKey sc encryptionManager W1 (saltOf r) ≠
      EncryptionManager.generateKey sc encryptionManager W2 (saltOf r)) :
    textEncode W1 ≠ textEncode W2 ∧
    ∃ env, (EncryptionManager.encrypt sc encryptionManager r P W1).1 = .ok env ∧
      EncryptionManager.decrypt sc encryptionManager env W2 =
        .error "Failed to decrypt data - incorrect password" := by
  constructor
  · intro h
    apply hkeys
    rw [generateKey_eq, generateKey_eq, h]
  · have hPb := textEncode_units_bytes P hP
    obtain ⟨key1, ct, hkey1, henc, hct, hl, hdec⟩ := hs (textEncode W1) (saltOf r) (ivOf r)
      (textEncode P) (saltOf_length r) (ivOf_length r) (saltOf_bytes r) (ivOf_bytes r) hPb hlen
    obtain ⟨key2, _, hkey2, -, -, -, -⟩ := hs (textEncode W2) (saltOf r) (ivOf r)
      (textEncode P) (saltOf_length r) (ivOf_length r) (saltOf_bytes r) (ivOf_bytes r) hPb hlen
    rw [← generateKey_eq] at hkey1 hkey2
    have hne : key1 ≠ key2 := by
      intro h
      apply hkeys
      rw [hkey1, hkey2, h]
    obtain ⟨env, h1, -⟩ := encrypt_then_decrypt sc r P W1 W1 hs rfl hPb hlen
    obtain ⟨k, c, hk, hc, -, hbtoa⟩ := encrypt_ok sc encryptionManager r P W1 env h1
    have hkk : k = key1 := by
      rw [hkey1] at hk
      exact (Option.some.inj hk).symm
    subst hkk
    have hcc : c = ct := by
      have henc' : sc.encrypt encryptionManager.algorithm (ivOf r) k (textEncode P) = some ct :=
        henc
      rw [henc'] at hc
      exact (Option.some.inj hc).symm
    subst hcc
    have hbytes := envelope_bytes _ _ _ (saltOf_bytes r) (ivOf_bytes r) hct
    rw [fromCharCode_bytes _ hbytes, btoa_bytes _ hbytes] at hbtoa
    have henv : env = base64Encode (saltOf r ++ ivOf r ++ c) := by simpa using hbtoa.symm
    refine ⟨env, h1, ?_⟩
    unfold EncryptionManager.decrypt
    rw [henv, decryptBody_envelope sc encryptionManager _ _ _ W2 (saltOf_length r)
      (ivOf_length r) hbytes, hkey2]
    dsimp only
    have hrej : sc.decrypt encryptionManager.algorithm (ivOf r) key2 c = none :=
      hsep (ivOf r) (textEncode P) c k key2 hne henc
    rw [hrej]
    rfl

/-- Witness of C4: the sample plaintext sealed under `secret123` and opened under
`secret124`, with the second demonstration provider. -/
theorem decrypt_wrong_key_fails_witness :
    textEncode samplePassword ≠ textEncode (js "secret124") ∧
    ∃ env, (EncryptionManager.encrypt tagCrypto encryptionManager sampleRandom samplePlaintext
        samplePassword).1 = .ok env ∧
      EncryptionManager.decrypt tagCrypto encryptionManager env (js "secret124") =
        .error "Failed to decrypt data - incorrect password" :=
  decrypt_wrong_key_fails tagCrypto sampleRandom samplePlaintext samplePassword (js "secret124")
    tagCrypto_sound tagCrypto_keySeparating (by decide) (by decide) (by decide)

/-- C5: when `encrypt` succeeds (with a provider returning bytes), its result is
the base64 encoding of `salt ++ iv ++ ciphertext`, where the salt is the next 16
bytes of the random source, the IV the 12 bytes after them, and the ciphertext
what the provider returned for the key derived from password and salt; the
random source is advanced by 28 bytes; `atob` of the result gives these bytes
back, at least 28 of them; the slices `decrypt` takes at offsets 0, 16 and 28
are the salt, the IV and the ciphertext; and `decrypt` of the result, under any
password, derives its key from that salt and decrypts that ciphertext under
that IV. -/
theorem encrypt_envelope_layout {Key : Type} (sc : SubtleCrypto Key) (em : EncryptionManager)
    (r : Random) (data password env : JSString) (hb : sc.ReturnsBytes)
    (henc : (EncryptionManager.encrypt sc em r data password).1 = .ok env) :
    (EncryptionManager.encrypt sc em r data password).2.pos = r.pos + 28 ∧
    (EncryptionManager.encrypt sc em r data password).2.tape = r.tape ∧
    (saltOf r).length = 16 ∧ (ivOf r).length = 12 ∧
    ∃ key ct, EncryptionManager.generateKey sc em password (saltOf r) = some key ∧
      sc.encrypt em.algorithm (ivOf r) key (textEncode data) = some ct ∧
      env = base64Encode (saltOf r ++ ivOf r ++ ct) ∧
      atob env = some (saltOf r ++ ivOf r ++ ct) ∧
      28 ≤ (saltOf r ++ ivOf r ++ ct).length ∧
      slice (uint8ArrayFrom (saltOf r ++ ivOf r ++ ct)) 0 16 = saltOf r ∧
      slice (uint8ArrayFrom (saltOf r ++ ivOf r ++ ct)) 16 28 = ivOf r ∧
      (uint8ArrayFrom (saltOf r ++ ivOf r ++ ct)).drop 28 = ct ∧
      ∀ W, EncryptionManager.decrypt sc em env W =
        match EncryptionManager.generateKey sc em W (saltOf r) with
        | none => .error decryptError
        | some key' =>
          match sc.decrypt em.algorithm (ivOf r) key' ct with
          | none => .error decryptError
          | some decryptedData => .ok (textDecode decryptedData) := by
  obtain ⟨key, ct, hk, hct, -, hbtoa⟩ := encrypt_ok sc em r data password env henc
  have hbytes := envelope_bytes _ _ _ (saltOf_bytes r) (ivOf_bytes r) (hb _ _ _ _ _ hct)
  rw [fromCharCode_bytes _ hbytes, btoa_bytes _ hbytes] at hbtoa
  have henv : env = base64Encode (saltOf r ++ ivOf r ++ ct) := by simpa using hbtoa.symm
  refine ⟨?_, ?_, saltOf_length r, ivOf_length r, key, ct, hk, hct, henv, ?_, ?_, ?_, ?_, ?_, ?_⟩
  · rw [encrypt_eq]; split <;> rfl
  · rw [encrypt_eq]; split <;> rfl
  · rw [henv]; exact atob_base64Encode _ hbytes
  · simp only [List.length_append, saltOf_length, ivOf_length]; omega
  · rw [uint8ArrayFrom_bytes _ hbytes]; exact slice_salt _ _ _ (saltOf_length r)
  · rw [uint8ArrayFrom_bytes _ hbytes]; exact slice_iv _ _ _ (saltOf_length r) (ivOf_length r)
  · rw [uint8ArrayFrom_bytes _ hbytes]; exact drop_envelope _ _ _ (saltOf_length r) (ivOf_length r)
  · intro W
    unfold EncryptionManager.decrypt
    rw [henv, decryptBody_envelope sc em _ _ _ W (saltOf_length r) (ivOf_length r) hbytes]
    cases EncryptionManager.generateKey sc em W (saltOf r) with
    | none => rfl
    | some key' =>
      dsimp only
      cases sc.decrypt em.algorithm (ivOf r) key' ct with
      | none => rfl
      | some d => rfl

/-- Witness of C5: the envelope of the sample plaintext under the sample password and
random source: the random source has advanced by 28, `atob` of the envelope
starts with the 16 bytes of the salt and the 12 bytes of the IV, and `decrypt`
under the same password returns the plaintext. -/
theorem encrypt_envelope_layout_witness :
    (EncryptionManager.encrypt demoCrypto encryptionManager sampleRandom samplePlaintext
      samplePassword).1 = .ok sampleEnvelope ∧
    saltOf sampleRandom = [1, 4, 7, 10, 13, 16, 19, 22, 25, 28, 31, 34, 37, 40, 43, 46] ∧
    ivOf sampleRandom = [49, 52, 55, 58, 61, 64, 67, 70, 73, 76, 79, 82] ∧
    (atob sampleEnvelope).map (fun bytes => bytes.take 28) =
      some (saltOf sampleRandom ++ ivOf sampleRandom) ∧
    EncryptionManager.decrypt demoCrypto encryptionManager sampleEnvelope samplePassword =
      .ok samplePlaintext ∧
    (EncryptionManager.encrypt demoCrypto encryptionManager sampleRandom samplePlaintext
      samplePassword).2.pos = sampleRandom.pos + 28 ∧
    (EncryptionManager.encrypt demoCrypto encryptionManager sampleRandom samplePlaintext
      samplePassword).2.tape = sampleRandom.tape ∧
    (saltOf sampleRandom).length = 16 ∧ (ivOf sampleRandom).length = 12 ∧
    ∃ key ct, EncryptionManager.generateKey demoCrypto encryptionManager samplePassword
        (saltOf sampleRandom) = some key ∧
      demoCrypto.encrypt encryptionManager.algorithm (ivOf sampleRandom) key
        (textEncode samplePlaintext) = some ct ∧
      sampleEnvelope = base64Encode (saltOf sampleRandom ++ ivOf sampleRandom ++ ct) ∧
      atob sampleEnvelope = some (saltOf sampleRandom ++ ivOf sampleRandom ++ ct) ∧
      28 ≤ (saltOf sampleRandom ++ ivOf sampleRandom ++ ct).length ∧
      slice (uint8ArrayFrom (saltOf sampleRandom ++ ivOf sampleRandom ++ ct)) 0 16 =
        saltOf sampleRandom ∧
      slice (uint8ArrayFrom (saltOf sampleRandom ++ ivOf sampleRandom ++ ct)) 16 28 =
        ivOf sampleRandom ∧
      (uint8ArrayFrom (saltOf sampleRandom ++ ivOf sampleRandom ++ ct)).drop 28 = ct ∧
      ∀ W, EncryptionManager.decrypt demoCrypto encryptionManager sampleEnvelope W =
        match EncryptionManager.generateKey demoCrypto encryptionManager W
            (saltOf sampleRandom) with
        | none => .error decryptError
        | some key' =>
          match demoCrypto.decrypt encryptionManager.algorithm (ivOf sampleRandom) key' ct with
          | none => .error decryptError
          | some decryptedData => .ok (textDecode decryptedData) :=
  ⟨sample_encrypt, by decide, by decide, by set_option maxRecDepth 100000 in decide,
    by set_option maxRecDepth 100000 in rfl,
    encrypt_envelope_layout demoCrypto encryptionManager sampleRandom
      samplePlaintext samplePassword sampleEnvelope demoCrypto_returnsBytes sample_encrypt⟩

/-- C6: `isEncrypted(data)` is `true` exactly when `atob` accepts `data` and the
decoded string has at least 28 characters, and `false` for every other string. -/
theorem isEncrypted_iff (data : JSString) :
    (EncryptionManager.isEncrypted data = true ↔
      ∃ decoded, atob data = some decoded ∧ 28 ≤ decoded.length) ∧
    (EncryptionManager.isEncrypted data = false ↔
      atob data = none ∨ ∃ decoded, atob data = some decoded ∧ decoded.length < 28) := by
  unfold EncryptionManager.isEncrypted
  cases h : atob data with
  | none => simp
  | some decoded => simp

theorem includes_iff (s q : JSString) :
    includes s q = true ↔ ∃ pre post, s = pre ++ q ++ post := by
  induction s with
  | nil =>
    simp only [includes, List.isPrefixOf_iff_prefix]
    constructor
    · intro h
      have : q = [] := List.prefix_nil.mp h
      exact ⟨[], [], by simp [this]⟩
    · rintro ⟨pre, post, h⟩
      have h' := congrArg List.length h
      simp only [List.length_nil, List.length_append] at h'
      have : q = [] := List.length_eq_zero.mp (by omega)
      rw [this]
  | cons c s ih =>
    simp only [includes, Bool.or_eq_true, List.isPrefixOf_iff_prefix, ih]
    constructor
    · rintro (⟨post, h⟩ | ⟨pre, post, h⟩)
      · exact ⟨[], post, by simpa using h.symm⟩
      · exact ⟨c :: pre, post, by simp [h]⟩
    · rintro ⟨pre, post, h⟩
      cases pre with
      | nil => left; exact ⟨post, by simpa using h.symm⟩
      | cons x pre' =>
        right
        simp only [List.cons_append, List.cons.injEq] at h
        exact ⟨pre', post, h.2⟩

/-- C11: when its request succeeds `searchDocuments(q)` returns the stored documents,
in the order of the store and each as often as it is stored, whose lower-cased
title or lower-cased content contains the lower-cased query as a substring, and
no other document. -/
theorem searchDocuments_exact (toLowerCase : JSString → JSString) (sm : StorageManager)
    (db : Database) (query : JSString) (hdb : sm.db = some db) (hreq : db.next = .success) :
    ∃ docs, (sm.searchDocuments toLowerCase query).1 = .ok docs ∧
      docs.Sublist db.documents ∧
      (∀ d, d ∈ docs ↔ d ∈ db.documents ∧
        ((∃ pre post, toLowerCase d.title = pre ++ toLowerCase query ++ post) ∨
         (∃ pre post, toLowerCase d.content = pre ++ toLowerCase query ++ post))) ∧
      (∀ d, d ∈ docs → docs.count d = db.documents.count d) := by
  refine ⟨db.documents.filter (searchMatches toLowerCase query), ?_, List.filter_sublist _, ?_, ?_⟩
  · simp only [StorageManager.searchDocuments, StorageManager.getDB, hdb, hreq]
  · intro d
    simp only [List.mem_filter, searchMatches, Bool.or_eq_true, includes_iff]
  · intro d hd
    rw [List.count_filter (List.mem_filter.mp hd).2]

/-- Witness of C11: among the three documents of the example the query `HI` finds `d1`,
whose content contains `hi`, and `d3`, whose title contains `HI`, and not `d2`. -/
theorem searchDocuments_exact_witness :
    ((StorageManager.opened libraryDatabase).searchDocuments asciiToLowerCase (js "HI")).1 =
      .ok [sampleDocument, thirdDocument] ∧
    ∃ docs, ((StorageManager.opened libraryDatabase).searchDocuments asciiToLowerCase
        (js "HI")).1 = .ok docs ∧
      docs.Sublist libraryDatabase.documents ∧
      (∀ d, d ∈ docs ↔ d ∈ libraryDatabase.documents ∧
        ((∃ pre post, asciiToLowerCase d.title = pre ++ asciiToLowerCase (js "HI") ++ post) ∨
         (∃ pre post, asciiToLowerCase d.content = pre ++ asciiToLowerCase (js "HI") ++ post))) ∧
      (∀ d, d ∈ docs → docs.count d = libraryDatabase.documents.count d) :=
  ⟨rfl, searchDocuments_exact asciiToLowerCase (StorageManager.opened libraryDatabase)
    libraryDatabase (js "HI") rfl rfl⟩

theorem tagsIndex_only (documents : List Document) (tag : JSString) :
    ((tagsIndex documents).filter (fun e => decide (e.1 = tag))).map Prod.snd =
      documents.filter (fun d => decide (tag ∈ d.tags)) := by
  induction documents with
  | nil => rfl
  | cons d rest ih =>
    have hd : ((d.tags.dedup.map (fun t => (t, d))).filter (fun e => decide (e.1 = tag))).map
        Prod.snd = if tag ∈ d.tags then [d] else [] := by
      rw [List.filter_map, List.map_map]
      have hf : d.tags.dedup.filter ((fun e : JSString × Document => decide (e.1 = tag)) ∘
          fun t => (t, d)) = d.tags.dedup.filter (fun t => decide (t = tag)) := rfl
      rw [hf, List.filter_eq, List.count_dedup]
      split <;> simp
    simp only [tagsIndex, List.flatMap_cons, List.filter_append, List.map_append] at ih ⊢
    rw [hd, ih, List.filter_cons]
    by_cases h : tag ∈ d.tags <;> simp [h]

/-- C12: when its request succeeds `getDocumentsByTag(t)` returns the stored
documents, in the order of the store and each as often as it is stored, whose
`tags` list has an element equal to `t`, and no other document. -/
theorem getDocumentsByTag_exact (sm : StorageManager) (db : Database) (tag : JSString)
    (hdb : sm.db = some db) (hreq : db.next = .success) :
    ∃ docs, (sm.getDocumentsByTag tag).1 = .ok docs ∧
      docs.Sublist db.documents ∧
      (∀ d, d ∈ docs ↔ d ∈ db.documents ∧ tag ∈ d.tags) ∧
      (∀ d, d ∈ docs → docs.count d = db.documents.count d) := by
  refine ⟨db.documents.filter (fun d => decide (tag ∈ d.tags)), ?_, List.filter_sublist _, ?_, ?_⟩
  · simp only [StorageManager.getDocumentsByTag, StorageManager.getDB, hdb, hreq, tagsIndex_only]
  · intro d
    simp only [List.mem_filter, decide_eq_true_eq]
  · intro d hd
    exact List.count_filter (p := fun x : Document => decide (tag ∈ x.tags))
      (List.mem_filter.mp hd).2

theorem getDocumentsByTag_exact_witness :
    ∃ docs, ((StorageManager.opened { emptyDatabase with documents := [sampleDocument] }).getDocumentsByTag
        (js "work")).1 = .ok docs ∧ (∀ d, d ∈ docs ↔ d ∈ [sampleDocument] ∧ js "work" ∈ d.tags) :=
  (getDocumentsByTag_exact (StorageManager.opened { emptyDatabase with documents := [sampleDocument] })
    { emptyDatabase with documents := [sampleDocument] } (js "work") rfl rfl).imp
    (fun _ h => ⟨h.1, h.2.2.1⟩)

/-- C13: when its request succeeds `getAllTags` returns a permutation of the stored
tag records in which `documentCount` never increases from an element to any
later one. -/
theorem getAllTags_sorted (sm : StorageManager) (db : Database)
    (hdb : sm.db = some db) (hreq : db.next = .success) :
    ∃ tags, sm.getAllTags.1 = .ok tags ∧ tags.Perm db.tags ∧
      tags.Pairwise (fun a b => b.documentCount ≤ a.documentCount) := by
  refine ⟨db.tags.insertionSort tagOrder, ?_, List.perm_insertionSort _ _, ?_⟩
  · simp only [StorageManager.getAllTags, StorageManager.getDB, hdb, hreq]
  · exact List.sorted_insertionSort tagOrder db.tags

/-- Witness of C13: the tags stored with the counts 1, 3 and 2 are returned in the order
3, 2, 1. -/
theorem getAllTags_sorted_witness :
    (StorageManager.opened tagsDatabase).getAllTags.1 =
      .ok [{ name := js "idea", documentCount := 3 }, { name := js "work", documentCount := 2 },
           { name := js "home", documentCount := 1 }] ∧
    ∃ tags, (StorageManager.opened tagsDatabase).getAllTags.1 = .ok tags ∧
      tags.Perm tagsDatabase.tags ∧
      tags.Pairwise (fun a b => b.documentCount ≤ a.documentCount) :=
  ⟨rfl, getAllTags_sorted (StorageManager.opened tagsDatabase) tagsDatabase rfl rfl⟩

theorem perm_insertByKey {α : Type} (key : α → JSString) (r : α) (l : List α) :
    (insertByKey key r l).Perm (r :: l) := by
  induction l with
  | nil => exact List.Perm.refl _
  | cons x rest ih =>
    unfold insertByKey
    split
    · exact List.Perm.refl _
    · exact (List.Perm.cons x ih).trans (List.Perm.swap r x rest)

theorem nodup_keys_storePut {α : Type} (key : α → JSString) (r : α) (l : List α)
    (h : (l.map key).Nodup) : ((storePut key r l).map key).Nodup := by
  unfold storePut
  have hp := (perm_insertByKey key r (l.filter (fun x => decide (key x ≠ key r)))).map key
  rw [hp.nodup_iff, List.map_cons, List.nodup_cons]
  constructor
  · intro hmem
    obtain ⟨x, hx, hk⟩ := List.mem_map.mp hmem
    have := (List.mem_filter.mp hx).2
    simp only [ne_eq, decide_not, Bool.not_eq_true', decide_eq_false_iff_not] at this
    exact this hk
  · exact h.sublist ((List.filter_sublist l).map key)

theorem nodup_keys_storeDelete {α : Type} (key : α → JSString) (k : JSString) (l : List α)
    (h : (l.map key).Nodup) : ((storeDelete key k l).map key).Nodup :=
  h.sublist ((List.filter_sublist l).map key)

theorem nodup_keys_foldl {α : Type} (key : α → JSString) (records : List α) :
    ∀ store : List α, (store.map key).Nodup →
      ((records.foldl (fun store r => storePut key r store) store).map key).Nodup := by
  induction records with
  | nil => intro store h; exact h
  | cons r rest ih =>
    intro store h
    exact ih _ (nodup_keys_storePut key r store h)

theorem nodup_keys_importStore {α : Type} (key : α → JSString) (records : Option (List α)) :
    ((importStore key records).map key).Nodup := by
  cases records with
  | none => exact List.nodup_nil
  | some l => exact nodup_keys_foldl key l [] List.nodup_nil

theorem mem_foldl_storePut {α : Type} (key : α → JSString) (records : List α) (x : α) :
    ∀ store : List α,
      x ∈ records.foldl (fun store r => storePut key r store) store ↔
        x ∈ lastEntries key records ∨ (x ∈ store ∧ key x ∉ records.map key) := by
  induction records with
  | nil => intro store; simp [lastEntries]
  | cons r rest ih =>
    intro store
    rw [List.foldl_cons, ih, mem_storePut]
    by_cases hany : rest.any (fun y => decide (key y = key r)) = true
    · have hr : key r ∈ rest.map key := by
        obtain ⟨y, hy, hk⟩ := List.any_eq_true.mp hany
        exact List.mem_map.mpr ⟨y, hy, by simpa using hk⟩
      simp only [lastEntries, hany, if_true, List.map_cons, List.mem_cons, not_or]
      constructor
      · rintro (h | ⟨h | ⟨h1, h2⟩, h3⟩)
        · exact Or.inl h
        · rw [h] at h3; exact absurd hr h3
        · exact Or.inr ⟨h1, h2, h3⟩
      · rintro (h | ⟨h1, h2, h3⟩)
        · exact Or.inl h
        · exact Or.inr ⟨Or.inr ⟨h1, h2⟩, h3⟩
    · have hr : key r ∉ rest.map key := by
        intro hmem
        obtain ⟨y, hy, hk⟩ := List.mem_map.mp hmem
        exact hany (List.any_eq_true.mpr ⟨y, hy, by simpa using hk⟩)
      have hany' : rest.any (fun y => decide (key y = key r)) = false := by
        simpa using hany
      simp only [lastEntries, hany', Bool.false_eq_true, if_false, List.map_cons, List.mem_cons,
        not_or]
      constructor
      · rintro (h | ⟨h | ⟨h1, h2⟩, h3⟩)
        · exact Or.inl (Or.inr h)
        · exact Or.inl (Or.inl h)
        · exact Or.inr ⟨h1, h2, h3⟩
      · rintro ((h | h) | ⟨h1, h2, h3⟩)
        · exact Or.inr ⟨Or.inl h, by rw [h]; exact hr⟩
        · exact Or.inl h
        · exact Or.inr ⟨Or.inr ⟨h1, h2⟩, h3⟩

theorem mem_importStore {α : Type} (key : α → JSString) (records : Option (List α)) (x : α) :
    x ∈ importStore key records ↔ x ∈ lastEntries key (records.getD []) := by
  cases records with
  | none => simp [importStore, lastEntries]
  | some l => simp [importStore, mem_foldl_storePut]

theorem lastEntries_of_nodup {α : Type} (key : α → JSString) (l : List α)
    (h : (l.map key).Nodup) : lastEntries key l = l := by
  induction l with
  | nil => rfl
  | cons x rest ih =>
    rw [List.map_cons, List.nodup_cons] at h
    have hany : ¬ rest.any (fun y => decide (key y = key x)) = true := by
      intro hany
      obtain ⟨y, hy, hk⟩ := List.any_eq_true.mp hany
      exact h.1 (List.mem_map.mpr ⟨y, hy, by simpa using hk⟩)
    have hany' : rest.any (fun y => decide (key y = key x)) = false := by
      simpa using hany
    simp only [lastEntries, hany', Bool.false_eq_true, if_false, ih h.2]

theorem nextSucceed_of_reliable (db : Database) (n : Nat) (h : db.Reliable) :
    db.nextSucceed n = true := by
  simp only [Database.nextSucceed, List.all_eq_true, List.mem_range, beq_iff_eq]
  intro i _
  exact h _ (by omega)

theorem reliable_ticks (db : Database) (n : Nat) (h : db.Reliable) : (db.ticks n).Reliable := by
  intro i hi
  exact h i (by simp only [Database.ticks] at hi; omega)

theorem next_of_reliable (db : Database) (h : db.Reliable) : db.next = .success :=
  h _ (Nat.le_refl _)

theorem importData_ok (sm : StorageManager) (db : Database) (data : Bundle)
    (hdb : sm.db = some db) (hrel : db.Reliable) :
    sm.importData data =
      (.ok (), { db := some { db.ticks (3 + (putCount data.documents + putCount data.tags +
          putCount data.settings)) with
        documents := importStore Document.id data.documents,
        tags := importStore Tag.name data.tags,
        settings := importStore Setting.key data.settings } }) := by
  simp only [StorageManager.importData, StorageManager.getDB, hdb,
    nextSucceed_of_reliable db 3 hrel,
    nextSucceed_of_reliable (db.ticks 3) _ (reliable_ticks db 3 hrel), if_true]

/-- C15: when the requests of the import succeed, `importData(bundle)` resolves and
each of the three stores then holds, whatever it held before, exactly the
entries of its property of the bundle that no later entry with the same key
follows, one record per key; a store whose property is absent from the bundle
is empty. -/
theorem importData_replaces (sm : StorageManager) (db : Database) (data : Bundle)
    (hdb : sm.db = some db) (hrel : db.Reliable) :
    (sm.importData data).1 = .ok () ∧
    ∃ db', (sm.importData data).2.db = some db' ∧
      (∀ d, d ∈ db'.documents ↔ d ∈ lastEntries Document.id (data.documents.getD [])) ∧
      (∀ t, t ∈ db'.tags ↔ t ∈ lastEntries Tag.name (data.tags.getD [])) ∧
      (∀ s, s ∈ db'.settings ↔ s ∈ lastEntries Setting.key (data.settings.getD [])) ∧
      db'.WellKeyed ∧
      (data.documents = none → db'.documents = []) ∧
      (data.tags = none → db'.tags = []) ∧
      (data.settings = none → db'.settings = []) := by
  rw [importData_ok sm db data hdb hrel]
  refine ⟨rfl, _, rfl, ?_, ?_, ?_, ?_, ?_, ?_, ?_⟩
  · intro d; exact mem_importStore _ _ _
  · intro t; exact mem_importStore _ _ _
  · intro s; exact mem_importStore _ _ _
  · exact ⟨nodup_keys_importStore _ _, nodup_keys_importStore _ _, nodup_keys_importStore _ _⟩
  · intro h; simp only [h, importStore]
  · intro h; simp only [h, importStore]
  · intro h; simp only [h, importStore]

theorem sampleDatabase_reliable : sampleDatabase.Reliable := fun _ _ => rfl

theorem sampleDatabase_wellKeyed : sampleDatabase.WellKeyed := by
  unfold Database.WellKeyed
  decide

theorem importData_replaces_witness :
    ((StorageManager.opened sampleDatabase).importData sampleBundle).1 = .ok () ∧
    ∃ db', ((StorageManager.opened sampleDatabase).importData sampleBundle).2.db = some db' ∧
      (∀ d, d ∈ db'.documents ↔ d ∈ [{ sampleDocument with title := js "second" }]) :=
  have h := importData_replaces (StorageManager.opened sampleDatabase) sampleDatabase sampleBundle
    rfl sampleDatabase_reliable
  ⟨h.1, h.2.imp (fun _ h' => ⟨h'.1, h'.2.1⟩)⟩

theorem exportData_ok (sm : StorageManager) (db : Database) (hdb : sm.db = some db)
    (hrel : db.Reliable) :
    sm.exportData =
      (.ok { documents := some db.documents, tags := some (db.tags.insertionSort tagOrder),
             settings := some db.settings }, { db := some (db.ticks 3) }) := by
  have h1 := next_of_reliable db hrel
  have h2 : db.tick.next = .success := hrel _ (by simp only [Database.tick]; omega)
  have h3 : db.tick.tick.next = .success := hrel _ (by simp only [Database.tick]; omega)
  simp only [StorageManager.exportData, StorageManager.getAllDocuments, StorageManager.getAllTags,
    StorageManager.exportSettings, StorageManager.getDB, hdb, h1, h2, h3]
  rfl

/-- C14: on a store whose keys are each held by one record and whose requests
succeed, `exportData` followed by `importData` of the exported bundle resolves
and leaves in each of the three stores exactly the records that were there
before the export. -/
theorem export_import_roundtrip (sm : StorageManager) (db : Database) (hdb : sm.db = some db)
    (hrel : db.Reliable) (hkeys : db.WellKeyed) :
    ∃ bundle db', sm.exportData.1 = .ok bundle ∧
      (sm.exportData.2.importData bundle).1 = .ok () ∧
      (sm.exportData.2.importData bundle).2.db = some db' ∧
      (∀ d, d ∈ db'.documents ↔ d ∈ db.documents) ∧
      (∀ t, t ∈ db'.tags ↔ t ∈ db.tags) ∧
      (∀ s, s ∈ db'.settings ↔ s ∈ db.settings) ∧
      db'.WellKeyed := by
  rw [exportData_ok sm db hdb hrel]
  have himp := importData_replaces { db := some (db.ticks 3) } (db.ticks 3)
    { documents := some db.documents, tags := some (db.tags.insertionSort tagOrder),
      settings := some db.settings } rfl (reliable_ticks db 3 hrel)
  obtain ⟨hok, db', hdb', hd, ht, hs, hk, -⟩ := himp
  have hperm := List.perm_insertionSort tagOrder db.tags
  have htk : ((db.tags.insertionSort tagOrder).map Tag.name).Nodup :=
    ((hperm.map Tag.name).nodup_iff).mpr hkeys.2.1
  refine ⟨_, db', rfl, hok, hdb', ?_, ?_, ?_, hk⟩
  · intro d
    rw [hd d, Option.getD_some, lastEntries_of_nodup _ _ hkeys.1]
  · intro t
    rw [ht t, Option.getD_some, lastEntries_of_nodup _ _ htk]
    exact hperm.mem_iff
  · intro s
    rw [hs s, Option.getD_some, lastEntries_of_nodup _ _ hkeys.2.2]

theorem export_import_roundtrip_witness :
    ∃ bundle db', (StorageManager.opened sampleDatabase).exportData.1 = .ok bundle ∧
      ((StorageManager.opened sampleDatabase).exportData.2.importData bundle).1 = .ok () ∧
      ((StorageManager.opened sampleDatabase).exportData.2.importData bundle).2.db = some db' ∧
      (∀ d, d ∈ db'.documents ↔ d ∈ sampleDatabase.documents) :=
  have h := export_import_roundtrip (StorageManager.opened sampleDatabase) sampleDatabase rfl
    sampleDatabase_reliable sampleDatabase_wellKeyed
  h.imp (fun _ h1 => h1.imp (fun _ h2 => ⟨h2.1, h2.2.1, h2.2.2.1, h2.2.2.2.1⟩))

/-- The operations that write to the stores keep every key held by one record. -/
theorem wellKeyed_preserved (sm : StorageManager) (db : Database) (hdb : sm.db = some db)
    (h : db.WellKeyed) :
    (∀ doc db', (sm.saveDocument doc).2.db = some db' → db'.WellKeyed) ∧
    (∀ id db', (sm.deleteDocument id).2.db = some db' → db'.WellKeyed) ∧
    (∀ name inc db', (sm.updateTagCount name inc).2.db = some db' → db'.WellKeyed) ∧
    (∀ key value db', (sm.saveSetting key value).2.db = some db' → db'.WellKeyed) := by
  refine ⟨?_, ?_, ?_, ?_⟩
  · intro doc db' h'
    simp only [StorageManager.saveDocument, StorageManager.getDB, hdb] at h'
    split at h'
    · have : db' = _ := (Option.some.inj h').symm
      rw [this]
      exact ⟨nodup_keys_storePut _ _ _ h.1, h.2.1, h.2.2⟩
    · have : db' = _ := (Option.some.inj h').symm
      rw [this]
      exact h
  · intro id db' h'
    simp only [StorageManager.deleteDocument, StorageManager.getDB, hdb] at h'
    split at h'
    · have : db' = _ := (Option.some.inj h').symm
      rw [this]
      exact ⟨nodup_keys_storeDelete _ _ _ h.1, h.2.1, h.2.2⟩
    · have : db' = _ := (Option.some.inj h').symm
      rw [this]
      exact h
  · intro name inc db' h'
    simp only [StorageManager.updateTagCount, StorageManager.getDB, hdb] at h'
    split at h'
    · have : db' = _ := (Option.some.inj h').symm
      rw [this]
      exact h
    · split at h'
      · have : db' = _ := (Option.some.inj h').symm
        rw [this]
        exact ⟨h.1, nodup_keys_storePut _ _ _ h.2.1, h.2.2⟩
      · have : db' = _ := (Option.some.inj h').symm
        rw [this]
        exact h
  · intro key value db' h'
    simp only [StorageManager.saveSetting, StorageManager.getDB, hdb] at h'
    split at h'
    · have : db' = _ := (Option.some.inj h').symm
      rw [this]
      exact ⟨h.1, h.2.1, nodup_keys_storePut _ _ _ h.2.2⟩
    · have : db' = _ := (Option.some.inj h').symm
      rw [this]
      exact h

/-- C16 (fails on the code): when the request fails, `getDocument` rejects with the
error of the request, as the writes `saveDocument` and `deleteDocument` do,
while the reads `getSetting`, `getAllDocuments`, `searchDocuments`,
`getDocumentsByTag` and `getAllTags` resolve with `null` or the empty list. -/
theorem getDocument_rejects_on_failure :
    ((StorageManager.opened failingDatabase).getDocument (js "d1")).1 = .error "UnknownError" ∧
    ((StorageManager.opened failingDatabase).getSetting (js "appSettings")).1 = .ok none ∧
    (StorageManager.opened failingDatabase).getAllDocuments.1 = .ok [] ∧
    ((StorageManager.opened failingDatabase).searchDocuments id (js "hi")).1 = .ok [] ∧
    ((StorageManager.opened failingDatabase).getDocumentsByTag (js "work")).1 = .ok [] ∧
    (StorageManager.opened failingDatabase).getAllTags.1 = .ok [] ∧
    ((StorageManager.opened failingDatabase).saveDocument sampleDocument).1 =
      .error "UnknownError" ∧
    ((StorageManager.opened failingDatabase).deleteDocument (js "d1")).1 = .error "UnknownError" :=
  ⟨rfl, rfl, rfl, rfl, rfl, rfl, rfl, rfl⟩

/-- C17 (as stated, fails): with the handle unset, after `new StorageManager()` or
after `close()`, `exportData` resolves with the bundle of three empty lists. -/
theorem exportData_without_database :
    StorageManager.create.exportData.1 = .ok emptyBundle ∧
    (StorageManager.opened sampleDatabase).close.exportData.1 = .ok emptyBundle :=
  ⟨rfl, rfl⟩

/-- C17 (amended): while the handle is unset, `saveDocument`, `getDocument`,
`getAllDocuments`, `deleteDocument`, `searchDocuments`, `getDocumentsByTag`,
`getAllTags`, `updateTagCount`, `saveSetting`, `getSetting` and `importData`
fail with the error `Database not initialized` and leave the manager as it
is; `exportData` resolves with the bundle of three empty lists. -/
theorem operations_without_database (toLowerCase : JSString → JSString) (sm : StorageManager)
    (h : sm.db = none) :
    notInitialized = "Database not initialized" ∧
    (∀ doc, sm.saveDocument doc = (.error notInitialized, sm)) ∧
    (∀ id, sm.getDocument id = (.error notInitialized, sm)) ∧
    sm.getAllDocuments = (.error notInitialized, sm) ∧
    (∀ id, sm.deleteDocument id = (.error notInitialized, sm)) ∧
    (∀ query, sm.searchDocuments toLowerCase query = (.error notInitialized, sm)) ∧
    (∀ tag, sm.getDocumentsByTag tag = (.error notInitialized, sm)) ∧
    sm.getAllTags = (.error notInitialized, sm) ∧
    (∀ name inc, sm.updateTagCount name inc = (.error notInitialized, sm)) ∧
    (∀ key value, sm.saveSetting key value = (.error notInitialized, sm)) ∧
    (∀ key, sm.getSetting key = (.error notInitialized, sm)) ∧
    (∀ data, sm.importData data = (.error notInitialized, sm)) ∧
    sm.exportData = (.ok emptyBundle, sm) := by
  refine ⟨rfl, ?_, ?_, ?_, ?_, ?_, ?_, ?_, ?_, ?_, ?_, ?_, ?_⟩
  · intro doc; simp only [StorageManager.saveDocument, StorageManager.getDB, h]
  · intro id; simp only [StorageManager.getDocument, StorageManager.getDB, h]
  · simp only [StorageManager.getAllDocuments, StorageManager.getDB, h]
  · intro id; simp only [StorageManager.deleteDocument, StorageManager.getDB, h]
  · intro query; simp only [StorageManager.searchDocuments, StorageManager.getDB, h]
  · intro tag; simp only [StorageManager.getDocumentsByTag, StorageManager.getDB, h]
  · simp only [StorageManager.getAllTags, StorageManager.getDB, h]
  · intro name inc; simp only [StorageManager.updateTagCount, StorageManager.getDB, h]
  · intro key value; simp only [StorageManager.saveSetting, StorageManager.getDB, h]
  · intro key; simp only [StorageManager.getSetting, StorageManager.getDB, h]
  · intro data; simp only [StorageManager.importData, StorageManager.getDB, h]
  · simp only [StorageManager.exportData, StorageManager.getAllDocuments, StorageManager.getDB, h]

theorem operations_without_database_witness :
    (StorageManager.opened sampleDatabase).close.db = none ∧
    (StorageManager.opened sampleDatabase).close.getAllTags =
      (.error notInitialized, (StorageManager.opened sampleDatabase).close) :=
  ⟨rfl, (operations_without_database id (StorageManager.opened sampleDatabase).close rfl).2.2.2.2.2.2.2.1⟩

theorem find_setItemIn (key : JSString) (value : StoredValue)
    (items : List (JSString × StoredValue)) :
    (setItemIn key value items).find? (fun item => decide (item.1 = key)) = some (key, value) := by
  induction items with
  | nil => simp [setItemIn]
  | cons item rest ih =>
    unfold setItemIn
    split
    · simp
    · rename_i hne
      rw [List.find?_cons_of_neg _ (by simpa using hne)]
      exact ih

theorem getShareMetadata_setItem (ls ls' : LocalStorage) (shareKey : JSString) (m : ShareMetadata)
    (h : ls.setItem (sharePrefix ++ shareKey) (.metadata m) = some ls') :
    SharingManager.getShareMetadata ls' shareKey = some (.record m) := by
  unfold LocalStorage.setItem at h
  split at h
  · cases h
  · have : ls' = _ := (Option.some.inj h).symm
    rw [this]
    simp only [SharingManager.getShareMetadata, LocalStorage.getItem, find_setItemIn,
      Option.map_some', StoredValue.parse]

theorem generateShareKey_ok (ls : LocalStorage) (r : Random) (created issued : Int)
    (documentId : JSString) (password : Option JSString) (hq : ls.quotaExceeded = false) :
    ∃ ls', SharingManager.generateShareKey ls r created issued documentId password =
        (.ok (SharingManager.generateUniqueKey r 16).1, ls',
          (SharingManager.generateUniqueKey r 16).2) ∧
      SharingManager.getShareMetadata ls' (SharingManager.generateUniqueKey r 16).1 =
        some (.record (issuedShare r created issued documentId password)) := by
  have e : ({ documentId := documentId,
              shareKey := some (SharingManager.generateUniqueKey r 16).1,
              createdAt := created, expiresAt := issued + thirtyDays,
              requiresPassword := some (truthy password) } : ShareMetadata) =
      issuedShare r created issued documentId password := rfl
  cases hset : ls.setItem (sharePrefix ++ (SharingManager.generateUniqueKey r 16).1)
      (.metadata (issuedShare r created issued documentId password)) with
  | none => simp [LocalStorage.setItem, hq] at hset
  | some ls' =>
    refine ⟨ls', ?_, getShareMetadata_setItem ls ls' _ _ hset⟩
    simp only [SharingManager.generateShareKey]
    rw [e, hset]

/-- C18 (fails on the code): for the sample share, whose `expiresAt` is the clock
reading `now` itself, `validateShareKey` returns `valid: true` with the metadata
although `now < expiresAt` does not hold, and the status shown for the same
share at the same reading is `Expired`. -/
theorem validateShareKey_valid_at_expiry :
    (SharingManager.validateShareKey sampleStorage thirtyDays (js "k")).1 =
      .valid (.record sampleShare) ∧
    ¬ (thirtyDays < sampleShare.expiresAt) ∧
    shareStatus sampleShare thirtyDays = "Expired" := by
  refine ⟨?_, ?_, ?_⟩
  · decide
  · decide
  · decide

theorem getShareMetadata_removeShareKey (ls : LocalStorage) (shareKey : JSString) :
    SharingManager.getShareMetadata (SharingManager.removeShareKey ls shareKey) shareKey = none := by
  have h : (ls.items.filter (fun item => decide (item.1 ≠ sharePrefix ++ shareKey))).find?
      (fun item => decide (item.1 = sharePrefix ++ shareKey)) = none := by
    apply List.find?_eq_none.mpr
    intro item hitem
    have := (List.mem_filter.mp hitem).2
    simpa using this
  simp only [SharingManager.getShareMetadata, SharingManager.removeShareKey,
    LocalStorage.removeItem, LocalStorage.getItem, h, Option.map_none']

theorem getItem_removeShareKey_other (ls : LocalStorage) (shareKey key : JSString)
    (h : key ≠ sharePrefix ++ shareKey) :
    (SharingManager.removeShareKey ls shareKey).getItem key = ls.getItem key := by
  simp only [SharingManager.removeShareKey, LocalStorage.removeItem, LocalStorage.getItem]
  rw [find_filter_other Prod.fst key (sharePrefix ++ shareKey) ls.items (fun e => h e.symm)]

theorem validateShareKey_of_expired (ls : LocalStorage) (now : Int) (shareKey : JSString)
    (m : ShareMetadata) (hget : SharingManager.getShareMetadata ls shareKey = some (.record m))
    (hexp : m.expiresAt < now) :
    SharingManager.validateShareKey ls now shareKey =
      (.invalid reasonExpired, SharingManager.removeShareKey ls shareKey) := by
  simp only [SharingManager.validateShareKey, hget, hexp, if_true]

/-- C19: for a stored share whose `expiresAt` is earlier than the clock reading,
`validateShareKey` returns `valid: false` with the reason `Share key has expired`
and removes the item of that key and no other item, so that a later
`validateShareKey` of the key, at any clock reading, returns the reason
`Share key not found`; and a key that `generateShareKey` issued is reported
expired at every clock reading 31 days or more after the reading of issue. -/
theorem validateShareKey_expired (ls : LocalStorage) (now : Int) (shareKey : JSString)
    (m : ShareMetadata) (hget : SharingManager.getShareMetadata ls shareKey = some (.record m))
    (hexp : m.expiresAt < now) :
    (SharingManager.validateShareKey ls now shareKey).1 = .invalid reasonExpired ∧
    (SharingManager.validateShareKey ls now shareKey).2.items =
      ls.items.filter (fun item => decide (item.1 ≠ sharePrefix ++ shareKey)) ∧
    (∀ key, key ≠ sharePrefix ++ shareKey →
      (SharingManager.validateShareKey ls now shareKey).2.getItem key = ls.getItem key) ∧
    (∀ later, (SharingManager.validateShareKey
      (SharingManager.validateShareKey ls now shareKey).2 later shareKey).1 =
        .invalid reasonNotFound) ∧
    (∀ (ls0 : LocalStorage) (r : Random) (created issued : Int) (documentId : JSString)
      (password : Option JSString) (t : Int),
      ls0.quotaExceeded = false → issued + thirtyOneDays ≤ t →
      ∃ key ls1 r1, SharingManager.generateShareKey ls0 r created issued documentId password =
          (.ok key, ls1, r1) ∧
        (SharingManager.validateShareKey ls1 t key).1 = .invalid reasonExpired) := by
  rw [validateShareKey_of_expired ls now shareKey m hget hexp]
  refine ⟨rfl, rfl, ?_, ?_, ?_⟩
  · intro key hkey
    exact getItem_removeShareKey_other ls shareKey key hkey
  · intro later
    simp only [SharingManager.validateShareKey, getShareMetadata_removeShareKey]
  · intro ls0 r created issued documentId password t hq ht
    obtain ⟨ls1, hgen, hmeta⟩ := generateShareKey_ok ls0 r created issued documentId password hq
    refine ⟨_, ls1, _, hgen, ?_⟩
    rw [validateShareKey_of_expired ls1 t _ _ hmeta]
    simp only [issuedShare, thirtyDays]
    simp only [thirtyOneDays] at ht
    omega

theorem validateShareKey_expired_witness :
    SharingManager.getShareMetadata sampleStorage (js "k") = some (.record sampleShare) ∧
    (SharingManager.validateShareKey sampleStorage thirtyOneDays (js "k")).1 =
      .invalid reasonExpired :=
  ⟨by decide, (validateShareKey_expired sampleStorage thirtyOneDays (js "k") sampleShare
    (by decide) (by decide)).1⟩

/-- C20 (as stated, fails): when the clock reads 999 at `new Date()` and 1000 at the
`Date.now()` that follows, the metadata stored under the returned key has
`createdAt` 999 and an `expiresAt` that is not `createdAt` plus 2,592,000,000. -/
theorem generateShareKey_expiry_off :
    ∃ key ls r m, SharingManager.generateShareKey emptyStorage sampleRandom 999 1000 (js "d1")
        none = (.ok key, ls, r) ∧
      SharingManager.getShareMetadata ls key = some (.record m) ∧
      m.createdAt = 999 ∧ m.expiresAt ≠ m.createdAt + 2592000000 := by
  obtain ⟨ls, hgen, hmeta⟩ := generateShareKey_ok emptyStorage sampleRandom 999 1000 (js "d1")
    none rfl
  exact ⟨_, ls, _, _, hgen, hmeta, rfl, by decide⟩

/-- C20 (amended): when `setItem` does not exceed the quota, `generateShareKey`
returns a key and the metadata stored under it carries the `documentId` given
and the key, `requiresPassword` telling whether a non-empty password was
given, `createdAt` equal to the reading of the clock at `new Date()`, and
`expiresAt` equal to the reading at the `Date.now()` that follows plus
2,592,000,000 ms, which is `createdAt` plus 30 days when the two readings are
the same. -/
theorem generateShareKey_record (ls : LocalStorage) (r : Random) (created issued : Int)
    (documentId : JSString) (password : Option JSString) (hq : ls.quotaExceeded = false) :
    ∃ key ls' r' m, SharingManager.generateShareKey ls r created issued documentId password =
        (.ok key, ls', r') ∧
      SharingManager.getShareMetadata ls' key = some (.record m) ∧
      m.documentId = documentId ∧ m.shareKey = some key ∧
      (m.requiresPassword = some true ↔ ∃ s, password = some s ∧ s ≠ []) ∧
      m.createdAt = created ∧
      m.expiresAt = issued + 2592000000 ∧
      (created = issued → m.expiresAt = m.createdAt + 2592000000) := by
  obtain ⟨ls', hgen, hmeta⟩ := generateShareKey_ok ls r created issued documentId password hq
  refine ⟨_, ls', _, _, hgen, hmeta, rfl, rfl, ?_, rfl, ?_, ?_⟩
  · simp only [issuedShare]
    cases password with
    | none => simp [truthy]
    | some s => cases s <;> simp [truthy]
  · simp only [issuedShare, thirtyDays]; norm_num
  · intro h
    simp only [issuedShare, thirtyDays, h]; norm_num

theorem generateShareKey_record_witness :
    ∃ key ls' r' m, SharingManager.generateShareKey emptyStorage sampleRandom 1000 1000 (js "d1")
        (some samplePassword) = (.ok key, ls', r') ∧
      SharingManager.getShareMetadata ls' key = some (.record m) ∧
      m.documentId = js "d1" :=
  (generateShareKey_record emptyStorage sampleRandom 1000 1000 (js "d1") (some samplePassword)
    rfl).imp (fun _ h1 => h1.imp (fun _ h2 => h2.imp (fun _ h3 => h3.imp
      (fun _ h4 => ⟨h4.1, h4.2.1, h4.2.2.1⟩))))

theorem removeShareKey_idem (ls : LocalStorage) (shareKey : JSString) :
    SharingManager.removeShareKey (SharingManager.removeShareKey ls shareKey) shareKey =
      SharingManager.removeShareKey ls shareKey := by
  simp only [SharingManager.removeShareKey, LocalStorage.removeItem, List.filter_filter,
    Bool.and_self]

/-- C21: `revokeShareKey(token)` returns `true` and removes the item of the token,
whatever it holds and whether or not there is one; every other item stays as
it was; a second call changes nothing more; and `validateShareKey(token)`
afterwards reports `Share key not found` at every clock reading. -/
theorem revokeShareKey_idempotent (ls : LocalStorage) (shareKey : JSString) :
    (SharingManager.revokeShareKey ls shareKey).1 = true ∧
    (SharingManager.revokeShareKey ls shareKey).2.items =
      ls.items.filter (fun item => decide (item.1 ≠ sharePrefix ++ shareKey)) ∧
    (SharingManager.revokeShareKey ls shareKey).2.getItem (sharePrefix ++ shareKey) = none ∧
    (∀ key, key ≠ sharePrefix ++ shareKey →
      (SharingManager.revokeShareKey ls shareKey).2.getItem key = ls.getItem key) ∧
    SharingManager.revokeShareKey (SharingManager.revokeShareKey ls shareKey).2 shareKey =
      SharingManager.revokeShareKey ls shareKey ∧
    (∀ now, SharingManager.validateShareKey (SharingManager.revokeShareKey ls shareKey).2 now
        shareKey =
      (.invalid reasonNotFound, (SharingManager.revokeShareKey ls shareKey).2)) := by
  refine ⟨rfl, rfl, ?_, ?_, ?_, ?_⟩
  · simp only [SharingManager.revokeShareKey, SharingManager.removeShareKey,
      LocalStorage.removeItem, LocalStorage.getItem]
    rw [List.find?_eq_none.mpr, Option.map_none']
    intro item hitem
    have := (List.mem_filter.mp hitem).2
    simpa using this
  · intro key hkey
    exact getItem_removeShareKey_other ls shareKey key hkey
  · simp only [SharingManager.revokeShareKey, removeShareKey_idem]
  · intro now
    simp only [SharingManager.revokeShareKey, SharingManager.validateShareKey,
      getShareMetadata_removeShareKey]

theorem generateUniqueKey_spec (n : Nat) :
    ∀ r : Random, (SharingManager.generateUniqueKey r n).1.length = n ∧
      (∀ c ∈ (SharingManager.generateUniqueKey r n).1, c ∈ uniqueKeyChars) ∧
      (SharingManager.generateUniqueKey r n).2.pos = r.pos + n := by
  induction n with
  | zero => intro r; simp [SharingManager.generateUniqueKey]
  | succ n ih =>
    intro r
    obtain ⟨hl, hm, hp⟩ := ih (randomIndex r uniqueKeyChars.length).2
    simp only [SharingManager.generateUniqueKey, List.length_cons, hl, List.mem_cons, hp,
      true_and]
    refine ⟨?_, ?_⟩
    · intro c hc
      rcases hc with hc | hc
      · rw [hc]
        have hlt : (randomIndex r uniqueKeyChars.length).1 < uniqueKeyChars.length :=
          Nat.mod_lt _ (by decide)
        rw [List.getD_eq_getElem _ _ hlt]
        exact List.getElem_mem _
      · exact hm c hc
    · simp only [randomIndex]; omega

/-- C23 (as stated, fails): the alphabet has 62 different characters, and each of
them is drawn: with the random source whose readings are 0, 1, 2, ... the key
of length 62 is the whole alphabet, and the default key of 16 characters starts
with the upper-case letters `ABCDEFGHIJKLMNOP`. -/
theorem generateUniqueKey_alphabet :
    uniqueKeyChars.length = 62 ∧ uniqueKeyChars.Nodup ∧
    (SharingManager.generateUniqueKey countingRandom 62).1 = uniqueKeyChars ∧
    (SharingManager.generateUniqueKey countingRandom 16).1 = js "ABCDEFGHIJKLMNOP" := by
  refine ⟨by decide, by decide, by decide, by decide⟩

/-- C23 (amended): for every state of the random source, the key returned by
`generateUniqueKey(length)` has exactly `length` characters, 16 with the default
argument, and each of them is one of the 62 characters `A`-`Z`, `a`-`z`,
`0`-`9`. -/
theorem generateUniqueKey_length_alphabet (r : Random) (length : Nat) :
    (SharingManager.generateUniqueKey r length).1.length = length ∧
    (SharingManager.generateUniqueKey r 16).1.length = 16 ∧
    (∀ c ∈ (SharingManager.generateUniqueKey r length).1, c ∈ uniqueKeyChars) ∧
    (∀ c, c ∈ uniqueKeyChars ↔
      (65 ≤ c ∧ c ≤ 90) ∨ (97 ≤ c ∧ c ≤ 122) ∨ (48 ≤ c ∧ c ≤ 57)) ∧
    uniqueKeyChars.length = 62 := by
  refine ⟨(generateUniqueKey_spec length r).1, (generateUniqueKey_spec 16 r).1,
    (generateUniqueKey_spec length r).2.1, ?_, by decide⟩
  intro c
  constructor
  · intro hc
    have : ∀ x ∈ uniqueKeyChars, (65 ≤ x ∧ x ≤ 90) ∨ (97 ≤ x ∧ x ≤ 122) ∨ (48 ≤ x ∧ x ≤ 57) := by
      decide
    exact this c hc
  · intro hc
    have : ∀ x, x < 123 → ((65 ≤ x ∧ x ≤ 90) ∨ (97 ≤ x ∧ x ≤ 122) ∨ (48 ≤ x ∧ x ≤ 57)) →
        x ∈ uniqueKeyChars := by
      decide
    exact this c (by omega) hc

/-- C30: for a tag name without a record, when the two requests succeed,
`updateTagCount(name, false)` resolves with `{ name, documentCount: 0 }` and puts
that record into the tag store, which is then not what it was; and a
`getAllTags` whose request succeeds lists the record. -/
theorem updateTagCount_decrement_creates (db : Database) (name : JSString)
    (hnone : storeGet Tag.name name db.tags = none)
    (h1 : db.next = .success) (h2 : db.tick.next = .success) :
    ((StorageManager.opened db).updateTagCount name false).1 =
      .ok { name := name, documentCount := 0 } ∧
    ∃ db', ((StorageManager.opened db).updateTagCount name false).2.db = some db' ∧
      db'.tags = storePut Tag.name { name := name, documentCount := 0 } db.tags ∧
      { name := name, documentCount := 0 } ∈ db'.tags ∧
      { name := name, documentCount := 0 } ∉ db.tags ∧
      db'.tags ≠ db.tags ∧
      (db'.next = .success →
        ∃ tags, ((StorageManager.opened db).updateTagCount name false).2.getAllTags.1 = .ok tags ∧
          { name := name, documentCount := 0 } ∈ tags) := by
  have hnot : ({ name := name, documentCount := 0 } : Tag) ∉ db.tags := by
    intro hmem
    have := List.find?_eq_none.mp hnone _ hmem
    simp at this
  have hin : ({ name := name, documentCount := 0 } : Tag) ∈
      storePut Tag.name { name := name, documentCount := 0 } db.tags :=
    (mem_storePut Tag.name _ _ db.tags).mpr (Or.inl rfl)
  have hres : (StorageManager.opened db).updateTagCount name false =
      (.ok { name := name, documentCount := 0 },
        { db := some { db.tick.tick with
            tags := storePut Tag.name { name := name, documentCount := 0 } db.tags } }) := by
    simp only [StorageManager.updateTagCount, StorageManager.getDB, StorageManager.opened, h1, h2,
      hnone, bumpTag, Bool.false_eq_true, if_false]
  rw [hres]
  refine ⟨rfl, _, rfl, rfl, hin, hnot, ?_, ?_⟩
  · intro heq
    apply hnot
    have h := hin
    simp only at heq
    rw [heq] at h
    exact h
  · intro h3
    refine ⟨(storePut Tag.name { name := name, documentCount := 0 } db.tags).insertionSort
      tagOrder, ?_, (List.perm_insertionSort tagOrder _).mem_iff.mpr hin⟩
    simp only [StorageManager.getAllTags, StorageManager.getDB, h3]

theorem updateTagCount_decrement_creates_witness :
    ((StorageManager.opened emptyDatabase).updateTagCount (js "work") false).1 =
      .ok { name := js "work", documentCount := 0 } :=
  (updateTagCount_decrement_creates emptyDatabase (js "work") rfl rfl rfl).1

theorem find_of_nodup_keys (items : List (JSString × StoredValue))
    (h : (items.map Prod.fst).Nodup) (item : JSString × StoredValue) (hitem : item ∈ items) :
    items.find? (fun x => decide (x.1 = item.1)) = some item := by
  induction items with
  | nil => cases hitem
  | cons x rest ih =>
    rw [List.map_cons, List.nodup_cons] at h
    rcases List.mem_cons.mp hitem with hx | hx
    · rw [hx]; simp
    · have hne : x.1 ≠ item.1 := by
        intro heq
        exact h.1 (heq ▸ List.mem_map_of_mem Prod.fst hx)
      rw [List.find?_cons_of_neg _ (by simpa using hne)]
      exact ih h.2 hx

theorem listedShare_eq (ls : LocalStorage) (h : ls.WellKeyed) (item : JSString × StoredValue)
    (hitem : item ∈ ls.items) : listedShare ls item.1 = storedEntry item := by
  have hget : ls.getItem item.1 = some item.2 := by
    simp only [LocalStorage.getItem, find_of_nodup_keys ls.items h item hitem, Option.map_some']
  unfold listedShare storedEntry
  rw [hget]

theorem listUserShares_filterMap (ls : LocalStorage) (h : ls.WellKeyed) :
    (ls.items.map Prod.fst).filterMap (listedShare ls) = ls.items.filterMap storedEntry := by
  rw [List.filterMap_map]
  apply List.filterMap_congr
  intro item hitem
  exact listedShare_eq ls h item hitem

theorem orderedInsert_congr {α : Type} (r r' : α → α → Prop) [DecidableRel r] [DecidableRel r']
    (a : α) (l : List α) (h : ∀ b ∈ l, (r a b ↔ r' a b)) :
    l.orderedInsert r a = l.orderedInsert r' a := by
  induction l with
  | nil => rfl
  | cons b rest ih =>
    have hb := h b (List.mem_cons_self _ _)
    have hrest := ih (fun c hc => h c (List.mem_cons_of_mem _ hc))
    simp only [List.orderedInsert]
    by_cases hr : r a b
    · rw [if_pos hr, if_pos (hb.mp hr)]
    · rw [if_neg hr, if_neg (fun h' => hr (hb.mpr h')), hrest]

theorem insertionSort_congr {α : Type} (r r' : α → α → Prop) [DecidableRel r] [DecidableRel r']
    (l : List α) (h : ∀ a ∈ l, ∀ b ∈ l, (r a b ↔ r' a b)) :
    l.insertionSort r = l.insertionSort r' := by
  induction l with
  | nil => rfl
  | cons a rest ih =>
    simp only [List.insertionSort]
    rw [ih (fun x hx y hy => h x (List.mem_cons_of_mem _ hx) y (List.mem_cons_of_mem _ hy))]
    apply orderedInsert_congr
    intro b hb
    have hmem : b ∈ rest := (List.perm_insertionSort r' rest).mem_iff.mp hb
    exact h a (List.mem_cons_self _ _) b (List.mem_cons_of_mem _ hmem)

theorem shareOrder_iff_dateOrder (a b : ShareEntry) (ha : a.createdAt ≠ none)
    (hb : b.createdAt ≠ none) : shareOrder a b ↔ dateOrder a b := by
  unfold shareOrder dateOrder
  cases hx : a.createdAt with
  | none => exact absurd hx ha
  | some x =>
    cases hy : b.createdAt with
    | none => exact absurd hy hb
    | some y => simp

/-- C22 (as stated, fails): from a storage in which `anon_share_x` holds the text
`null` and `anon_share_y` the text of the empty object, neither a share
record, `listUserShares` returns two entries, each with nothing but the
`shareKey` taken from the key, while `getShareMetadata` finds no metadata under
`x` and `validateShareKey` reports `x` as not found. -/
theorem listUserShares_lists_stray_values :
    strayStorage.WellKeyed ∧
    SharingManager.listUserShares strayStorage =
      [{ shareKey := js "x", documentId := none, createdAt := none, expiresAt := none,
         requiresPassword := none },
       { shareKey := js "y", documentId := none, createdAt := none, expiresAt := none,
         requiresPassword := none }] ∧
    SharingManager.getShareMetadata strayStorage (js "x") = some .falsy ∧
    (∀ now, (SharingManager.validateShareKey strayStorage now (js "x")).1 =
      .invalid reasonNotFound) := by
  refine ⟨by unfold LocalStorage.WellKeyed; decide, by decide, by decide, fun now => rfl⟩

/-- C22 (amended): on a storage in which every key has one item, `listUserShares`
returns one entry for every item whose key starts with the prefix and whose
text parses, and nothing else: the parsed value with the rest of the key as
`shareKey` when it has none of its own, so a share record with the properties
it was stored with, and for any other JSON value an entry all the same; when
every entry has a valid `createdAt`, as the entries of share records have,
`createdAt` never increases from an entry to a later one. -/
theorem listUserShares_exact (ls : LocalStorage) (h : ls.WellKeyed) :
    (SharingManager.listUserShares ls).Perm (ls.items.filterMap storedEntry) ∧
    (∀ entry, entry ∈ SharingManager.listUserShares ls ↔
      ∃ key value parsed, (key, value) ∈ ls.items ∧ sharePrefix.isPrefixOf key = true ∧
        value.parse = some parsed ∧ entry = shareEntry (key.drop sharePrefix.length) parsed) ∧
    (∀ key m, (key, StoredValue.metadata m) ∈ ls.items → sharePrefix.isPrefixOf key = true →
      ({ shareKey := m.shareKey.getD (key.drop sharePrefix.length),
         documentId := some m.documentId, createdAt := some m.createdAt,
         expiresAt := some m.expiresAt, requiresPassword := m.requiresPassword } : ShareEntry) ∈
        SharingManager.listUserShares ls) ∧
    ((∀ entry ∈ SharingManager.listUserShares ls, entry.createdAt ≠ none) →
      (SharingManager.listUserShares ls).Pairwise
        (fun a b => ∀ x y, a.createdAt = some x → b.createdAt = some y → y ≤ x)) := by
  have hperm : (SharingManager.listUserShares ls).Perm (ls.items.filterMap storedEntry) := by
    unfold SharingManager.listUserShares
    rw [listUserShares_filterMap ls h]
    exact List.perm_insertionSort _ _
  have hmem : ∀ entry, entry ∈ SharingManager.listUserShares ls ↔
      ∃ key value parsed, (key, value) ∈ ls.items ∧ sharePrefix.isPrefixOf key = true ∧
        value.parse = some parsed ∧
        entry = shareEntry (key.drop sharePrefix.length) parsed := by
    intro entry
    rw [hperm.mem_iff, List.mem_filterMap]
    constructor
    · rintro ⟨item, hitem, hentry⟩
      obtain ⟨key, value⟩ := item
      unfold storedEntry at hentry
      split at hentry
      · rename_i hp
        cases hparse : value.parse with
        | none => simp [hparse] at hentry
        | some parsed =>
          simp only [hparse, Option.map_some', Option.some.injEq] at hentry
          exact ⟨key, value, parsed, hitem, hp, hparse, hentry.symm⟩
      · cases hentry
    · rintro ⟨key, value, parsed, hitem, hp, hparse, hentry⟩
      refine ⟨(key, value), hitem, ?_⟩
      simp only [storedEntry, hp, if_true, hparse, Option.map_some', hentry]
  refine ⟨hperm, hmem, ?_, ?_⟩
  · intro key m hitem hp
    exact (hmem _).mpr ⟨key, .metadata m, .record m, hitem, hp, rfl, rfl⟩
  · intro hvalid
    have hvalid' : ∀ entry ∈ ls.items.filterMap storedEntry, entry.createdAt ≠ none :=
      fun entry he => hvalid entry (hperm.mem_iff.mpr he)
    have hsort : SharingManager.listUserShares ls =
        (ls.items.filterMap storedEntry).insertionSort dateOrder := by
      unfold SharingManager.listUserShares
      rw [listUserShares_filterMap ls h]
      exact insertionSort_congr shareOrder dateOrder _
        (fun a ha b hb => shareOrder_iff_dateOrder a b (hvalid' a ha) (hvalid' b hb))
    rw [hsort]
    have hsorted := List.sorted_insertionSort dateOrder (ls.items.filterMap storedEntry)
    refine List.Pairwise.imp ?_ hsorted
    intro a b hab x y hx hy
    unfold dateOrder at hab
    rw [hx, hy] at hab
    exact hab

/-- Witness of C22: from the storage of the examples, with two share records, an item
that does not parse and an item of another prefix, `listUserShares` returns the
two records, the one created later first. -/
theorem listUserShares_exact_witness :
    twoShares.WellKeyed ∧
    SharingManager.listUserShares twoShares =
      [{ shareKey := js "new", documentId := some (js "d1"), createdAt := some 5,
         expiresAt := some thirtyDays, requiresPassword := some false },
       { shareKey := js "old", documentId := some (js "d1"), createdAt := some 0,
         expiresAt := some thirtyDays, requiresPassword := some false }] ∧
    (SharingManager.listUserShares twoShares).Perm (twoShares.items.filterMap storedEntry) ∧
    (∀ entry, entry ∈ SharingManager.listUserShares twoShares ↔
      ∃ key value parsed, (key, value) ∈ twoShares.items ∧ sharePrefix.isPrefixOf key = true ∧
        value.parse = some parsed ∧ entry = shareEntry (key.drop sharePrefix.length) parsed) ∧
    (∀ key m, (key, StoredValue.metadata m) ∈ twoShares.items →
      sharePrefix.isPrefixOf key = true →
      ({ shareKey := m.shareKey.getD (key.drop sharePrefix.length),
         documentId := some m.documentId, createdAt := some m.createdAt,
         expiresAt := some m.expiresAt, requiresPassword := m.requiresPassword } : ShareEntry) ∈
        SharingManager.listUserShares twoShares) ∧
    ((∀ entry ∈ SharingManager.listUserShares twoShares, entry.createdAt ≠ none) →
      (SharingManager.listUserShares twoShares).Pairwise
        (fun a b => ∀ x y, a.createdAt = some x → b.createdAt = some y → y ≤ x)) :=
  ⟨by unfold LocalStorage.WellKeyed; decide, by decide,
    listUserShares_exact twoShares (by unfold LocalStorage.WellKeyed; decide)⟩

theorem splitOn_ne_nil (sep : Nat) (s : JSString) : splitOn sep s ≠ [] := by
  cases s with
  | nil => simp [splitOn]
  | cons c rest =>
    unfold splitOn
    split
    · simp
    · split <;> simp

theorem joinComma_cons_cons (c : Nat) (piece : JSString) (pieces : List JSString) :
    joinComma ((c :: piece) :: pieces) = c :: joinComma (piece :: pieces) := by
  cases pieces with
  | nil => rfl
  | cons q rest => rfl

theorem joinComma_splitOn (s : JSString) :
    joinComma (splitOn 44 s) = s ∧ ∀ piece ∈ splitOn 44 s, 44 ∉ piece := by
  induction s with
  | nil => simp [splitOn, joinComma]
  | cons c rest ih =>
    obtain ⟨ihj, ihm⟩ := ih
    unfold splitOn
    by_cases hc : c = 44
    · rw [if_pos hc]
      constructor
      · cases hs : splitOn 44 rest with
        | nil => exact absurd hs (splitOn_ne_nil 44 rest)
        | cons p ps =>
          rw [hs] at ihj
          simp only [joinComma, List.nil_append, ihj, hc]
      · intro piece hp
        rcases List.mem_cons.mp hp with hp | hp
        · rw [hp]; simp
        · exact ihm piece hp
    · rw [if_neg hc]
      cases hs : splitOn 44 rest with
      | nil => exact absurd hs (splitOn_ne_nil 44 rest)
      | cons p ps =>
        rw [hs] at ihj ihm
        simp only
        constructor
        · rw [joinComma_cons_cons, ihj]
        · intro piece hp
          rcases List.mem_cons.mp hp with hp | hp
          · rw [hp]
            intro hmem
            rcases List.mem_cons.mp hmem with h44 | h44
            · exact hc h44.symm
            · exact ihm p (List.mem_cons_self _ _) h44
          · exact ihm piece (List.mem_cons_of_mem _ hp)

/-- C25 (as stated, fails): for the input `a, a` the list that `parseTags` returns,
and `saveDocument` stores, holds the tag `a` twice. -/
theorem parseTags_keeps_duplicates :
    parseTags (js "a, a") = [js "a", js "a"] ∧ ¬ (parseTags (js "a, a")).Nodup := by
  refine ⟨by decide, by decide⟩

/-- C25 (amended): `parseTags` keeps the input order and every occurrence: the
input is the pieces of `split(',')` joined by commas, none of which contains
a comma, and the result is the list of the trimmed pieces that are not empty,
in the order of the pieces, each as often as it occurs among them. -/
theorem parseTags_ordered (tagsString : JSString) :
    joinComma (splitOn 44 tagsString) = tagsString ∧
    (∀ piece ∈ splitOn 44 tagsString, 44 ∉ piece) ∧
    (parseTags tagsString).Sublist ((splitOn 44 tagsString).map trim) ∧
    (∀ tag, tag ∈ parseTags tagsString ↔
      tag ≠ [] ∧ ∃ piece ∈ splitOn 44 tagsString, trim piece = tag) ∧
    (∀ tag, tag ≠ [] →
      (parseTags tagsString).count tag = ((splitOn 44 tagsString).map trim).count tag) := by
  refine ⟨(joinComma_splitOn tagsString).1, (joinComma_splitOn tagsString).2,
    List.filter_sublist _, ?_, ?_⟩
  · intro tag
    simp only [parseTags, List.mem_filter, List.mem_map, gt_iff_lt, decide_eq_true_eq,
      List.length_pos]
    tauto
  · intro tag htag
    unfold parseTags
    exact List.count_filter (p := fun t : JSString => decide (t.length > 0))
      (by simpa [List.length_pos] using htag)

/-- C24 (fails on the code): after `createDocument`, `saveDocument`, `encryptDocument`
with the `confirm` of `closeEditor` answered with Cancel, and `saveDocument`
again, the stored document has `encrypted` true and the content `<p>hi</p>`,
which is not an envelope: `atob` rejects it. Before the second save the stored
content was an envelope. -/
theorem saveDocument_after_encrypt_stores_plaintext :
    (encryptedPage.stored.map (fun d => (d.1, d.2.1, EncryptionManager.isEncrypted d.2.2)) =
      [(js "d1", true, true)]) ∧
    (encryptedPage.saveDocument workFields).stored = [(js "d1", true, js "<p>hi</p>")] ∧
    atob (js "<p>hi</p>") = none ∧
    EncryptionManager.decrypt demoCrypto encryptionManager (js "<p>hi</p>") (js "password1") =
      .error decryptError := by
  refine ⟨?_, ?_, by decide, rfl⟩
  · set_option maxRecDepth 100000 in decide
  · set_option maxRecDepth 100000 in decide

theorem generateId_take (randomPart : JSString) :
    (Utils.generateId 1730754000000 randomPart).take 16 = js "doc_173075400000" := by
  have h : Utils.generateId 1730754000000 randomPart =
      js "doc_1730754000000_" ++ randomPart := by
    unfold Utils.generateId
    have e : js "doc_" ++ numberToString 1730754000000 ++ js "_" = js "doc_1730754000000_" := by
      decide
    rw [e]
  rw [h, List.take_append_of_le_length (by decide)]
  decide

/-- C26 (fails on the code): at the clock reading 1730754000000 the key of
`generateSharedKey` is `anon-doc_173075400000` whatever the random source
gives: `substring(0, 16)` of the generated id keeps `doc_` and the first twelve
digits of the reading and drops the random part; a second call stores its
share data under the same `localStorage` key. -/
theorem generateSharedKey_ignores_random :
    (∀ randomPart, (editingPage.generateSharedKey 1730754000000 1730754000000 1730754000000
      randomPart).1 = some (js "anon-doc_173075400000")) ∧
    (editingPage.generateSharedKey 1730754000000 1730754000000 1730754000000
      (js "k3j2h1g0f")).1 =
    (editingPage.generateSharedKey 1730754000000 1730754000000 1730754000000
      (js "zzzzzzzzz")).1 ∧
    js "k3j2h1g0f" ≠ js "zzzzzzzzz" := by
  have key : ∀ randomPart, (editingPage.generateSharedKey 1730754000000 1730754000000
      1730754000000 randomPart).1 = some (js "anon-doc_173075400000") := by
    intro randomPart
    simp only [Page.generateSharedKey, generateId_take]
    rfl
  exact ⟨key, by rw [key, key], by decide⟩

/-- C27 (fails on the code): `generateShareKey('d1')` returns the token
`BEHKNQTWZcfiloru` for the stored document `d1`, `validateShareKey` finds the
token live at the clock reading 2000, and `createShareableUrl` gives the link
`...#key=BEHKNQTWZcfiloru`; `handleUrlParameters` on that link looks up
`share_BEHKNQTWZcfiloru`, not `anon_share_BEHKNQTWZcfiloru`, shows `Invalid or
expired share key` and opens no document. -/
theorem handleUrlParameters_misses_issued_token :
    (SharingManager.generateShareKey emptyStorage sampleRandom 1000 1000 (js "d1") none).1 =
      .ok (js "BEHKNQTWZcfiloru") ∧
    storeGet Document.id (js "d1") sampleDatabase.documents = some sampleDocument ∧
    (SharingManager.validateShareKey issuedStorage 2000 (js "BEHKNQTWZcfiloru")).1 =
      .valid (.record (issuedShare sampleRandom 1000 1000 (js "d1") none)) ∧
    hashOf (SharingManager.createShareableUrl (js "BEHKNQTWZcfiloru") sampleBaseUrl) =
      js "#key=BEHKNQTWZcfiloru" ∧
    (sharedPage.handleUrlParameters demoSurroundings (js "#key=BEHKNQTWZcfiloru")).actions =
      [.notification "Invalid or expired share key" "error"] ∧
    (sharedPage.handleUrlParameters demoSurroundings
      (js "#key=BEHKNQTWZcfiloru")).app.currentDocument = none ∧
    issuedStorage.getItem (js "share_BEHKNQTWZcfiloru") = none ∧
    issuedStorage.getItem (js "anon_share_BEHKNQTWZcfiloru") =
      some (.metadata (issuedShare sampleRandom 1000 1000 (js "d1") none)) := by
  refine ⟨?_, by decide, ?_, ?_, ?_, ?_, ?_, ?_⟩
  · set_option maxRecDepth 100000 in rfl
  · set_option maxRecDepth 100000 in decide
  · set_option maxRecDepth 100000 in decide
  · set_option maxRecDepth 100000 in decide
  · set_option maxRecDepth 100000 in decide
  · set_option maxRecDepth 100000 in decide
  · set_option maxRecDepth 100000 in decide

theorem documents_updateTagCount (sm : StorageManager) (tagName : JSString) (increment : Bool) :
    (sm.updateTagCount tagName increment).2.documents = sm.documents := by
  unfold StorageManager.updateTagCount StorageManager.getDB StorageManager.documents
  cases hdb : sm.db with
  | none => simp [hdb]
  | some db =>
    simp only []
    cases h1 : db.next with
    | failure e => simp [Database.tick]
    | success =>
      simp only []
      cases h2 : db.tick.next with
      | failure e => simp [Database.tick]
      | success => simp [Database.tick]

theorem documents_getAllTags (sm : StorageManager) :
    sm.getAllTags.2.documents = sm.documents := by
  unfold StorageManager.getAllTags StorageManager.getDB StorageManager.documents
  cases hdb : sm.db with
  | none => simp [hdb]
  | some db =>
    simp only []
    cases h1 : db.next with
    | failure e => simp [Database.tick]
    | success => simp [Database.tick]

theorem documents_getAllDocuments (sm : StorageManager) :
    sm.getAllDocuments.2.documents = sm.documents := by
  unfold StorageManager.getAllDocuments StorageManager.getDB StorageManager.documents
  cases hdb : sm.db with
  | none => simp [hdb]
  | some db =>
    simp only []
    cases h1 : db.next with
    | failure e => simp [Database.tick]
    | success => simp [Database.tick]

theorem documents_updateTagsLoop (existing : List JSString) (tags : List JSString) :
    ∀ sm : StorageManager, (updateTagsLoop existing sm tags).documents = sm.documents := by
  induction tags with
  | nil => intro sm; rfl
  | cons tag rest ih =>
    intro sm
    unfold updateTagsLoop
    by_cases hc : existing.contains tag = true
    · rw [if_pos hc]; exact ih sm
    · rw [if_neg hc]
      have hd := documents_updateTagCount sm tag true
      cases hres : sm.updateTagCount tag true with
      | mk res sm' =>
        rw [hres] at hd
        cases res with
        | ok t => simp only []; rw [ih sm']; exact hd
        | error e => simp only []; exact hd

theorem documents_updateTags (sm : StorageManager) (tags : List JSString) :
    (updateTags sm tags).documents = sm.documents := by
  unfold updateTags
  have hd := documents_getAllTags sm
  cases hres : sm.getAllTags with
  | mk res sm' =>
    rw [hres] at hd
    cases res with
    | ok t => simp only []; rw [documents_updateTagsLoop]; exact hd
    | error e => simp only []; exact hd

theorem documents_loadDocuments (sm : StorageManager) :
    (loadDocuments sm).documents = sm.documents :=
  documents_getAllDocuments sm

/-- C28: for a page whose store is open and holds the encrypted document `doc`,
a password under which `doc.content` decrypts, and a store whose next request
succeeds: `decryptAndOpenDocument(doc, password)` followed by `saveDocument()`
leaves in the store, under the id of `doc`, the record with `encrypted = false`
and the content of the editor (`fields.content`), with the title, tags and
time of the save and the other fields of `doc`, in place of the encrypted
record that was there; in between, the document in the editor is `doc` with the
decrypted content and `encrypted = false`. -/
theorem decrypt_then_save_stores_plaintext {Key : Type} (env : Surroundings Key) (page : Page)
    (db : Database) (doc : Document) (password plaintext : JSString) (fields : EditorFields)
    (hdb : page.app.storage.db = some db)
    (hstored : storeGet Document.id doc.id db.documents = some doc)
    (henc : doc.encrypted = true)
    (hdec : EncryptionManager.decrypt env.subtle env.manager doc.content password = .ok plaintext)
    (hreq : db.next = .success) :
    (page.decryptAndOpenDocument env doc password).app.currentDocument =
      some { doc with content := plaintext, encrypted := false } ∧
    storeGet Document.id doc.id
      ((page.decryptAndOpenDocument env doc password).saveDocument
        fields).app.storage.documents =
      some { doc with title := fields.title, content := fields.content,
                      tags := parseTags fields.tags, updatedAt := fields.now,
                      encrypted := false } ∧
    storeGet Document.id doc.id
      ((page.decryptAndOpenDocument env doc password).saveDocument
        fields).app.storage.documents ≠
      storeGet Document.id doc.id page.app.storage.documents := by
  have hopen : page.decryptAndOpenDocument env doc password =
      Page.mk (page.app.openDocumentEditor { doc with content := plaintext, encrypted := false })
        page.localStorage page.actions := by
    unfold Page.decryptAndOpenDocument
    rw [hdec]
  rw [hopen]
  have hbefore : storeGet Document.id doc.id page.app.storage.documents = some doc := by
    simp only [StorageManager.documents, hdb]
    exact hstored
  rw [hbefore]
  have hafter : storeGet Document.id doc.id
      ((Page.mk (page.app.openDocumentEditor { doc with content := plaintext, encrypted := false })
        page.localStorage page.actions).saveDocument fields).app.storage.documents =
      some { doc with title := fields.title, content := fields.content,
                      tags := parseTags fields.tags, updatedAt := fields.now,
                      encrypted := false } := by
    simp only [Page.saveDocument, AnonDocsApp.saveDocument, AnonDocsApp.openDocumentEditor]
    have hsave : ∀ d : Document, page.app.storage.saveDocument d =
        (.ok d,
          { db := some { db.tick with documents := storePut Document.id d db.documents } }) := by
      intro d
      unfold StorageManager.saveDocument StorageManager.getDB
      rw [hdb]
      simp only []
      rw [hreq]
    rw [hsave]
    simp only []
    rw [documents_loadDocuments, documents_updateTags]
    simp only [StorageManager.documents]
    exact storeGet_storePut_self Document.id
      { id := doc.id, title := fields.title, content := fields.content,
        createdAt := doc.createdAt, updatedAt := fields.now, encrypted := false,
        tags := parseTags fields.tags } db.documents
  refine ⟨rfl, hafter, ?_⟩
  rw [hafter]
  intro h
  have h2 := congrArg (fun o => o.map Document.encrypted) h
  simp only [Option.map_some'] at h2
  rw [henc] at h2
  exact absurd h2 (by decide)

/-- Witness of C28: the locked sample document, opened with the sample password and
saved with the fields of the example. -/
theorem decrypt_then_save_stores_plaintext_witness :
    (lockedPage.decryptAndOpenDocument demoSurroundings lockedDocument
      samplePassword).app.currentDocument =
      some { lockedDocument with content := samplePlaintext, encrypted := false } ∧
    storeGet Document.id lockedDocument.id
      ((lockedPage.decryptAndOpenDocument demoSurroundings lockedDocument
        samplePassword).saveDocument workFields).app.storage.documents =
      some { lockedDocument with title := workFields.title, content := workFields.content,
                                 tags := parseTags workFields.tags, updatedAt := workFields.now,
                                 encrypted := false } ∧
    storeGet Document.id lockedDocument.id
      ((lockedPage.decryptAndOpenDocument demoSurroundings lockedDocument
        samplePassword).saveDocument workFields).app.storage.documents ≠
      storeGet Document.id lockedDocument.id lockedPage.app.storage.documents :=
  decrypt_then_save_stores_plaintext demoSurroundings lockedPage
    { emptyDatabase with documents := [lockedDocument] } lockedDocument samplePassword
    samplePlaintext workFields rfl (by decide) rfl
    (by set_option maxRecDepth 100000 in rfl) rfl

theorem toScalarValuesAux_append_unit (u : Nat) (h1 : isLeadSurrogate u = false)
    (h2 : isTrailSurrogate u = false) (ys : JSString) :
    ∀ (xs : JSString) (o : Option Nat), toScalarValuesAux o (xs ++ u :: ys) =
      toScalarValuesAux o xs ++ u :: toScalarValuesAux none ys := by
  intro xs
  induction xs with
  | nil =>
    intro o
    cases o with
    | none => simp [toScalarValuesAux, h1, h2]
    | some hi => simp [toScalarValuesAux, h1, h2]
  | cons x rest ih =>
    intro o
    cases o with
    | none =>
      simp only [List.cons_append, toScalarValuesAux]
      split_ifs <;> simp [ih]
    | some hi =>
      simp only [List.cons_append, toScalarValuesAux]
      split_ifs <;> simp [ih]

theorem utf8Encode_append (xs ys : List Nat) :
    utf8Encode (xs ++ ys) = utf8Encode xs ++ utf8Encode ys := by
  induction xs with
  | nil => rfl
  | cons x rest ih => simp [utf8Encode, ih]

theorem textEncode_append_ascii (u : Nat) (hu : u < 0x80) (xs ys : JSString) :
    textEncode (xs ++ u :: ys) = textEncode xs ++ u :: textEncode ys := by
  have h1 : isLeadSurrogate u = false := by
    simp only [isLeadSurrogate, Bool.and_eq_false_imp, decide_eq_true_eq, decide_eq_false_iff_not]
    omega
  have h2 : isTrailSurrogate u = false := by
    simp only [isTrailSurrogate, Bool.and_eq_false_imp, decide_eq_true_eq, decide_eq_false_iff_not]
    omega
  unfold textEncode toScalarValues
  rw [toScalarValuesAux_append_unit u h1 h2, utf8Encode_append]
  simp [utf8Encode, utf8EncodeCodePoint, hu]

theorem mem_toScalarValuesAux (c : Nat) :
    ∀ (s : JSString) (o : Option Nat), c ∈ toScalarValuesAux o s → c ∈ s ∨ 0x80 ≤ c := by
  intro s
  induction s with
  | nil =>
    intro o h
    cases o with
    | none => simp [toScalarValuesAux] at h
    | some hi =>
      simp only [toScalarValuesAux, List.mem_singleton] at h
      right; omega
  | cons x rest ih =>
    intro o h
    cases o with
    | none =>
      simp only [toScalarValuesAux] at h
      split_ifs at h
      · rcases ih _ h with h | h
        · left; exact List.mem_cons_of_mem _ h
        · right; exact h
      · rcases List.mem_cons.mp h with h | h
        · right; omega
        · rcases ih _ h with h | h
          · left; exact List.mem_cons_of_mem _ h
          · right; exact h
      · rcases List.mem_cons.mp h with h | h
        · left; rw [h]; exact List.mem_cons_self _ _
        · rcases ih _ h with h | h
          · left; exact List.mem_cons_of_mem _ h
          · right; exact h
    | some hi =>
      simp only [toScalarValuesAux] at h
      split_ifs at h
      · rcases List.mem_cons.mp h with h | h
        · right; rw [h]; unfold surrogatePair; omega
        · rcases ih _ h with h | h
          · left; exact List.mem_cons_of_mem _ h
          · right; exact h
      · rcases List.mem_cons.mp h with h | h
        · right; omega
        · rcases ih _ h with h | h
          · left; exact List.mem_cons_of_mem _ h
          · right; exact h
      · rcases List.mem_cons.mp h with h | h
        · right; omega
        · rcases List.mem_cons.mp h with h | h
          · left; rw [h]; exact List.mem_cons_self _ _
          · rcases ih _ h with h | h
            · left; exact List.mem_cons_of_mem _ h
            · right; exact h

theorem mem_utf8EncodeCodePoint (b c : Nat) (h : b ∈ utf8EncodeCodePoint c) (hb : b < 0x80) :
    b = c := by
  unfold utf8EncodeCodePoint at h
  split_ifs at h
  · simpa using h
  · simp only [List.mem_cons, List.mem_singleton, List.not_mem_nil, or_false] at h
    omega
  · simp only [List.mem_cons, List.mem_singleton, List.not_mem_nil, or_false] at h
    omega
  · simp only [List.mem_cons, List.mem_singleton, List.not_mem_nil, or_false] at h
    omega

theorem mem_utf8Encode (b : Nat) (hb : b < 0x80) :
    ∀ cs : List Nat, b ∈ utf8Encode cs → b ∈ cs := by
  intro cs
  induction cs with
  | nil => intro h; simp [utf8Encode] at h
  | cons c rest ih =>
    intro h
    simp only [utf8Encode, List.mem_append] at h
    rcases h with h | h
    · rw [mem_utf8EncodeCodePoint b c h hb]; exact List.mem_cons_self _ _
    · exact List.mem_cons_of_mem _ (ih h)

theorem not_mem_textEncode (b : Nat) (hb : b < 0x80) (s : JSString) (h : b ∉ s) :
    b ∉ textEncode s := by
  intro hm
  unfold textEncode toScalarValues at hm
  rcases mem_toScalarValuesAux b s none (mem_utf8Encode b hb _ hm) with h' | h'
  · exact h h'
  · omega

theorem splitOn_append_sep (sep : Nat) (ys : JSString) :
    ∀ xs : JSString, splitOn sep (xs ++ sep :: ys) = splitOn sep xs ++ splitOn sep ys := by
  intro xs
  induction xs with
  | nil => simp [splitOn]
  | cons x rest ih =>
    simp only [List.cons_append, splitOn]
    by_cases hx : x = sep
    · simp [hx, ih]
    · simp only [hx, if_false]
      have ih' : splitOn sep (rest.append (sep :: ys)) = splitOn sep rest ++ splitOn sep ys := ih
      rw [ih']
      cases hs : splitOn sep rest with
      | nil => exact absurd hs (splitOn_ne_nil sep rest)
      | cons piece pieces => rfl

theorem splitOn_of_not_mem (sep : Nat) :
    ∀ ys : JSString, sep ∉ ys → splitOn sep ys = [ys] := by
  intro ys
  induction ys with
  | nil => intro _; rfl
  | cons y rest ih =>
    intro h
    have hy : y ≠ sep := fun e => h (by rw [e]; exact List.mem_cons_self _ _)
    have hr : sep ∉ rest := fun e => h (List.mem_cons_of_mem _ e)
    simp [splitOn, hy, ih hr]

theorem urlSearchParams_link (docId s : JSString) (hs : 0x26 ∉ s) :
    urlSearchParams ((js "#encrypted=" ++ docId ++ js "&share=" ++ s).drop 1) =
      encryptedParams docId ++ [(js "share", decodeComponent (textEncode s))] := by
  have e1 : js "#encrypted=" = 0x23 :: js "encrypted=" := by decide
  have e2 : js "&share=" = 0x26 :: js "share=" := by decide
  have e3 : js "encrypted=" = 0x65 :: js "ncrypted=" := by decide
  have e4 : js "share=" = [115, 104, 97, 114, 101, 61] := by decide
  have hinit : (js "#encrypted=" ++ docId ++ js "&share=" ++ s).drop 1 =
      (js "encrypted=" ++ docId) ++ 0x26 :: (js "share=" ++ s) := by
    rw [e1, e2]; simp
  rw [hinit]
  have hq : urlSearchParams ((js "encrypted=" ++ docId) ++ 0x26 :: (js "share=" ++ s)) =
      parseUrlencoded (textEncode ((js "encrypted=" ++ docId) ++ 0x26 :: (js "share=" ++ s))) := by
    unfold urlSearchParams
    rw [e3]
    rfl
  rw [hq, textEncode_append_ascii 0x26 (by decide)]
  have hnot : (0x26 : Nat) ∉ textEncode (js "share=" ++ s) := by
    apply not_mem_textEncode 0x26 (by decide)
    rw [e4]
    intro hm
    rcases List.mem_append.mp hm with hm | hm
    · revert hm; decide
    · exact hs hm
  unfold encryptedParams parseUrlencoded
  rw [splitOn_append_sep, splitOn_of_not_mem 0x26 _ hnot, List.filter_append, List.map_append]
  congr 1

theorem paramsHas_append_share (params : List (JSString × JSString)) (v name : JSString) :
    paramsHas (params ++ [(js "share", v)]) name =
      (paramsHas params name || decide (js "share" = name)) := by
  simp [paramsHas]

theorem paramsGet_append_share (params : List (JSString × JSString)) (v name : JSString)
    (h : js "share" ≠ name) :
    paramsGet (params ++ [(js "share", v)]) name = paramsGet params name := by
  unfold paramsGet
  rw [List.find?_append]
  cases hf : params.find? (fun p => decide (p.1 = name)) with
  | some p => simp
  | none => simp [h]

/-- C29: for every page, document id `docId` and share values `s1`, `s2` (values
of the parameter, so without `&`), `handleUrlParameters` on
`#encrypted=<docId>&share=<s1>` and on `#encrypted=<docId>&share=<s2>` ends in
the same page: the same actions shown, the same document reached, the same
store and storage. -/
theorem handleUrlParameters_share_value_ignored {Key : Type} (env : Surroundings Key)
    (page : Page) (docId s1 s2 : JSString) (h1 : 0x26 ∉ s1) (h2 : 0x26 ∉ s2) :
    page.handleUrlParameters env (js "#encrypted=" ++ docId ++ js "&share=" ++ s1) =
      page.handleUrlParameters env (js "#encrypted=" ++ docId ++ js "&share=" ++ s2) := by
  have n1 : js "share" ≠ js "encrypted" := by decide
  have n2 : js "share" ≠ js "key" := by decide
  have n3 : js "share" ≠ js "view" := by decide
  unfold Page.handleUrlParameters
  simp only [urlSearchParams_link docId s1 h1, urlSearchParams_link docId s2 h2,
    paramsHas_append_share, paramsGet_append_share _ _ _ n1, paramsGet_append_share _ _ _ n2,
    paramsGet_append_share _ _ _ n3]

/-- Witness of C29: the links to the locked sample document with the share values
`doc_17307540` and `x`; both show the password modal for `d1`. -/
theorem handleUrlParameters_share_value_ignored_witness :
    (0x26 ∉ js "doc_17307540" ∧ 0x26 ∉ js "x") ∧
    lockedPage.handleUrlParameters demoSurroundings
        (js "#encrypted=" ++ js "d1" ++ js "&share=" ++ js "doc_17307540") =
      lockedPage.handleUrlParameters demoSurroundings
        (js "#encrypted=" ++ js "d1" ++ js "&share=" ++ js "x") :=
  ⟨⟨by decide, by decide⟩,
    handleUrlParameters_share_value_ignored demoSurroundings lockedPage (js "d1")
      (js "doc_17307540") (js "x") (by decide) (by decide)⟩

theorem handleUrlParameters_link_sample :
    (lockedPage.handleUrlParameters demoSurroundings
        (js "#encrypted=d1&share=doc_17307540")).actions = [.sharedPasswordModal (js "d1")] := by
  set_option maxRecDepth 100000 in decide

end AnonDocs
